import Mathlib

/-!
Furnace settings screen: key binding table, keybind compiler, text import/export,
MIDI bind list, note-key map and settings persistence.

A shallow embedding of the code of `src/gui/settings.cpp` outside widget rendering:
`parseKeybinds`, `resetKeybinds`, `resetColors`, `importKeybinds`, `importColors`,
`exportKeybinds`, `exportColors`, `stripName`, `promptKey`, `syncSettings`,
`commitSettings`, and the parts of `drawSettings` that write the MIDI map, the bind list,
the learn target and the note-key map. The note-key codec, the matching of MIDI binds and
the config store live in other files; they are modelled from the specification and marked
as such.

Conventions of the embedding.

* A C `int` is an `Int`; every value the modelled code stores comes from the
  registry or from `std::stoi`, so it lies in the 32-bit range and no
  arithmetic is performed on it other than bitwise and.
* A `std::map<int,int>` is a partial function `Int → Option Nat`
  (`clear` is the empty function, `m[k]=i` is `Function.update`).
* C strings and file contents are lists of characters, one `Char` per byte.
* The catalogs and enum constants of `gui.h` / `guiConst.cpp` are not part of
  the translated file; they are the fields of `GuiConst`.
* `ImVec4` holds four floats; it is kept as an uninterpreted carrier `V`, with
  the two ImGui conversions taken as fields of `GuiConst`.
* A file opened for reading is an `Option (List Char)`: its content, or `none`
  when `ps_fopen` returns `NULL`. A file opened for writing is an
  `Option (Nat → Bool)`: `none` when `ps_fopen` returns `NULL`, otherwise the
  function telling which `fprintf` calls succeed.
* Calls to the logger (`logW`) do not touch the modelled state and are left out.
* Arrays are total functions of the index; the theorems about the registry only
  speak of identifiers below `GUI_ACTION_MAX`.
-/

namespace Furnace

/-! Catalogs and constants -/

/-- One entry of the action registry `guiActions[]`. -/
structure FurnaceGUIActionDef where
  name : List Char
  friendlyName : List Char
  defaultBind : Int

/-- One entry of the colour catalog `guiColors[]`. -/
structure FurnaceGUIColorDef where
  name : List Char
  friendlyName : List Char
  defaultColor : Nat

/-- The constants and tables of `gui.h` / `guiConst.cpp` used by the settings code,
together with the two ImGui colour conversions. -/
structure GuiConst (V : Type) where
  GUI_ACTION_MAX : Nat
  GUI_COLOR_MAX : Nat
  FURK_MASK : Int
  GUI_ACTION_GLOBAL_MIN : Nat
  GUI_ACTION_GLOBAL_MAX : Nat
  GUI_ACTION_PAT_MIN : Nat
  GUI_ACTION_PAT_MAX : Nat
  GUI_ACTION_INS_LIST_MIN : Nat
  GUI_ACTION_INS_LIST_MAX : Nat
  GUI_ACTION_WAVE_LIST_MIN : Nat
  GUI_ACTION_WAVE_LIST_MAX : Nat
  GUI_ACTION_SAMPLE_LIST_MIN : Nat
  GUI_ACTION_SAMPLE_LIST_MAX : Nat
  GUI_ACTION_SAMPLE_MIN : Nat
  GUI_ACTION_SAMPLE_MAX : Nat
  GUI_ACTION_ORDERS_MIN : Nat
  GUI_ACTION_ORDERS_MAX : Nat
  guiActions : Nat → FurnaceGUIActionDef
  guiColors : Nat → FurnaceGUIColorDef
  ColorConvertU32ToFloat4 : Nat → V
  ColorConvertFloat4ToU32 : V → Nat

/-- A dispatch map `std::map<int,int>`: raw key-code to action identifier. -/
abbrev KeyMap := Int → Option Nat

/-- The result of `std::map::clear`. -/
def KeyMap.clear : KeyMap := fun _ => none

/-- A C `float` as far as comparisons and assignments see it: NaN, an infinity, or a
finite value, kept as the rational it denotes. -/
inductive CFloat where
  | nan
  | negInf
  | fin (q : ℚ)
  | posInf
  deriving DecidableEq

/-- The comparison `a<b` of two floats; every comparison with NaN is false. -/
def CFloat.lt : CFloat → CFloat → Bool
  | .nan, _ => false
  | _, .nan => false
  | .negInf, .negInf => false
  | .negInf, _ => true
  | .fin _, .negInf => false
  | .fin a, .fin b => decide (a < b)
  | .fin _, .posInf => true
  | .posInf, _ => false

/-- The comparison `a<=b` of two floats; every comparison with NaN is false. -/
def CFloat.le : CFloat → CFloat → Bool
  | .nan, _ => false
  | _, .nan => false
  | .negInf, _ => true
  | .fin _, .negInf => false
  | .fin a, .fin b => decide (a ≤ b)
  | .fin _, .posInf => true
  | .posInf, .posInf => true
  | .posInf, _ => false

/-- The note-key map `std::map<int,int> noteKeys`, as the list of its entries
(scancode, note slot) in iteration order. -/
abbrev NoteKeys := List (Int × Int)

/-- The struct `MappedInput`: a scancode and its note slot. -/
structure MappedInput where
  scan : Int
  val : Int
  deriving DecidableEq, Repr

/-- A MIDI bind rule (`MIDIBind` of `gui.h`): message type, channel, two data bytes and
the action it fires. -/
structure MIDIBind where
  type : Int
  channel : Int
  data1 : Int
  data2 : Int
  action : Int
  deriving DecidableEq, Repr

/-- The members of `midiMap` that the settings screen edits. -/
structure MIDIMap where
  noteInput : Bool := false
  volInput : Bool := false
  directChannel : Bool := false
  programChange : Bool := false
  valueInputStyle : Int := 0
  valueInputControlMSB : Int := 0
  valueInputControlLSB : Int := 0
  valueInputControlSingle : Int := 0
  valueInputSpecificStyle : Nat → Int := fun _ => 0
  valueInputSpecificMSB : Nat → Int := fun _ => 0
  valueInputSpecificLSB : Nat → Int := fun _ => 0
  valueInputSpecificSingle : Nat → Int := fun _ => 0
  binds : List MIDIBind := []

/-- The members of `settings` that `syncSettings` reads and `commitSettings` writes. -/
structure Settings where
  mainFontSize : Int := 0
  patFontSize : Int := 0
  iconSize : Int := 0
  audioEngine : Int := 0
  audioDevice : List Char := []
  midiInDevice : List Char := []
  midiOutDevice : List Char := []
  audioQuality : Int := 0
  audioBufSize : Int := 0
  audioRate : Int := 0
  arcadeCore : Int := 0
  ym2612Core : Int := 0
  saaCore : Int := 0
  mainFont : Int := 0
  patFont : Int := 0
  mainFontPath : List Char := []
  patFontPath : List Char := []
  patRowsBase : Int := 0
  orderRowsBase : Int := 0
  soloAction : Int := 0
  pullDeleteBehavior : Int := 0
  wrapHorizontal : Int := 0
  wrapVertical : Int := 0
  macroView : Int := 0
  fmNames : Int := 0
  allowEditDocking : Int := 0
  chipNames : Int := 0
  overflowHighlight : Int := 0
  partyTime : Int := 0
  germanNotation : Int := 0
  stepOnDelete : Int := 0
  scrollStep : Int := 0
  sysSeparators : Int := 0
  forceMono : Int := 0
  controlLayout : Int := 0
  restartOnFlagChange : Int := 0
  statusDisplay : Int := 0
  dpiScale : CFloat := CFloat.fin 0
  viewPrevPattern : Int := 0
  guiColorsBase : Int := 0
  avoidRaisingPattern : Int := 0
  insFocusesPattern : Int := 0
  stepOnInsert : Int := 0
  unifiedDataView : Int := 0
  sysFileDialog : Int := 0
  roundedWindows : Int := 0
  roundedButtons : Int := 0
  roundedMenus : Int := 0
  loadJapanese : Int := 0
  fmLayout : Int := 0
  susPosition : Int := 0
  effectCursorDir : Int := 0
  cursorPastePos : Int := 0
  titleBarInfo : Int := 0
  titleBarSys : Int := 0
  frameBorders : Int := 0
  effectDeletionAltersValue : Int := 0

/-- The members of `FurnaceGUI` that the settings code reads or writes. -/
structure FurnaceGUI (V : Type) where
  actionKeys : Nat → Int
  uiColors : Nat → V
  actionMapGlobal : KeyMap
  actionMapPat : KeyMap
  actionMapInsList : KeyMap
  actionMapWaveList : KeyMap
  actionMapSampleList : KeyMap
  actionMapSample : KeyMap
  actionMapOrders : KeyMap
  bindSetTarget : Int := 0
  bindSetActive : Bool := false
  bindSetPending : Bool := false
  bindSetPrevValue : Int := 0
  noteKeys : NoteKeys := []
  settings : Settings := {}
  midiMap : MIDIMap := {}
  learning : Int := -1

/-- The seven usage contexts, one per dispatch map. -/
inductive ActionContext where
  | global
  | pat
  | insList
  | waveList
  | sampleList
  | sample
  | orders
  deriving DecidableEq, Repr

variable {V : Type}

/-- The `..._MIN` sentinel of a context. -/
def GuiConst.ctxMin (K : GuiConst V) : ActionContext → Nat
  | .global => K.GUI_ACTION_GLOBAL_MIN
  | .pat => K.GUI_ACTION_PAT_MIN
  | .insList => K.GUI_ACTION_INS_LIST_MIN
  | .waveList => K.GUI_ACTION_WAVE_LIST_MIN
  | .sampleList => K.GUI_ACTION_SAMPLE_LIST_MIN
  | .sample => K.GUI_ACTION_SAMPLE_MIN
  | .orders => K.GUI_ACTION_ORDERS_MIN

/-- The `..._MAX` sentinel of a context. -/
def GuiConst.ctxMax (K : GuiConst V) : ActionContext → Nat
  | .global => K.GUI_ACTION_GLOBAL_MAX
  | .pat => K.GUI_ACTION_PAT_MAX
  | .insList => K.GUI_ACTION_INS_LIST_MAX
  | .waveList => K.GUI_ACTION_WAVE_LIST_MAX
  | .sampleList => K.GUI_ACTION_SAMPLE_LIST_MAX
  | .sample => K.GUI_ACTION_SAMPLE_MAX
  | .orders => K.GUI_ACTION_ORDERS_MAX

/-- The dispatch map of a context. -/
def FurnaceGUI.actionMap (g : FurnaceGUI V) : ActionContext → KeyMap
  | .global => g.actionMapGlobal
  | .pat => g.actionMapPat
  | .insList => g.actionMapInsList
  | .waveList => g.actionMapWaveList
  | .sampleList => g.actionMapSampleList
  | .sample => g.actionMapSample
  | .orders => g.actionMapOrders

/-! parseKeybinds -/

/-- The body of one `parseKeybinds` loop iteration:
`if (actionKeys[i]&FURK_MASK) map[actionKeys[i]]=i;`. -/
def bindStep (mask : Int) (keys : Nat → Int) (m : KeyMap) (i : Nat) : KeyMap :=
  if Int.land (keys i) mask ≠ 0 then Function.update m (keys i) (some i) else m

/-- One loop of `parseKeybinds`: `for (int i=MIN+1; i<MAX; i++) ...`. -/
def bindLoop (mask : Int) (keys : Nat → Int) (lo hi : Nat) (m : KeyMap) : KeyMap :=
  (List.range' (lo + 1) (hi - (lo + 1))).foldl (bindStep mask keys) m

/-- The method `FurnaceGUI::parseKeybinds`: clear the seven maps, then fill each from its
identifier range. -/
def parseKeybinds (K : GuiConst V) (g : FurnaceGUI V) : FurnaceGUI V :=
  let g := { g with
    actionMapGlobal := KeyMap.clear,
    actionMapPat := KeyMap.clear,
    actionMapInsList := KeyMap.clear,
    actionMapWaveList := KeyMap.clear,
    actionMapSampleList := KeyMap.clear,
    actionMapSample := KeyMap.clear,
    actionMapOrders := KeyMap.clear }
  let fill := bindLoop K.FURK_MASK g.actionKeys
  let g := { g with
    actionMapGlobal := fill K.GUI_ACTION_GLOBAL_MIN K.GUI_ACTION_GLOBAL_MAX g.actionMapGlobal }
  let g := { g with
    actionMapPat := fill K.GUI_ACTION_PAT_MIN K.GUI_ACTION_PAT_MAX g.actionMapPat }
  let g := { g with
    actionMapInsList := fill K.GUI_ACTION_INS_LIST_MIN K.GUI_ACTION_INS_LIST_MAX g.actionMapInsList }
  let g := { g with
    actionMapWaveList := fill K.GUI_ACTION_WAVE_LIST_MIN K.GUI_ACTION_WAVE_LIST_MAX g.actionMapWaveList }
  let g := { g with
    actionMapSampleList :=
      fill K.GUI_ACTION_SAMPLE_LIST_MIN K.GUI_ACTION_SAMPLE_LIST_MAX g.actionMapSampleList }
  let g := { g with
    actionMapSample := fill K.GUI_ACTION_SAMPLE_MIN K.GUI_ACTION_SAMPLE_MAX g.actionMapSample }
  let g := { g with
    actionMapOrders := fill K.GUI_ACTION_ORDERS_MIN K.GUI_ACTION_ORDERS_MAX g.actionMapOrders }
  g

/-! resetKeybinds and resetColors -/

/-- The body of the `resetKeybinds` loop:
`if (guiActions[i].defaultBind==-1) continue; actionKeys[i]=guiActions[i].defaultBind;`. -/
def resetKeybindsStep (K : GuiConst V) (keys : Nat → Int) (i : Nat) : Nat → Int :=
  if (K.guiActions i).defaultBind = -1 then keys
  else Function.update keys i (K.guiActions i).defaultBind

/-- The method `FurnaceGUI::resetKeybinds`. The loop bound is `GUI_COLOR_MAX`, as in the
source. -/
def resetKeybinds (K : GuiConst V) (g : FurnaceGUI V) : FurnaceGUI V :=
  let keys := (List.range K.GUI_COLOR_MAX).foldl (resetKeybindsStep K) g.actionKeys
  parseKeybinds K { g with actionKeys := keys }

/-- The body of the `resetColors` loop. -/
def resetColorsStep (K : GuiConst V) (cols : Nat → V) (i : Nat) : Nat → V :=
  Function.update cols i (K.ColorConvertU32ToFloat4 (K.guiColors i).defaultColor)

/-- The method `FurnaceGUI::resetColors`. -/
def resetColors (K : GuiConst V) (g : FurnaceGUI V) : FurnaceGUI V :=
  { g with uiColors := (List.range K.GUI_COLOR_MAX).foldl (resetColorsStep K) g.uiColors }

/-! Reading a text file line by line -/

/-- Reads at most `n` characters from the unread part of a file, stopping after a newline:
returns the characters read and what is left unread. -/
def fgetsAux : Nat → List Char → List Char × List Char
  | 0, rest => ([], rest)
  | _ + 1, [] => ([], [])
  | n + 1, c :: cs =>
    if c = '\n' then ([c], cs) else (c :: (fgetsAux n cs).1, (fgetsAux n cs).2)

/-- The call `fgets(line,size,f)`: at most `size-1` characters are stored. The call fails
(returns `NULL`) exactly when nothing is left to read. -/
def fgets (size : Nat) (rest : List Char) : List Char × List Char :=
  fgetsAux (size - 1) rest

/-- The state of the character loop over one line: `key`, `value`, `keyOrValue`. -/
structure LineScan where
  key : List Char
  value : List Char
  keyOrValue : Bool
  deriving DecidableEq, Repr

/-- The loop `for (char* i=line; *i; i++)` of the two import functions: it stops at the
terminating NUL, skips newlines, and splits at the first `=`. -/
def scanLine : List Char → LineScan → LineScan
  | [], st => st
  | c :: cs, st =>
    if c = Char.ofNat 0 then st
    else if c = '\n' then scanLine cs st
    else if st.keyOrValue then scanLine cs { st with value := st.value ++ [c] }
    else if c = '=' then scanLine cs { st with keyOrValue := true }
    else scanLine cs { st with key := st.key ++ [c] }

/-- The initial state of the character loop: `key=""`, `value=""`, `keyOrValue=false`. -/
def LineScan.init : LineScan := ⟨[], [], false⟩

/-- The white space `strtol` skips (`isspace` in the C locale). -/
def isspace (c : Char) : Bool :=
  c = ' ' || (9 ≤ c.toNat && c.toNat ≤ 13)

/-- The value of a string of decimal digits. -/
def digitsValue (ds : List Char) : Nat :=
  ds.foldl (fun a c => 10 * a + (c.toNat - 48)) 0

/-- The end of `std::stoi`: the value of the digits read, with its sign; `none` stands
for the two exceptions, `std::invalid_argument` (no digit) and `std::out_of_range` (the
number does not fit an `int`). -/
def stoiDigits (neg : Bool) (ds : List Char) : Option Int :=
  if ds = [] then none
  else
    let v : Int := if neg then -(digitsValue ds : Int) else (digitsValue ds : Int)
    if -2147483648 ≤ v ∧ v ≤ 2147483647 then some v else none

/-- The part of `std::stoi` after the leading white space: an optional sign and the
longest run of digits. -/
def stoiSigned (s1 : List Char) : Option Int :=
  let neg := decide (s1.head? = some '-')
  let s2 := if s1.head? = some '-' ∨ s1.head? = some '+' then s1.tail else s1
  stoiDigits neg (s2.takeWhile Char.isDigit)

/-- The call `std::stoi(value)` in base 10: skip white space, then read a signed number;
what follows the digits is ignored. -/
def stoi (s : List Char) : Option Int :=
  stoiSigned (s.dropWhile isspace)

/-! importKeybinds and importColors -/

/-- The reading loop that `importKeybinds` and `importColors` share word for word:
`while (!feof(f)) { if (fgets(line,4095,f)==NULL) break; ... }`, with `step` standing for
what the body does with the line. The loop is left when nothing is left to read; every
other iteration reads at least one character, so a fuel of the length of the file is
never exhausted before the end of the file. -/
def importLoop {σ : Type} (step : List Char → σ → σ) : Nat → List Char → σ → σ
  | 0, _, st => st
  | fuel + 1, rest, st =>
    if rest = [] then st
    else importLoop step fuel (fgets 4095 rest).2 (step (fgets 4095 rest).1 st)

/-- The linear scan of `importKeybinds` over the registry: the first entry whose name
equals the key gets the parsed value; an exception of `std::stoi` leaves the loop. -/
def importKeybindsScan (K : GuiConst V) (key value : List Char) :
    List Nat → (Nat → Int) → (Nat → Int)
  | [], keys => keys
  | i :: is, keys =>
    if key = (K.guiActions i).name then
      match stoi value with
      | some v => Function.update keys i v
      | none => keys
    else importKeybindsScan K key value is keys

/-- What `importKeybinds` does with one line returned by `fgets`. -/
def importKeybindsLine (K : GuiConst V) (line : List Char) (keys : Nat → Int) : Nat → Int :=
  let st := scanLine line LineScan.init
  if st.keyOrValue then
    importKeybindsScan K st.key st.value (List.range K.GUI_ACTION_MAX) keys
  else keys

/-- The loop `while (!feof(f))` of `importKeybinds` on the unread part of the file. -/
def importKeybindsLoop (K : GuiConst V) (fuel : Nat) (rest : List Char) (keys : Nat → Int) :
    Nat → Int :=
  importLoop (importKeybindsLine K) fuel rest keys

/-- The method `FurnaceGUI::importKeybinds`; `file` is the content of the file at `path`,
or `none` when `ps_fopen` returns `NULL`. -/
def importKeybinds (K : GuiConst V) (file : Option (List Char)) (g : FurnaceGUI V) :
    Bool × FurnaceGUI V :=
  match file with
  | none => (false, g)
  | some f =>
    let g := resetKeybinds K g
    (true, { g with actionKeys := importKeybindsLoop K f.length f g.actionKeys })

/-- The conversion of an `int` to `ImU32`. -/
def toU32 (v : Int) : Nat := (v % 4294967296).toNat

/-- The linear scan of `importColors` over the colour catalog. -/
def importColorsScan (K : GuiConst V) (key value : List Char) :
    List Nat → (Nat → V) → (Nat → V)
  | [], cols => cols
  | i :: is, cols =>
    if key = (K.guiColors i).name then
      match stoi value with
      | some v => Function.update cols i (K.ColorConvertU32ToFloat4 (toU32 v))
      | none => cols
    else importColorsScan K key value is cols

/-- What `importColors` does with one line returned by `fgets`. -/
def importColorsLine (K : GuiConst V) (line : List Char) (cols : Nat → V) : Nat → V :=
  let st := scanLine line LineScan.init
  if st.keyOrValue then
    importColorsScan K st.key st.value (List.range K.GUI_COLOR_MAX) cols
  else cols

/-- The loop `while (!feof(f))` of `importColors`. -/
def importColorsLoop (K : GuiConst V) (fuel : Nat) (rest : List Char) (cols : Nat → V) :
    Nat → V :=
  importLoop (importColorsLine K) fuel rest cols

/-- The method `FurnaceGUI::importColors`. -/
def importColors (K : GuiConst V) (file : Option (List Char)) (g : FurnaceGUI V) :
    Bool × FurnaceGUI V :=
  match file with
  | none => (false, g)
  | some f =>
    let g := resetColors K g
    (true, { g with uiColors := importColorsLoop K f.length f g.uiColors })

/-! exportKeybinds and exportColors -/

/-- The text `printf` produces for `%d`. -/
def fmtInt (v : Int) : List Char :=
  if v < 0 then '-' :: Nat.toDigits 10 v.natAbs else Nat.toDigits 10 v.natAbs

/-- An `ImU32` passed to `%d` is read as an `int`. -/
def toInt32 (c : Nat) : Int :=
  if c % 4294967296 < 2147483648 then (c % 4294967296 : Nat)
  else (c % 4294967296 : Nat) - 4294967296

/-- The text of `fprintf(f,"%s=%d\n",name,v)`. -/
def fmtLine (name : List Char) (v : Int) : List Char :=
  name ++ '=' :: (fmtInt v ++ ['\n'])

/-- The loop of `exportKeybinds` over the identifiers still to visit; `wr i` tells
whether the `fprintf` of iteration `i` succeeds, `out` is the text written so far. A
failed `fprintf` leaves the loop. -/
def exportKeybindsLoop (K : GuiConst V) (keys : Nat → Int) (wr : Nat → Bool) :
    List Nat → List Char → List Char
  | [], out => out
  | i :: is, out =>
    if (K.guiActions i).defaultBind = -1 then exportKeybindsLoop K keys wr is out
    else if wr i then
      exportKeybindsLoop K keys wr is (out ++ fmtLine (K.guiActions i).name (keys i))
    else out

/-- The method `FurnaceGUI::exportKeybinds`; `file` is `none` when `ps_fopen` returns
`NULL`, and otherwise tells which writes succeed. The result is the return value, the state after
the call and the text written to the file. -/
def exportKeybinds (K : GuiConst V) (file : Option (Nat → Bool)) (g : FurnaceGUI V) :
    Bool × FurnaceGUI V × Option (List Char) :=
  match file with
  | none => (false, g, none)
  | some wr =>
    (true, g, some (exportKeybindsLoop K g.actionKeys wr (List.range K.GUI_ACTION_MAX) []))

/-- The loop of `exportColors`. -/
def exportColorsLoop (K : GuiConst V) (cols : Nat → V) (wr : Nat → Bool) :
    List Nat → List Char → List Char
  | [], out => out
  | i :: is, out =>
    if wr i then
      exportColorsLoop K cols wr is
        (out ++ fmtLine (K.guiColors i).name (toInt32 (K.ColorConvertFloat4ToU32 (cols i))))
    else out

/-- The method `FurnaceGUI::exportColors`. -/
def exportColors (K : GuiConst V) (file : Option (Nat → Bool)) (g : FurnaceGUI V) :
    Bool × FurnaceGUI V × Option (List Char) :=
  match file with
  | none => (false, g, none)
  | some wr =>
    (true, g, some (exportColorsLoop K g.uiColors wr (List.range K.GUI_COLOR_MAX) []))

/-! stripName and promptKey -/

/-- The body of the `stripName` loop: ASCII letters and digits are appended as they
are, every other character is appended as `-`. -/
def stripNameStep (ret : List Char) (i : Char) : List Char :=
  if ('A' ≤ i ∧ i ≤ 'Z') ∨ ('a' ≤ i ∧ i ≤ 'z') ∨ ('0' ≤ i ∧ i ≤ '9') then ret ++ [i]
  else ret ++ ['-']

/-- The function `stripName`: the loop `for (char& i: what)` building `ret`. -/
def stripName (what : List Char) : List Char :=
  what.foldl stripNameStep []

/-- The method `FurnaceGUI::promptKey`, its five assignments in source order. -/
def promptKey (which : Nat) (g : FurnaceGUI V) : FurnaceGUI V :=
  let g := { g with bindSetTarget := (which : Int) }
  let g := { g with bindSetActive := true }
  let g := { g with bindSetPending := true }
  let g := { g with bindSetPrevValue := g.actionKeys which }
  { g with actionKeys := Function.update g.actionKeys which 0 }

/-! MIDI value input: the control change fields -/

/-- The pattern `if (ImGui::InputInt(label,&v,1,16)) { if (v<0) v=0; if (v>127) v=127; }`
of the CC fields. The widget reports `none` when it returns false and leaves `v` alone,
and `some x` when it returns true after storing the entered `x` in `v`. -/
def editCC (input : Option Int) (v : Int) : Int :=
  match input with
  | none => v
  | some x =>
    let v := x
    let v := if v < 0 then 0 else v
    if v > 127 then 127 else v

/-- A combo box `ImGui::Combo(label,&v,...)`: `some x` when the user picks entry `x`. -/
def editCombo (input : Option Int) (v : Int) : Int :=
  match input with
  | none => v
  | some x => x

/-- What the user does to the value input widgets during one frame. -/
structure ValueInputEvents where
  style : Option Int
  controlSingle : Option Int
  controlMSB : Option Int
  controlLSB : Option Int
  specificStyle : Nat → Option Int
  specificSingle : Nat → Option Int
  specificMSB : Nat → Option Int
  specificLSB : Nat → Option Int

/-- The global value input widgets of `drawSettings`: the style combo, then the CC
fields the style shows. -/
def drawValueInputControls (ev : ValueInputEvents) (m : MIDIMap) : MIDIMap :=
  let m := { m with valueInputStyle := editCombo ev.style m.valueInputStyle }
  if m.valueInputStyle > 3 then
    if m.valueInputStyle = 6 then
      { m with valueInputControlSingle := editCC ev.controlSingle m.valueInputControlSingle }
    else
      let m := { m with valueInputControlMSB := editCC ev.controlMSB m.valueInputControlMSB }
      { m with valueInputControlLSB := editCC ev.controlLSB m.valueInputControlLSB }
  else m

/-- One iteration of the loop `for (int i=0; i<18; i++)` over the per-column controls. -/
def drawSpecificControl (ev : ValueInputEvents) (m : MIDIMap) (i : Nat) : MIDIMap :=
  let style := editCombo (ev.specificStyle i) (m.valueInputSpecificStyle i)
  let m := { m with valueInputSpecificStyle := Function.update m.valueInputSpecificStyle i style }
  if m.valueInputSpecificStyle i > 0 then
    if m.valueInputSpecificStyle i = 3 then
      let single := editCC (ev.specificSingle i) (m.valueInputSpecificSingle i)
      { m with valueInputSpecificSingle := Function.update m.valueInputSpecificSingle i single }
    else
      let msb := editCC (ev.specificMSB i) (m.valueInputSpecificMSB i)
      let m := { m with valueInputSpecificMSB := Function.update m.valueInputSpecificMSB i msb }
      let lsb := editCC (ev.specificLSB i) (m.valueInputSpecificLSB i)
      { m with valueInputSpecificLSB := Function.update m.valueInputSpecificLSB i lsb }
  else m

/-- The value input part of one frame of `drawSettings`: the global widgets, then the
eighteen per-column ones. -/
def drawValueInput (ev : ValueInputEvents) (m : MIDIMap) : MIDIMap :=
  (List.range 18).foldl (drawSpecificControl ev) (drawValueInputControls ev m)

/-! The volume curve -/

/-- Worker of `floorLog2`: the number of halvings that bring `n` below 2; the
first argument bounds the number of steps. -/
def log2Aux : Nat → Nat → Nat
  | 0, _ => 0
  | fuel + 1, n => if n < 2 then 0 else log2Aux fuel (n / 2) + 1

/-- Position of the highest set bit of `n` (0 for `n < 2`). -/
def floorLog2 (n : Nat) : Nat := log2Aux n n

/-- The power of two `2^k` as a rational, for an integer exponent. -/
def pow2 (k : Int) : ℚ :=
  if 0 ≤ k then ((2 ^ k.toNat : Nat) : ℚ) else 1 / ((2 ^ (-k).toNat : Nat) : ℚ)

/-- Binary exponent of a positive rational: the `e` with `2^e ≤ q < 2^(e+1)`. -/
def ilog2 (q : ℚ) : Int :=
  let e0 : Int := (floorLog2 q.num.natAbs : Int) - (floorLog2 q.den : Int)
  if pow2 e0 ≤ q then e0 else e0 - 1

/-- Rounding to the nearest integer, ties to the even one: the rounding of the
53-bit significand in the default IEEE 754 rounding mode. -/
def roundHalfEven (s : ℚ) : Int :=
  let f := ⌊s⌋
  let r := s - f
  if r < 1 / 2 then f else if 1 / 2 < r then f + 1 else if f % 2 = 0 then f else f + 1

/-- The `double` nearest to a positive rational: a 53-bit significand times a
power of two. The exponent range is not bounded, so the value is the one C
computes whenever the result is a normal number (no overflow, no subnormal);
every quantity of the volume curve is. -/
def rndPos (q : ℚ) : ℚ :=
  pow2 (ilog2 q - 52) * roundHalfEven (q / pow2 (ilog2 q - 52))

/-- The result of a `double` operation whose exact result is `q`: `q` rounded
to the nearest `double`, ties to even. -/
def roundDouble (q : ℚ) : ℚ :=
  if q = 0 then 0 else if q < 0 then -rndPos (-q) else rndPos q

/-- The cast `(int)x` of a `double`: truncation toward zero. C leaves the cast
undefined for values outside the range of `int`; the product of the volume curve
lies in [0,127] whenever `pow` returns a value in [0,1]. -/
def toInt (x : ℚ) : Int := if 0 ≤ x then ⌊x⌋ else -⌊-x⌋

/-- One entry of the table drawn under the volume curve slider,
`curve[i]=(int)(pow((double)i/127.0,midiMap.volExp)*127.0)`.
The value of a `double` is a rational; the division and the multiplication
round as `roundDouble` does. `pow` belongs to the C library and is a parameter.
The `float` element of `curve` holds the integer exactly. -/
def volumeCurve (pow : ℚ → ℚ → ℚ) (volExp : ℚ) (i : Nat) : Int :=
  toInt (roundDouble (pow (roundDouble ((i : ℚ) / 127)) volExp * 127))

/-! MIDI binds: the two add buttons -/

/-- The button `##AddAction`: `midiMap.binds.push_back(MIDIBind())`. The value of a
default-constructed `MIDIBind` is declared in `gui.h`; it is the parameter `dflt`. -/
def addAction (dflt : MIDIBind) (g : FurnaceGUI V) : FurnaceGUI V :=
  { g with midiMap := { g.midiMap with binds := g.midiMap.binds ++ [dflt] } }

/-- The button `##AddLearnAction`: `push_back`, then `learning=midiMap.binds.size()-1`.
The size of a vector fits an `int`, so the conversion is exact. -/
def addLearnAction (dflt : MIDIBind) (g : FurnaceGUI V) : FurnaceGUI V :=
  let g := { g with midiMap := { g.midiMap with binds := g.midiMap.binds ++ [dflt] } }
  { g with learning := (g.midiMap.binds.length : Int) - 1 }

/-! MIDI binds: the rows of the table -/

/-- The table `messageTypes`: the name of each message type code, 0 to 15. -/
def messageTypes : List (List Char) :=
  ["--select--".toList, "???".toList, "???".toList, "???".toList, "???".toList,
   "???".toList, "???".toList, "???".toList, "Note Off".toList, "Note On".toList,
   "Aftertouch".toList, "Control".toList, "Program".toList, "ChanPressure".toList,
   "Pitch Bend".toList, "SysEx".toList]

/-- The body of the loop `for (int j=8; j<15; j++)` of the type combo:
`if (ImGui::Selectable(messageTypes[j],bind.type==j)) bind.type=j;`. `clicked j` tells
whether the selectable of entry `j` returns true in this frame. -/
def selectBindTypeStep (clicked : Nat → Bool) (bind : MIDIBind) (j : Nat) : MIDIBind :=
  if clicked j then { bind with type := (j : Int) } else bind

/-- The type combo `##BType` of one row: when `ImGui::BeginCombo` returns true the
entries 8 to 14 of `messageTypes` are offered. -/
def selectBindType (comboOpen : Bool) (clicked : Nat → Bool) (bind : MIDIBind) : MIDIBind :=
  if comboOpen then (List.range' 8 7).foldl (selectBindTypeStep clicked) bind else bind

/-- The button `##BLearn` of row `i`:
`if (learning==(int)i) learning=-1; else learning=i;`. -/
def toggleLearn (i : Nat) (g : FurnaceGUI V) : FurnaceGUI V :=
  if g.learning = (i : Int) then { g with learning := -1 } else { g with learning := (i : Int) }

/-- The button `##BRemove` of row `i`:
`midiMap.binds.erase(midiMap.binds.begin()+i); if (learning==(int)i) learning=-1;`. -/
def removeAction (i : Nat) (g : FurnaceGUI V) : FurnaceGUI V :=
  let g := { g with midiMap := { g.midiMap with binds := g.midiMap.binds.eraseIdx i } }
  if g.learning = (i : Int) then { g with learning := -1 } else g

/-- One operation of the settings screen on the bind list: one of the two add buttons,
or the learn or the remove button of a row. -/
inductive BindOp where
  | add
  | addLearn
  | learn (i : Nat)
  | remove (i : Nat)
  deriving DecidableEq, Repr

/-- The effect of one operation. The buttons of row `i` exist only while the list has a
rule at index `i`: the loop over the rows is `for (size_t i=0; i<midiMap.binds.size(); i++)`. -/
def applyBindOp (dflt : MIDIBind) (g : FurnaceGUI V) : BindOp → FurnaceGUI V
  | .add => addAction dflt g
  | .addLearn => addLearnAction dflt g
  | .learn i => if i < g.midiMap.binds.length then toggleLearn i g else g
  | .remove i => if i < g.midiMap.binds.length then removeAction i g else g

/-! MIDI bind matching -/

/-- Modelled from the spec: a MIDI message as the matching contract sees it: type,
channel and two data bytes. -/
structure MIDIMessage where
  type : Int
  channel : Int
  data1 : Int
  data2 : Int
  deriving DecidableEq, Repr

/-- Modelled from the spec: the matching function of the MIDI map is not part of the
translated file. A rule matches a message if `type == message.type` and
(`channel == Any` or `channel == message.channel`) and (`data1 == Any` or
`data1 == message.data1`) and (`data2 == Any` or `data2 == message.data2`), with
`Any` being 16 for the channel and 128 for the data bytes. -/
def bindMatches (b : MIDIBind) (msg : MIDIMessage) : Bool :=
  decide (b.type = msg.type) &&
    (decide (b.channel = 16) || decide (b.channel = msg.channel)) &&
    (decide (b.data1 = 128) || decide (b.data1 = msg.data1)) &&
    (decide (b.data2 = 128) || decide (b.data2 = msg.data2))

/-- Modelled from the spec: the scan of `match(message)` over the rules from index `i`
on; the index of every rule that matches is collected. -/
def matchBindsFrom (msg : MIDIMessage) : Nat → List MIDIBind → List Nat
  | _, [] => []
  | i, b :: bs =>
    if bindMatches b msg then i :: matchBindsFrom msg (i + 1) bs
    else matchBindsFrom msg (i + 1) bs

/-- Modelled from the spec: `match(message) -> set of matched bind indices`; all
matches are returned, not just the first. -/
def matchBinds (binds : List MIDIBind) (msg : MIDIMessage) : List Nat :=
  matchBindsFrom msg 0 binds

/-! The note-key map and its display list -/

/-- The assignment `noteKeys[k]=v` of a `std::map`: the entry of `k` is replaced, or a
new entry is put at its place in key order. -/
def NoteKeys.set : NoteKeys → Int → Int → NoteKeys
  | [], k, v => [(k, v)]
  | (k', v') :: rest, k, v =>
    if k < k' then (k, v) :: (k', v') :: rest
    else if k = k' then (k, v) :: rest
    else (k', v') :: NoteKeys.set rest k v

/-- The call `noteKeys.erase(k)`. -/
def NoteKeys.erase (m : NoteKeys) (k : Int) : NoteKeys :=
  m.filter (fun e => decide (e.1 ≠ k))

/-- The inner loop of the sort and the `sorted.insert(j,...)` that follows: the new row
goes before the first row whose `val` is greater. -/
def insertMapped (x : MappedInput) : List MappedInput → List MappedInput
  | [] => [x]
  | j :: js => if j.val > x.val then x :: j :: js else j :: insertMapped x js

/-- The loop `for (std::map<int,int>::value_type& i: noteKeys)` that builds `sorted`. -/
def sortNoteKeys (m : NoteKeys) : List MappedInput :=
  m.foldl (fun sorted i => insertMapped ⟨i.1, i.2⟩ sorted) []

/-- What the user does to the widgets of one row of the note input table during one
frame. -/
structure NoteRowEvents where
  typeButton : Bool
  valueInput : Option Int
  removeButton : Bool

/-- The body of the loop `for (MappedInput& i: sorted)`: the type button, the value
field (shown for notes only) and the remove button of one row. -/
def noteRow (ev : Int → NoteRowEvents) (m : NoteKeys) (i : MappedInput) : NoteKeys :=
  let m :=
    if i.val = 102 then (if (ev i.scan).typeButton then m.set i.scan 0 else m)
    else if i.val = 101 then (if (ev i.scan).typeButton then m.set i.scan 102 else m)
    else if i.val = 100 then (if (ev i.scan).typeButton then m.set i.scan 101 else m)
    else (if (ev i.scan).typeButton then m.set i.scan 100 else m)
  let m :=
    if i.val < 100 then
      match (ev i.scan).valueInput with
      | some x =>
        let v := x
        let v := if v < 0 then 0 else v
        let v := if v > 96 then 96 else v
        m.set i.scan v
      | none => m
    else m
  if (ev i.scan).removeButton then m.erase i.scan else m

/-- One iteration of the loop of the `Add...` combo: a scancode with a name that the user
selects is mapped to slot 0. -/
def noteAddStep (named sel : Nat → Bool) (m : NoteKeys) (i : Nat) : NoteKeys :=
  if named i then (if sel i then m.set (i : Int) 0 else m) else m

/-- The note input part of one frame of `drawSettings`. `tableOpen` is the result of
`ImGui::BeginTable`, `numScancodes` is `SDL_NUM_SCANCODES`, `named i` tells whether
`SDL_GetScancodeName(i)` is a non-empty string, `ev` and `sel` are what the user does. -/
def drawNoteInput (tableOpen : Bool) (numScancodes : Nat) (named : Nat → Bool)
    (ev : Int → NoteRowEvents) (sel : Nat → Bool) (m : NoteKeys) : NoteKeys :=
  if tableOpen then
    let sorted := sortNoteKeys m
    let m := sorted.foldl (noteRow ev) m
    (List.range numScancodes).foldl (noteAddStep named sel) m
  else m

/-! The note-key codec -/

/-- Modelled from the spec: the note-key codec is not part of the translated file.
Encode: `"<scancode>:<noteSlot>;"` for every mapped key, concatenated, in mapping
iteration order; numbers are written in decimal. -/
def encodeKeyMap (m : NoteKeys) : List Char :=
  m.flatMap (fun e => fmtInt e.1 ++ ':' :: (fmtInt e.2 ++ [';']))

/-- Modelled from the spec: the splitting step of the decoder ("split on `;`, then
each segment on `:`"): the text is cut at every occurrence of `sep`, and the pieces do
not hold `sep`. -/
def splitOnChar (sep : Char) : List Char → List (List Char)
  | [] => [[]]
  | c :: cs =>
    if c = sep then [] :: splitOnChar sep cs
    else
      match splitOnChar sep cs with
      | [] => [[c]]
      | s :: ss => (c :: s) :: ss

/-- Modelled from the spec: a numeric field of a segment, a decimal integer: an
optional minus sign and at least one digit, nothing else. -/
def parseField (s : List Char) : Option Int :=
  if s.head? = some '-' then
    (if s.tail ≠ [] ∧ s.tail.all Char.isDigit = true then some (-(digitsValue s.tail : Int))
     else none)
  else
    (if s ≠ [] ∧ s.all Char.isDigit = true then some (digitsValue s : Int) else none)

/-- Modelled from the spec: a segment split on `:`; it is well formed when it has the
separator and both fields are numeric. -/
def decodeSegment (seg : List Char) : Option (Int × Int) :=
  match splitOnChar ':' seg with
  | [k, v] =>
    match parseField k, parseField v with
    | some a, some b => some (a, b)
    | _, _ => none
  | _ => none

/-- Modelled from the spec: what decoding does with one segment: a well-formed segment
maps its scancode to its slot, a malformed one is skipped. -/
def decodeStep (m : NoteKeys) (seg : List Char) : NoteKeys :=
  match decodeSegment seg with
  | some e => m.set e.1 e.2
  | none => m

/-- Modelled from the spec: decode: split on `;`, then each segment on `:`; malformed
segments (missing separator, non-numeric fields) are skipped. -/
def decodeKeyMap (source : List Char) : NoteKeys :=
  (splitOnChar ';' source).foldl decodeStep []

/-! The config store -/

/-- A value of the config store. -/
inductive ConfValue where
  | int (v : Int)
  | float (v : CFloat)
  | str (s : List Char)
  deriving DecidableEq

/-- Modelled from the spec: the config key/value store of the engine (an external
collaborator with `getConfInt/getConfString/getConfFloat(key, default)` and
`setConf(key, value)`), as a map from keys to values. -/
abbrev Conf := List Char → Option ConfValue

/-- Modelled from the spec: `getConfInt(key, default)`. -/
def getConfInt (e : Conf) (key : List Char) (fallback : Int) : Int :=
  match e key with
  | some (ConfValue.int v) => v
  | _ => fallback

/-- Modelled from the spec: `getConfString(key, default)`. -/
def getConfString (e : Conf) (key : List Char) (fallback : List Char) : List Char :=
  match e key with
  | some (ConfValue.str v) => v
  | _ => fallback

/-- Modelled from the spec: `getConfFloat(key, default)`. -/
def getConfFloat (e : Conf) (key : List Char) (fallback : CFloat) : CFloat :=
  match e key with
  | some (ConfValue.float v) => v
  | _ => fallback

/-- Modelled from the spec: `setConf(key, value)`. -/
def setConf (e : Conf) (key : List Char) (v : ConfValue) : Conf :=
  Function.update e key (some v)

/-- The engine `e` as the settings code sees it: the config store and the flag set by
`setMidiDirect`. -/
structure DivEngine where
  conf : Conf
  midiDirect : Bool

/-- The collaborators of `syncSettings` and `commitSettings` that live in other files:
the note-key codec, the MIDI map file reader and compiler, the config directory. -/
structure SettingsExt where
  decodeKeyMap : NoteKeys → List Char → NoteKeys
  encodeKeyMap : NoteKeys → List Char
  midiMapRead : List Char → MIDIMap → MIDIMap
  midiMapCompile : MIDIMap → MIDIMap
  getConfigPath : List Char
  DIR_SEPARATOR_STR : List Char

/-! syncSettings and commitSettings -/

/-- The macro `clampSetting(x,minV,maxV)` on an `int`. -/
def clampSetting (x minV maxV : Int) : Int :=
  let x := if x < minV then minV else x
  if x > maxV then maxV else x

/-- The macro `clampSetting(x,minV,maxV)` on a `float`. -/
def clampSettingF (x minV maxV : CFloat) : CFloat :=
  let x := if CFloat.lt x minV then minV else x
  if CFloat.lt maxV x then maxV else x

/-- The table `audioBackends`; an index outside the table reads past it, which the
embedding renders as the empty string. -/
def audioBackends (i : Int) : List Char :=
  if i = 0 then "JACK".toList else if i = 1 then "SDL".toList else []

/-- The macro `DEFAULT_NOTE_KEYS`. -/
def DEFAULT_NOTE_KEYS : List Char :=
  ("5:7;6:4;7:3;8:16;10:6;11:8;12:24;13:10;16:11;17:9;18:26;19:28;20:12;21:17;22:1;23:19;" ++
   "24:23;25:5;26:14;27:2;28:21;29:0;30:100;31:13;32:15;34:18;35:20;36:22;38:25;39:27;" ++
   "43:100;46:101;47:29;48:31;53:102;").toList

/-- The first block of `syncSettings`: every member of `settings` is read from the
config store with its fallback. -/
def readSettings (e : Conf) : Settings where
  mainFontSize := getConfInt e "mainFontSize".toList 18
  patFontSize := getConfInt e "patFontSize".toList 18
  iconSize := getConfInt e "iconSize".toList 16
  audioEngine := if getConfString e "audioEngine".toList "SDL".toList = "SDL".toList then 1 else 0
  audioDevice := getConfString e "audioDevice".toList "".toList
  midiInDevice := getConfString e "midiInDevice".toList "".toList
  midiOutDevice := getConfString e "midiOutDevice".toList "".toList
  audioQuality := getConfInt e "audioQuality".toList 0
  audioBufSize := getConfInt e "audioBufSize".toList 1024
  audioRate := getConfInt e "audioRate".toList 44100
  arcadeCore := getConfInt e "arcadeCore".toList 0
  ym2612Core := getConfInt e "ym2612Core".toList 0
  saaCore := getConfInt e "saaCore".toList 1
  mainFont := getConfInt e "mainFont".toList 0
  patFont := getConfInt e "patFont".toList 0
  mainFontPath := getConfString e "mainFontPath".toList "".toList
  patFontPath := getConfString e "patFontPath".toList "".toList
  patRowsBase := getConfInt e "patRowsBase".toList 0
  orderRowsBase := getConfInt e "orderRowsBase".toList 1
  soloAction := getConfInt e "soloAction".toList 0
  pullDeleteBehavior := getConfInt e "pullDeleteBehavior".toList 1
  wrapHorizontal := getConfInt e "wrapHorizontal".toList 0
  wrapVertical := getConfInt e "wrapVertical".toList 0
  macroView := getConfInt e "macroView".toList 0
  fmNames := getConfInt e "fmNames".toList 0
  allowEditDocking := getConfInt e "allowEditDocking".toList 0
  chipNames := getConfInt e "chipNames".toList 0
  overflowHighlight := getConfInt e "overflowHighlight".toList 0
  partyTime := getConfInt e "partyTime".toList 0
  germanNotation := getConfInt e "germanNotation".toList 0
  stepOnDelete := getConfInt e "stepOnDelete".toList 0
  scrollStep := getConfInt e "scrollStep".toList 0
  sysSeparators := getConfInt e "sysSeparators".toList 1
  forceMono := getConfInt e "forceMono".toList 0
  controlLayout := getConfInt e "controlLayout".toList 3
  restartOnFlagChange := getConfInt e "restartOnFlagChange".toList 1
  statusDisplay := getConfInt e "statusDisplay".toList 0
  dpiScale := getConfFloat e "dpiScale".toList (CFloat.fin 0)
  viewPrevPattern := getConfInt e "viewPrevPattern".toList 1
  guiColorsBase := getConfInt e "guiColorsBase".toList 0
  avoidRaisingPattern := getConfInt e "avoidRaisingPattern".toList 0
  insFocusesPattern := getConfInt e "insFocusesPattern".toList 1
  stepOnInsert := getConfInt e "stepOnInsert".toList 0
  unifiedDataView := getConfInt e "unifiedDataView".toList 0
  sysFileDialog := getConfInt e "sysFileDialog".toList 1
  roundedWindows := getConfInt e "roundedWindows".toList 1
  roundedButtons := getConfInt e "roundedButtons".toList 1
  roundedMenus := getConfInt e "roundedMenus".toList 0
  loadJapanese := getConfInt e "loadJapanese".toList 0
  fmLayout := getConfInt e "fmLayout".toList 0
  susPosition := getConfInt e "susPosition".toList 0
  effectCursorDir := getConfInt e "effectCursorDir".toList 1
  cursorPastePos := getConfInt e "cursorPastePos".toList 1
  titleBarInfo := getConfInt e "titleBarInfo".toList 1
  titleBarSys := getConfInt e "titleBarSys".toList 1
  frameBorders := getConfInt e "frameBorders".toList 0
  effectDeletionAltersValue := getConfInt e "effectDeletionAltersValue".toList 1

/-- The second block of `syncSettings`: the `clampSetting` lines, in source order. -/
def clampSettings (s : Settings) : Settings :=
  { s with
    mainFontSize := clampSetting s.mainFontSize 2 96,
    patFontSize := clampSetting s.patFontSize 2 96,
    iconSize := clampSetting s.iconSize 2 48,
    audioEngine := clampSetting s.audioEngine 0 1,
    audioQuality := clampSetting s.audioQuality 0 1,
    audioBufSize := clampSetting s.audioBufSize 32 4096,
    audioRate := clampSetting s.audioRate 8000 384000,
    arcadeCore := clampSetting s.arcadeCore 0 1,
    ym2612Core := clampSetting s.ym2612Core 0 1,
    saaCore := clampSetting s.saaCore 0 1,
    mainFont := clampSetting s.mainFont 0 6,
    patFont := clampSetting s.patFont 0 6,
    patRowsBase := clampSetting s.patRowsBase 0 1,
    orderRowsBase := clampSetting s.orderRowsBase 0 1,
    soloAction := clampSetting s.soloAction 0 2,
    pullDeleteBehavior := clampSetting s.pullDeleteBehavior 0 1,
    wrapHorizontal := clampSetting s.wrapHorizontal 0 2,
    wrapVertical := clampSetting s.wrapVertical 0 2,
    macroView := clampSetting s.macroView 0 1,
    fmNames := clampSetting s.fmNames 0 2,
    allowEditDocking := clampSetting s.allowEditDocking 0 1,
    chipNames := clampSetting s.chipNames 0 1,
    overflowHighlight := clampSetting s.overflowHighlight 0 1,
    partyTime := clampSetting s.partyTime 0 1,
    germanNotation := clampSetting s.germanNotation 0 1,
    stepOnDelete := clampSetting s.stepOnDelete 0 1,
    scrollStep := clampSetting s.scrollStep 0 1,
    sysSeparators := clampSetting s.sysSeparators 0 1,
    forceMono := clampSetting s.forceMono 0 1,
    controlLayout := clampSetting s.controlLayout 0 3,
    statusDisplay := clampSetting s.statusDisplay 0 3,
    dpiScale := clampSettingF s.dpiScale (CFloat.fin 0) (CFloat.fin 4),
    viewPrevPattern := clampSetting s.viewPrevPattern 0 1,
    guiColorsBase := clampSetting s.guiColorsBase 0 1,
    avoidRaisingPattern := clampSetting s.avoidRaisingPattern 0 1,
    insFocusesPattern := clampSetting s.insFocusesPattern 0 1,
    stepOnInsert := clampSetting s.stepOnInsert 0 1,
    unifiedDataView := clampSetting s.unifiedDataView 0 1,
    sysFileDialog := clampSetting s.sysFileDialog 0 1,
    roundedWindows := clampSetting s.roundedWindows 0 1,
    roundedButtons := clampSetting s.roundedButtons 0 1,
    roundedMenus := clampSetting s.roundedMenus 0 1,
    loadJapanese := clampSetting s.loadJapanese 0 1,
    fmLayout := clampSetting s.fmLayout 0 3,
    susPosition := clampSetting s.susPosition 0 1,
    effectCursorDir := clampSetting s.effectCursorDir 0 2,
    cursorPastePos := clampSetting s.cursorPastePos 0 1,
    titleBarInfo := clampSetting s.titleBarInfo 0 3,
    titleBarSys := clampSetting s.titleBarSys 0 1,
    frameBorders := clampSetting s.frameBorders 0 1,
    effectDeletionAltersValue := clampSetting s.effectDeletionAltersValue 0 1 }

/-- The first block of `commitSettings`: the `setConf` calls for the members of
`settings`, in source order, as the list of keys and values written. -/
def settingsWrites (s : Settings) : List (List Char × ConfValue) :=
  [("mainFontSize".toList, ConfValue.int s.mainFontSize),
   ("patFontSize".toList, ConfValue.int s.patFontSize),
   ("iconSize".toList, ConfValue.int s.iconSize),
   ("audioEngine".toList, ConfValue.str (audioBackends s.audioEngine)),
   ("audioDevice".toList, ConfValue.str s.audioDevice),
   ("midiInDevice".toList, ConfValue.str s.midiInDevice),
   ("midiOutDevice".toList, ConfValue.str s.midiOutDevice),
   ("audioQuality".toList, ConfValue.int s.audioQuality),
   ("audioBufSize".toList, ConfValue.int s.audioBufSize),
   ("audioRate".toList, ConfValue.int s.audioRate),
   ("arcadeCore".toList, ConfValue.int s.arcadeCore),
   ("ym2612Core".toList, ConfValue.int s.ym2612Core),
   ("saaCore".toList, ConfValue.int s.saaCore),
   ("mainFont".toList, ConfValue.int s.mainFont),
   ("patFont".toList, ConfValue.int s.patFont),
   ("mainFontPath".toList, ConfValue.str s.mainFontPath),
   ("patFontPath".toList, ConfValue.str s.patFontPath),
   ("patRowsBase".toList, ConfValue.int s.patRowsBase),
   ("orderRowsBase".toList, ConfValue.int s.orderRowsBase),
   ("soloAction".toList, ConfValue.int s.soloAction),
   ("pullDeleteBehavior".toList, ConfValue.int s.pullDeleteBehavior),
   ("wrapHorizontal".toList, ConfValue.int s.wrapHorizontal),
   ("wrapVertical".toList, ConfValue.int s.wrapVertical),
   ("macroView".toList, ConfValue.int s.macroView),
   ("fmNames".toList, ConfValue.int s.fmNames),
   ("allowEditDocking".toList, ConfValue.int s.allowEditDocking),
   ("chipNames".toList, ConfValue.int s.chipNames),
   ("overflowHighlight".toList, ConfValue.int s.overflowHighlight),
   ("partyTime".toList, ConfValue.int s.partyTime),
   ("germanNotation".toList, ConfValue.int s.germanNotation),
   ("stepOnDelete".toList, ConfValue.int s.stepOnDelete),
   ("scrollStep".toList, ConfValue.int s.scrollStep),
   ("sysSeparators".toList, ConfValue.int s.sysSeparators),
   ("forceMono".toList, ConfValue.int s.forceMono),
   ("controlLayout".toList, ConfValue.int s.controlLayout),
   ("restartOnFlagChange".toList, ConfValue.int s.restartOnFlagChange),
   ("statusDisplay".toList, ConfValue.int s.statusDisplay),
   ("dpiScale".toList, ConfValue.float s.dpiScale),
   ("viewPrevPattern".toList, ConfValue.int s.viewPrevPattern),
   ("guiColorsBase".toList, ConfValue.int s.guiColorsBase),
   ("avoidRaisingPattern".toList, ConfValue.int s.avoidRaisingPattern),
   ("insFocusesPattern".toList, ConfValue.int s.insFocusesPattern),
   ("stepOnInsert".toList, ConfValue.int s.stepOnInsert),
   ("unifiedDataView".toList, ConfValue.int s.unifiedDataView),
   ("sysFileDialog".toList, ConfValue.int s.sysFileDialog),
   ("roundedWindows".toList, ConfValue.int s.roundedWindows),
   ("roundedButtons".toList, ConfValue.int s.roundedButtons),
   ("roundedMenus".toList, ConfValue.int s.roundedMenus),
   ("loadJapanese".toList, ConfValue.int s.loadJapanese),
   ("fmLayout".toList, ConfValue.int s.fmLayout),
   ("susPosition".toList, ConfValue.int s.susPosition),
   ("effectCursorDir".toList, ConfValue.int s.effectCursorDir),
   ("cursorPastePos".toList, ConfValue.int s.cursorPastePos),
   ("titleBarInfo".toList, ConfValue.int s.titleBarInfo),
   ("titleBarSys".toList, ConfValue.int s.titleBarSys),
   ("frameBorders".toList, ConfValue.int s.frameBorders),
   ("effectDeletionAltersValue".toList, ConfValue.int s.effectDeletionAltersValue)]

/-- An integer setting that `syncSettings` reads with `getConfInt` and clamps: its key,
its fallback, the two bounds of its `clampSetting` line and the member that holds it. -/
structure ClampedSetting where
  key : List Char
  fallback : Int
  minV : Int
  maxV : Int
  member : Settings → Int

/-- The integer settings that `syncSettings` reads with `getConfInt` and clamps, in the
order of their `clampSetting` lines. -/
def clampedIntSettings : List ClampedSetting :=
  [⟨"mainFontSize".toList, 18, 2, 96, Settings.mainFontSize⟩,
   ⟨"patFontSize".toList, 18, 2, 96, Settings.patFontSize⟩,
   ⟨"iconSize".toList, 16, 2, 48, Settings.iconSize⟩,
   ⟨"audioQuality".toList, 0, 0, 1, Settings.audioQuality⟩,
   ⟨"audioBufSize".toList, 1024, 32, 4096, Settings.audioBufSize⟩,
   ⟨"audioRate".toList, 44100, 8000, 384000, Settings.audioRate⟩,
   ⟨"arcadeCore".toList, 0, 0, 1, Settings.arcadeCore⟩,
   ⟨"ym2612Core".toList, 0, 0, 1, Settings.ym2612Core⟩,
   ⟨"saaCore".toList, 1, 0, 1, Settings.saaCore⟩,
   ⟨"mainFont".toList, 0, 0, 6, Settings.mainFont⟩,
   ⟨"patFont".toList, 0, 0, 6, Settings.patFont⟩,
   ⟨"patRowsBase".toList, 0, 0, 1, Settings.patRowsBase⟩,
   ⟨"orderRowsBase".toList, 1, 0, 1, Settings.orderRowsBase⟩,
   ⟨"soloAction".toList, 0, 0, 2, Settings.soloAction⟩,
   ⟨"pullDeleteBehavior".toList, 1, 0, 1, Settings.pullDeleteBehavior⟩,
   ⟨"wrapHorizontal".toList, 0, 0, 2, Settings.wrapHorizontal⟩,
   ⟨"wrapVertical".toList, 0, 0, 2, Settings.wrapVertical⟩,
   ⟨"macroView".toList, 0, 0, 1, Settings.macroView⟩,
   ⟨"fmNames".toList, 0, 0, 2, Settings.fmNames⟩,
   ⟨"allowEditDocking".toList, 0, 0, 1, Settings.allowEditDocking⟩,
   ⟨"chipNames".toList, 0, 0, 1, Settings.chipNames⟩,
   ⟨"overflowHighlight".toList, 0, 0, 1, Settings.overflowHighlight⟩,
   ⟨"partyTime".toList, 0, 0, 1, Settings.partyTime⟩,
   ⟨"germanNotation".toList, 0, 0, 1, Settings.germanNotation⟩,
   ⟨"stepOnDelete".toList, 0, 0, 1, Settings.stepOnDelete⟩,
   ⟨"scrollStep".toList, 0, 0, 1, Settings.scrollStep⟩,
   ⟨"sysSeparators".toList, 1, 0, 1, Settings.sysSeparators⟩,
   ⟨"forceMono".toList, 0, 0, 1, Settings.forceMono⟩,
   ⟨"controlLayout".toList, 3, 0, 3, Settings.controlLayout⟩,
   ⟨"statusDisplay".toList, 0, 0, 3, Settings.statusDisplay⟩,
   ⟨"viewPrevPattern".toList, 1, 0, 1, Settings.viewPrevPattern⟩,
   ⟨"guiColorsBase".toList, 0, 0, 1, Settings.guiColorsBase⟩,
   ⟨"avoidRaisingPattern".toList, 0, 0, 1, Settings.avoidRaisingPattern⟩,
   ⟨"insFocusesPattern".toList, 1, 0, 1, Settings.insFocusesPattern⟩,
   ⟨"stepOnInsert".toList, 0, 0, 1, Settings.stepOnInsert⟩,
   ⟨"unifiedDataView".toList, 0, 0, 1, Settings.unifiedDataView⟩,
   ⟨"sysFileDialog".toList, 1, 0, 1, Settings.sysFileDialog⟩,
   ⟨"roundedWindows".toList, 1, 0, 1, Settings.roundedWindows⟩,
   ⟨"roundedButtons".toList, 1, 0, 1, Settings.roundedButtons⟩,
   ⟨"roundedMenus".toList, 0, 0, 1, Settings.roundedMenus⟩,
   ⟨"loadJapanese".toList, 0, 0, 1, Settings.loadJapanese⟩,
   ⟨"fmLayout".toList, 0, 0, 3, Settings.fmLayout⟩,
   ⟨"susPosition".toList, 0, 0, 1, Settings.susPosition⟩,
   ⟨"effectCursorDir".toList, 1, 0, 2, Settings.effectCursorDir⟩,
   ⟨"cursorPastePos".toList, 1, 0, 1, Settings.cursorPastePos⟩,
   ⟨"titleBarInfo".toList, 1, 0, 3, Settings.titleBarInfo⟩,
   ⟨"titleBarSys".toList, 1, 0, 1, Settings.titleBarSys⟩,
   ⟨"frameBorders".toList, 0, 0, 1, Settings.frameBorders⟩,
   ⟨"effectDeletionAltersValue".toList, 1, 0, 1, Settings.effectDeletionAltersValue⟩]

/-- The config key of an action: `"keybind_GUI_ACTION_"` followed by its machine name. -/
def keybindKey (K : GuiConst V) (i : Nat) : List Char :=
  "keybind_GUI_ACTION_".toList ++ (K.guiActions i).name

/-- The body of the keybind loop of `syncSettings`. -/
def syncKeybindsStep (K : GuiConst V) (e : Conf) (keys : Nat → Int) (i : Nat) : Nat → Int :=
  if (K.guiActions i).defaultBind = -1 then keys
  else Function.update keys i (getConfInt e (keybindKey K i) (K.guiActions i).defaultBind)

/-- The path of the MIDI map file of the selected input device. -/
def midiMapPath (X : SettingsExt) (s : Settings) : List Char :=
  X.getConfigPath ++ X.DIR_SEPARATOR_STR ++ "midiIn_".toList ++ stripName s.midiInDevice ++
    ".cfg".toList

/-- The method `FurnaceGUI::syncSettings`. -/
def syncSettings (K : GuiConst V) (X : SettingsExt) (e : DivEngine) (g : FurnaceGUI V) :
    DivEngine × FurnaceGUI V :=
  let g := { g with settings := clampSettings (readSettings e.conf) }
  let keys := (List.range K.GUI_ACTION_MAX).foldl (syncKeybindsStep K e.conf) g.actionKeys
  let g := { g with actionKeys := keys }
  let decoded :=
    X.decodeKeyMap g.noteKeys (getConfString e.conf "noteKeys".toList DEFAULT_NOTE_KEYS)
  let g := { g with noteKeys := decoded }
  let g := parseKeybinds K g
  let loaded := X.midiMapCompile (X.midiMapRead (midiMapPath X g.settings) g.midiMap)
  let g := { g with midiMap := loaded }
  ({ e with midiDirect := g.midiMap.directChannel }, g)

/-- The body of the colour loop of `commitSettings`. -/
def commitColorsStep (K : GuiConst V) (cols : Nat → V) (e : Conf) (i : Nat) : Conf :=
  setConf e (K.guiColors i).name (ConfValue.int (toInt32 (K.ColorConvertFloat4ToU32 (cols i))))

/-- The body of the keybind loop of `commitSettings`. -/
def commitKeybindsStep (K : GuiConst V) (keys : Nat → Int) (e : Conf) (i : Nat) : Conf :=
  if (K.guiActions i).defaultBind = -1 then e
  else setConf e (keybindKey K i) (ConfValue.int (keys i))

/-- The colour loop of `applyUISettings`, the part of that method that writes a member
of the modelled state. -/
def applyUISettings (K : GuiConst V) (e : Conf) (g : FurnaceGUI V) : FurnaceGUI V :=
  let cols := (List.range K.GUI_COLOR_MAX).foldl
    (fun cols i => Function.update cols i (K.ColorConvertU32ToFloat4
      (toU32 (getConfInt e (K.guiColors i).name (toInt32 (K.guiColors i).defaultColor)))))
    g.uiColors
  { g with uiColors := cols }

/-- The method `FurnaceGUI::commitSettings`. Writing the MIDI map file, `saveConf`, the
restart of the audio output and the rebuilding of the fonts touch no member of the
modelled state and are left out. -/
def commitSettings (K : GuiConst V) (X : SettingsExt) (e : DivEngine) (g : FurnaceGUI V) :
    DivEngine × FurnaceGUI V :=
  let conf := (settingsWrites g.settings).foldl (fun c kv => setConf c kv.1 kv.2) e.conf
  let conf := (List.range K.GUI_COLOR_MAX).foldl (commitColorsStep K g.uiColors) conf
  let conf := (List.range K.GUI_ACTION_MAX).foldl (commitKeybindsStep K g.actionKeys) conf
  let g := parseKeybinds K g
  let conf := setConf conf "noteKeys".toList (ConfValue.str (X.encodeKeyMap g.noteKeys))
  let g := { g with midiMap := X.midiMapCompile g.midiMap }
  let g := applyUISettings K conf g
  ({ e with conf := conf }, g)

/-! Definitions used to state and instantiate the theorems -/

/-- The fold over `i = s, s+1, ..., s+n-1`. -/
def bindFrom (mask : Int) (keys : Nat → Int) (s n : Nat) (m : KeyMap) : KeyMap :=
  (List.range' s n).foldl (bindStep mask keys) m

/-- A registry with eighteen entries: two global actions, one pattern action and one
orders action, each context delimited by its two sentinel entries. -/
def demoActions : Nat → FurnaceGUIActionDef
  | 0 => ⟨"GLOBAL_MIN".toList, "---Global".toList, -1⟩
  | 1 => ⟨"OPEN".toList, "Open file".toList, 536871023⟩
  | 2 => ⟨"SAVE".toList, "Save file".toList, 0⟩
  | 3 => ⟨"GLOBAL_MAX".toList, [], -1⟩
  | 4 => ⟨"PAT_MIN".toList, "---Pattern".toList, -1⟩
  | 5 => ⟨"PAT_NOTE_UP".toList, "Transpose (+1)".toList, 536871023⟩
  | 6 => ⟨"PAT_MAX".toList, [], -1⟩
  | 7 => ⟨"INS_LIST_MIN".toList, "---Instrument list".toList, -1⟩
  | 8 => ⟨"INS_LIST_MAX".toList, [], -1⟩
  | 9 => ⟨"WAVE_LIST_MIN".toList, "---Wavetable list".toList, -1⟩
  | 10 => ⟨"WAVE_LIST_MAX".toList, [], -1⟩
  | 11 => ⟨"SAMPLE_LIST_MIN".toList, "---Sample list".toList, -1⟩
  | 12 => ⟨"SAMPLE_LIST_MAX".toList, [], -1⟩
  | 13 => ⟨"SAMPLE_MIN".toList, "---Sample editor".toList, -1⟩
  | 14 => ⟨"SAMPLE_MAX".toList, [], -1⟩
  | 15 => ⟨"ORDERS_MIN".toList, "---Orders".toList, -1⟩
  | 16 => ⟨"ORDERS_UP".toList, "Cursor up".toList, 1073741906⟩
  | _ => ⟨"ORDERS_MAX".toList, [], -1⟩

/-- A colour catalog with two entries. -/
def demoColors : Nat → FurnaceGUIColorDef
  | 0 => ⟨"BACKGROUND".toList, "Background".toList, 4278190080⟩
  | _ => ⟨"TEXT".toList, "Text".toList, 4294967295⟩

/-- Constants for the small registry; colours are kept as their packed 32-bit value. -/
def demoConst : GuiConst Nat where
  GUI_ACTION_MAX := 18
  GUI_COLOR_MAX := 2
  FURK_MASK := 0x40ffffff
  GUI_ACTION_GLOBAL_MIN := 0
  GUI_ACTION_GLOBAL_MAX := 3
  GUI_ACTION_PAT_MIN := 4
  GUI_ACTION_PAT_MAX := 6
  GUI_ACTION_INS_LIST_MIN := 7
  GUI_ACTION_INS_LIST_MAX := 8
  GUI_ACTION_WAVE_LIST_MIN := 9
  GUI_ACTION_WAVE_LIST_MAX := 10
  GUI_ACTION_SAMPLE_LIST_MIN := 11
  GUI_ACTION_SAMPLE_LIST_MAX := 12
  GUI_ACTION_SAMPLE_MIN := 13
  GUI_ACTION_SAMPLE_MAX := 14
  GUI_ACTION_ORDERS_MIN := 15
  GUI_ACTION_ORDERS_MAX := 17
  guiActions := demoActions
  guiColors := demoColors
  ColorConvertU32ToFloat4 := fun c => c
  ColorConvertFloat4ToU32 := fun v => v

/-- A state whose table binds both global actions to the same key and whose maps are
empty. -/
def demoGui : FurnaceGUI Nat where
  actionKeys := fun i => if i = 1 ∨ i = 2 then 536871023 else 0
  uiColors := fun _ => 0
  actionMapGlobal := KeyMap.clear
  actionMapPat := KeyMap.clear
  actionMapInsList := KeyMap.clear
  actionMapWaveList := KeyMap.clear
  actionMapSampleList := KeyMap.clear
  actionMapSample := KeyMap.clear
  actionMapOrders := KeyMap.clear

/-- The same table as `demoGui`, with stale entries in the maps. -/
def demoGuiStale : FurnaceGUI Nat :=
  { demoGui with
    actionMapGlobal := fun _ => some 2,
    actionMapOrders := fun k => if k = 7 then some 16 else none }

/-- A state whose table differs from the defaults at the pattern action 5 and at the
orders action 16. -/
def demoGuiEdited : FurnaceGUI Nat :=
  { demoGui with actionKeys := fun i => if i = 5 then 99 else if i = 16 then 98 else 0 }

/-- Text that ends at a line boundary: empty, or ending with a newline. -/
def LineAligned (t : List Char) : Prop :=
  t = [] ∨ t.getLast? = some '\n'

instance (t : List Char) : Decidable (LineAligned t) :=
  inferInstanceAs (Decidable (t = [] ∨ t.getLast? = some '\n'))

/-- The characters of a line that the character loop looks at: those before the first
NUL, newlines left out. -/
def lineText (line : List Char) : List Char :=
  (line.takeWhile (fun c => decide (c ≠ Char.ofNat 0))).filter (fun c => decide (c ≠ '\n'))

/-- The lines of a file as successive `fgets(line,4095,f)` calls deliver them. -/
def fileLines : Nat → List Char → List (List Char)
  | 0, _ => []
  | fuel + 1, rest =>
    if rest = [] then []
    else (fgets 4095 rest).1 :: fileLines fuel (fgets 4095 rest).2

/-- The key of a line as the text format defines it: the text before the first `=`,
newline characters excluded. -/
def lineKey (line : List Char) : List Char :=
  (line.takeWhile (fun c => decide (c ≠ '='))).filter (fun c => decide (c ≠ '\n'))

/-- The value of a line as the text format defines it: the text after the first `=`,
newline characters excluded. -/
def lineValue (line : List Char) : List Char :=
  ((line.dropWhile (fun c => decide (c ≠ '='))).tail).filter (fun c => decide (c ≠ '\n'))

/-- The line the export format prescribes for a name and a value:
`<name>=<decimal integer>` followed by a newline. -/
def exportLine (name : List Char) (v : Int) : List Char :=
  name ++ ['='] ++ fmtInt v ++ ['\n']

/-- The keybind file the export format prescribes: one line per registry entry whose
default is not the unbindable sentinel `-1`, in increasing identifier order. -/
def keybindsText (K : GuiConst V) (keys : Nat → Int) : List Char :=
  ((List.range K.GUI_ACTION_MAX).filter
    (fun i => decide ((K.guiActions i).defaultBind ≠ -1))).flatMap
    (fun i => exportLine (K.guiActions i).name (keys i))

/-- The colour file the export format prescribes: one line per catalog entry, in catalog
order, holding the packed colour read as a signed 32-bit integer. -/
def colorsText (K : GuiConst V) (cols : Nat → V) : List Char :=
  (List.range K.GUI_COLOR_MAX).flatMap
    (fun i => exportLine (K.guiColors i).name (toInt32 (K.ColorConvertFloat4ToU32 (cols i))))

/-- An ASCII letter or digit: the characters `stripName` keeps. -/
def IsAsciiAlnum (c : Char) : Prop :=
  ('A' ≤ c ∧ c ≤ 'Z') ∨ ('a' ≤ c ∧ c ≤ 'z') ∨ ('0' ≤ c ∧ c ≤ '9')

instance (c : Char) : Decidable (IsAsciiAlnum c) :=
  inferInstanceAs (Decidable (('A' ≤ c ∧ c ≤ 'Z') ∨ ('a' ≤ c ∧ c ≤ 'z') ∨ ('0' ≤ c ∧ c ≤ '9')))

/-- The sanitised form of one character: itself when it is an ASCII letter or digit,
`-` otherwise. -/
def stripChar (c : Char) : Char :=
  if IsAsciiAlnum c then c else '-'

/-- A state in which the capture of a key is idle and the bind list holds one rule. -/
def demoGuiMidi : FurnaceGUI Nat :=
  { demoGui with
    midiMap := { binds := [⟨11, 3, 64, 128, 5⟩], valueInputStyle := 6 },
    learning := -1 }

/-- Events of a frame in which the user types 200 into the single CC field and nothing
else. -/
def demoValueEvents : ValueInputEvents where
  style := none
  controlSingle := some 200
  controlMSB := none
  controlLSB := none
  specificStyle := fun _ => none
  specificSingle := fun _ => none
  specificMSB := fun _ => none
  specificLSB := fun _ => none

/-- The four per-column members of the MIDI map at column `i`: style, single CC, MSB CC,
LSB CC. -/
def specificColumn (m : MIDIMap) (i : Nat) : Int × Int × Int × Int :=
  (m.valueInputSpecificStyle i, m.valueInputSpecificSingle i, m.valueInputSpecificMSB i,
    m.valueInputSpecificLSB i)

/-- What one frame does to the four per-column members of column `i`. -/
def editSpecific (ev : ValueInputEvents) (i : Nat) (c : Int × Int × Int × Int) :
    Int × Int × Int × Int :=
  let style := editCombo (ev.specificStyle i) c.1
  if style > 0 then
    if style = 3 then (style, editCC (ev.specificSingle i) c.2.1, c.2.2.1, c.2.2.2)
    else (style, c.2.1, editCC (ev.specificMSB i) c.2.2.1, editCC (ev.specificLSB i) c.2.2.2)
  else (style, c.2.1, c.2.2.1, c.2.2.2)

/-- A note slot of the documented range: a note in `[0,96]`, or one of the codes 100
(note off), 101 (note release), 102 (envelope release). -/
def ValidSlot (v : Int) : Prop :=
  (0 ≤ v ∧ v ≤ 96) ∨ v = 100 ∨ v = 101 ∨ v = 102

instance (v : Int) : Decidable (ValidSlot v) :=
  inferInstanceAs (Decidable ((0 ≤ v ∧ v ≤ 96) ∨ v = 100 ∨ v = 101 ∨ v = 102))

/-- Every value of the note-key map is a note slot of the documented range. -/
def ValidSlots (m : NoteKeys) : Prop :=
  ∀ e ∈ m, ValidSlot e.2

instance (m : NoteKeys) : Decidable (ValidSlots m) :=
  inferInstanceAs (Decidable (∀ e ∈ m, ValidSlot e.2))

/-- A note-key map with three notes and a note-off key. -/
def demoNoteKeys : NoteKeys := [(5, 7), (6, 4), (7, 3), (30, 100)]

/-- Events of a frame in which the user cycles the type of key 30, enters 200 as the
note of key 5 and removes key 6. -/
def demoNoteEvents (scan : Int) : NoteRowEvents :=
  if scan = 30 then ⟨true, none, false⟩
  else if scan = 5 then ⟨false, some 200, false⟩
  else if scan = 6 then ⟨false, none, true⟩
  else ⟨false, none, false⟩

/-- Collaborators that do nothing, used to instantiate the theorems. -/
def demoExt : SettingsExt where
  decodeKeyMap := fun m _ => m
  encodeKeyMap := fun _ => []
  midiMapRead := fun _ m => m
  midiMapCompile := fun m => m
  getConfigPath := "/home/user/.config/furnace".toList
  DIR_SEPARATOR_STR := "/".toList

/-- An engine with an empty config store. -/
def demoEngine : DivEngine where
  conf := fun _ => none
  midiDirect := false

/-- An engine whose config store holds NaN for `dpiScale` and 200 for `mainFontSize`. -/
def demoEngineNaN : DivEngine where
  conf := fun k =>
    if k = "dpiScale".toList then some (ConfValue.float CFloat.nan)
    else if k = "mainFontSize".toList then some (ConfValue.int 200)
    else none
  midiDirect := false

/-- The rationals that are values of a `double`: rounding leaves them unchanged. -/
def IsDouble (x : ℚ) : Prop := roundDouble x = x

instance (x : ℚ) : Decidable (IsDouble x) := by
  unfold IsDouble
  infer_instance

/-- A `pow` that is correctly rounded when the exponent is a natural number,
used to instantiate the C library's `pow`. -/
def demoPow (x y : ℚ) : ℚ := roundDouble (x ^ ⌊y⌋.toNat)

/-- The formula of the specification, `mapped = round((raw/127)^exponent * 127)`,
in exact arithmetic for an exponent that is a natural number. -/
def specVolumeCurve (n i : Nat) : Int := round (((i : ℚ) / 127) ^ n * 127)

/-- The config keys of the members of `settings`, in the order `commitSettings` writes
them. -/
def settingsKeys : List (List Char) :=
  (settingsWrites {}).map Prod.fst

/-- A settings value whose numeric members lie within the bounds of their `clampSetting`
lines. -/
def SettingsInBounds (s : Settings) : Prop :=
  (∀ d ∈ clampedIntSettings, d.minV ≤ d.member s ∧ d.member s ≤ d.maxV) ∧
    (0 ≤ s.audioEngine ∧ s.audioEngine ≤ 1) ∧
    CFloat.le (CFloat.fin 0) s.dpiScale = true ∧ CFloat.le s.dpiScale (CFloat.fin 4) = true

/-- A settings value within bounds: the fallbacks of `syncSettings`, with the JACK
backend, a larger main font, a MIDI input device and a scale factor of 2. -/
def demoSettings : Settings :=
  { clampSettings (readSettings (fun _ => none)) with
    audioEngine := 0,
    mainFontSize := 24,
    midiInDevice := "Keystation 61".toList,
    dpiScale := CFloat.fin 2 }

/-- The state `demoGui` holding the settings `demoSettings`. -/
def demoGuiSettings : FurnaceGUI Nat :=
  { demoGui with settings := demoSettings }

/-! Basic facts about parseKeybinds -/

theorem parseKeybinds_actionKeys (K : GuiConst V) (g : FurnaceGUI V) :
    (parseKeybinds K g).actionKeys = g.actionKeys := rfl

theorem parseKeybinds_uiColors (K : GuiConst V) (g : FurnaceGUI V) :
    (parseKeybinds K g).uiColors = g.uiColors := rfl

theorem parseKeybinds_actionMap (K : GuiConst V) (g : FurnaceGUI V) (c : ActionContext) :
    (parseKeybinds K g).actionMap c =
      bindLoop K.FURK_MASK g.actionKeys (K.ctxMin c) (K.ctxMax c) KeyMap.clear := by
  cases c <;> rfl

/-! The loop of parseKeybinds, characterised -/

theorem bindStep_apply (mask : Int) (keys : Nat → Int) (m : KeyMap) (i : Nat) (k : Int) :
    bindStep mask keys m i k =
      if Int.land (keys i) mask ≠ 0 ∧ k = keys i then some i else m k := by
  unfold bindStep
  by_cases h : Int.land (keys i) mask ≠ 0
  · by_cases hk : k = keys i
    · subst hk
      simp [h]
    · simp [h, hk, Function.update_noteq hk]
  · simp [h]

theorem bindFrom_succ (mask : Int) (keys : Nat → Int) (s n : Nat) (m : KeyMap) :
    bindFrom mask keys s (n + 1) m = bindStep mask keys (bindFrom mask keys s n m) (s + n) := by
  unfold bindFrom
  rw [List.range'_concat, List.foldl_append]
  simp

theorem bindFrom_eq_some_iff (mask : Int) (keys : Nat → Int) (s n : Nat) (k : Int) (v : Nat) :
    bindFrom mask keys s n KeyMap.clear k = some v ↔
      (s ≤ v ∧ v < s + n ∧ keys v = k ∧ Int.land k mask ≠ 0 ∧
        ∀ j, v < j → j < s + n → keys j ≠ k) := by
  induction n with
  | zero =>
    constructor
    · intro h
      simp [bindFrom, KeyMap.clear] at h
    · rintro ⟨h1, h2, -⟩
      omega
  | succ n ih =>
    rw [bindFrom_succ, bindStep_apply]
    by_cases hc : Int.land (keys (s + n)) mask ≠ 0 ∧ k = keys (s + n)
    · rw [if_pos hc]
      obtain ⟨hm, hk⟩ := hc
      constructor
      · intro h
        have hv : s + n = v := Option.some.inj h
        subst hv
        refine ⟨by omega, by omega, hk.symm, by rw [hk]; exact hm, ?_⟩
        intro j h1 h2
        omega
      · rintro ⟨h1, h2, h3, h4, h5⟩
        by_cases hv : v = s + n
        · rw [hv]
        · exact absurd hk.symm (h5 (s + n) (by omega) (by omega))
    · rw [if_neg hc, ih]
      constructor
      · rintro ⟨h1, h2, h3, h4, h5⟩
        refine ⟨h1, by omega, h3, h4, ?_⟩
        intro j hj1 hj2
        by_cases hj : j = s + n
        · subst hj
          intro hkj
          exact hc ⟨by rw [hkj]; exact h4, hkj.symm⟩
        · exact h5 j hj1 (by omega)
      · rintro ⟨h1, h2, h3, h4, h5⟩
        have hv : v ≠ s + n := by
          intro hv
          subst hv
          exact hc ⟨by rw [h3]; exact h4, h3.symm⟩
        refine ⟨h1, by omega, h3, h4, ?_⟩
        intro j hj1 hj2
        exact h5 j hj1 (by omega)

theorem bindFrom_eq_none_iff (mask : Int) (keys : Nat → Int) (s n : Nat) (k : Int) :
    bindFrom mask keys s n KeyMap.clear k = none ↔
      ∀ i, s ≤ i → i < s + n → keys i = k → Int.land k mask = 0 := by
  induction n with
  | zero =>
    constructor
    · intro _ i h1 h2
      omega
    · intro _
      simp [bindFrom, KeyMap.clear]
  | succ n ih =>
    rw [bindFrom_succ, bindStep_apply]
    by_cases hc : Int.land (keys (s + n)) mask ≠ 0 ∧ k = keys (s + n)
    · rw [if_pos hc]
      obtain ⟨hm, hk⟩ := hc
      constructor
      · intro h
        cases h
      · intro h
        exact absurd (h (s + n) (by omega) (by omega) hk.symm) (by rw [hk]; exact hm)
    · rw [if_neg hc, ih]
      constructor
      · intro h i h1 h2 h3
        by_cases hi : i = s + n
        · subst hi
          by_contra hne
          exact hc ⟨by rw [h3]; exact hne, h3.symm⟩
        · exact h i h1 (by omega) h3
      · intro h i h1 h2 h3
        exact h i h1 (by omega) h3

theorem bindLoop_eq_bindFrom (mask : Int) (keys : Nat → Int) (lo hi : Nat) (m : KeyMap) :
    bindLoop mask keys lo hi m = bindFrom mask keys (lo + 1) (hi - (lo + 1)) m := rfl

/-- Exact content of one compiled map: `k` resolves to `v` exactly when `v` is the
greatest identifier strictly inside the range that is bound to `k`, and `k` has a
`FURK_MASK` bit. -/
theorem bindLoop_eq_some_iff (mask : Int) (keys : Nat → Int) (lo hi : Nat) (k : Int) (v : Nat) :
    bindLoop mask keys lo hi KeyMap.clear k = some v ↔
      (lo < v ∧ v < hi ∧ keys v = k ∧ Int.land k mask ≠ 0 ∧
        ∀ j, v < j → j < hi → keys j ≠ k) := by
  rw [bindLoop_eq_bindFrom, bindFrom_eq_some_iff]
  constructor
  · rintro ⟨h1, h2, h3, h4, h5⟩
    refine ⟨by omega, by omega, h3, h4, ?_⟩
    intro j hj1 hj2
    exact h5 j hj1 (by omega)
  · rintro ⟨h1, h2, h3, h4, h5⟩
    refine ⟨by omega, by omega, h3, h4, ?_⟩
    intro j hj1 hj2
    exact h5 j hj1 (by omega)

theorem bindLoop_eq_none_iff (mask : Int) (keys : Nat → Int) (lo hi : Nat) (k : Int) :
    bindLoop mask keys lo hi KeyMap.clear k = none ↔
      ∀ i, lo < i → i < hi → keys i = k → Int.land k mask = 0 := by
  rw [bindLoop_eq_bindFrom, bindFrom_eq_none_iff]
  constructor
  · intro h i h1 h2 h3
    exact h i (by omega) (by omega) h3
  · intro h i h1 h2 h3
    exact h i (by omega) (by omega) h3

theorem land_zero_left (m : Int) : Int.land 0 m = 0 := by
  cases m <;> simp [Int.land, Nat.ldiff]

/-! C1 - C3: the keybind compiler -/

/-- C1. `parseKeybinds` is idempotent and deterministic: running it twice leaves the
whole state, hence all seven dispatch maps, as after the first run; and two states with
the same key binding table get the same seven maps, whatever their maps held before. -/
theorem parseKeybinds_idempotent_deterministic (K : GuiConst V) (g g' : FurnaceGUI V)
    (h : g'.actionKeys = g.actionKeys) :
    parseKeybinds K (parseKeybinds K g) = parseKeybinds K g ∧
      ∀ c : ActionContext,
        (parseKeybinds K (parseKeybinds K g)).actionMap c = (parseKeybinds K g).actionMap c ∧
        (parseKeybinds K g').actionMap c = (parseKeybinds K g).actionMap c := by
  refine ⟨rfl, fun c => ⟨rfl, ?_⟩⟩
  rw [parseKeybinds_actionMap, parseKeybinds_actionMap, h]

theorem parseKeybinds_idempotent_deterministic_witness :
    demoGuiStale.actionKeys = demoGui.actionKeys ∧
      demoGuiStale.actionMapGlobal 5 ≠ demoGui.actionMapGlobal 5 ∧
      (parseKeybinds demoConst (parseKeybinds demoConst demoGui) = parseKeybinds demoConst demoGui ∧
        ∀ c : ActionContext,
          (parseKeybinds demoConst (parseKeybinds demoConst demoGui)).actionMap c =
            (parseKeybinds demoConst demoGui).actionMap c ∧
          (parseKeybinds demoConst demoGuiStale).actionMap c =
            (parseKeybinds demoConst demoGui).actionMap c) :=
  ⟨rfl, by simp [demoGuiStale, demoGui, KeyMap.clear],
    parseKeybinds_idempotent_deterministic demoConst demoGui demoGuiStale rfl⟩

/-- C2. Last-wins rule: if two distinct actions `i` and `j` strictly inside the
identifier range of context `c` are bound to the same raw key-code `k`, and `k` has a
`FURK_MASK` bit set, then the map of `c` resolves `k` to an action `m` of that range bound
to `k` which is the highest such identifier (so `i ≤ m` and `j ≤ m`). -/
theorem parseKeybinds_last_wins (K : GuiConst V) (g : FurnaceGUI V) (c : ActionContext)
    (k : Int) (i j : Nat)
    (hmask : Int.land k K.FURK_MASK ≠ 0)
    (hi : K.ctxMin c < i ∧ i < K.ctxMax c) (hik : g.actionKeys i = k)
    (hj : K.ctxMin c < j ∧ j < K.ctxMax c) (hjk : g.actionKeys j = k)
    (_hij : i ≠ j) :
    ∃ m, (parseKeybinds K g).actionMap c k = some m ∧
      K.ctxMin c < m ∧ m < K.ctxMax c ∧ g.actionKeys m = k ∧ i ≤ m ∧ j ≤ m ∧
      ∀ a, K.ctxMin c < a → a < K.ctxMax c → g.actionKeys a = k → a ≤ m := by
  rw [parseKeybinds_actionMap]
  cases hres : bindLoop K.FURK_MASK g.actionKeys (K.ctxMin c) (K.ctxMax c) KeyMap.clear k with
  | none =>
    rw [bindLoop_eq_none_iff] at hres
    exact absurd (hres i hi.1 hi.2 hik) hmask
  | some m =>
    rw [bindLoop_eq_some_iff] at hres
    obtain ⟨h1, h2, h3, -, h5⟩ := hres
    have hmax : ∀ a, K.ctxMin c < a → a < K.ctxMax c → g.actionKeys a = k → a ≤ m := by
      intro a ha1 ha2 ha3
      by_contra hlt
      exact h5 a (by omega) ha2 ha3
    exact ⟨m, rfl, h1, h2, h3, hmax i hi.1 hi.2 hik, hmax j hj.1 hj.2 hjk, hmax⟩

theorem parseKeybinds_last_wins_witness :
    (Int.land 536871023 demoConst.FURK_MASK ≠ 0 ∧
      (demoConst.ctxMin .global < 1 ∧ 1 < demoConst.ctxMax .global) ∧
      demoGui.actionKeys 1 = 536871023 ∧
      (demoConst.ctxMin .global < 2 ∧ 2 < demoConst.ctxMax .global) ∧
      demoGui.actionKeys 2 = 536871023 ∧ (1 : Nat) ≠ 2) ∧
    ∃ m, (parseKeybinds demoConst demoGui).actionMap .global 536871023 = some m ∧
      demoConst.ctxMin .global < m ∧ m < demoConst.ctxMax .global ∧
      demoGui.actionKeys m = 536871023 ∧ 1 ≤ m ∧ 2 ≤ m ∧
      ∀ a, demoConst.ctxMin .global < a → a < demoConst.ctxMax .global →
        demoGui.actionKeys a = 536871023 → a ≤ m :=
  ⟨⟨by decide, by decide, by decide, by decide, by decide, by decide⟩,
    parseKeybinds_last_wins demoConst demoGui .global 536871023 1 2
      (by decide) (by decide) (by decide) (by decide) (by decide) (by decide)⟩

/-- C3. Exact content of each dispatch map after `parseKeybinds`: the map of context `c`
has an entry for `k` iff some action strictly between the context's `MIN` and `MAX` is
bound to `k` and `k` has a `FURK_MASK` bit; the mapped value is then such an action.
Consequently key-code 0 (unbound) and every key-code without a mask bit have no entry,
no mapped action is unbound, and the `MIN`/`MAX` sentinels are never mapped values. -/
theorem parseKeybinds_exact_content (K : GuiConst V) (g : FurnaceGUI V) (c : ActionContext)
    (k : Int) :
    ((∃ v, (parseKeybinds K g).actionMap c k = some v) ↔
      ∃ i, K.ctxMin c < i ∧ i < K.ctxMax c ∧ g.actionKeys i = k ∧
        Int.land k K.FURK_MASK ≠ 0) ∧
    (∀ v, (parseKeybinds K g).actionMap c k = some v →
      K.ctxMin c < v ∧ v < K.ctxMax c ∧ g.actionKeys v = k ∧ Int.land k K.FURK_MASK ≠ 0 ∧
      g.actionKeys v ≠ 0 ∧ v ≠ K.ctxMin c ∧ v ≠ K.ctxMax c) ∧
    (parseKeybinds K g).actionMap c 0 = none ∧
    (Int.land k K.FURK_MASK = 0 → (parseKeybinds K g).actionMap c k = none) := by
  rw [parseKeybinds_actionMap]
  have hval : ∀ v, bindLoop K.FURK_MASK g.actionKeys (K.ctxMin c) (K.ctxMax c) KeyMap.clear k
      = some v → K.ctxMin c < v ∧ v < K.ctxMax c ∧ g.actionKeys v = k ∧
        Int.land k K.FURK_MASK ≠ 0 ∧ g.actionKeys v ≠ 0 ∧ v ≠ K.ctxMin c ∧ v ≠ K.ctxMax c := by
    intro v hv
    rw [bindLoop_eq_some_iff] at hv
    obtain ⟨h1, h2, h3, h4, -⟩ := hv
    refine ⟨h1, h2, h3, h4, ?_, by omega, by omega⟩
    intro h0
    rw [h3] at h0
    rw [h0] at h4
    exact h4 (land_zero_left _)
  refine ⟨⟨?_, ?_⟩, hval, ?_, ?_⟩
  · rintro ⟨v, hv⟩
    obtain ⟨h1, h2, h3, h4, -⟩ := hval v hv
    exact ⟨v, h1, h2, h3, h4⟩
  · rintro ⟨i, h1, h2, h3, h4⟩
    cases hres : bindLoop K.FURK_MASK g.actionKeys (K.ctxMin c) (K.ctxMax c) KeyMap.clear k with
    | none =>
      rw [bindLoop_eq_none_iff] at hres
      exact absurd (hres i h1 h2 h3) h4
    | some v => exact ⟨v, rfl⟩
  · rw [bindLoop_eq_none_iff]
    intro i _ _ _
    exact land_zero_left _
  · intro h0
    rw [bindLoop_eq_none_iff]
    intro i _ _ _
    exact h0

theorem parseKeybinds_exact_content_witness :
    ((∃ v, (parseKeybinds demoConst demoGui).actionMap .global 536871023 = some v) ↔
      ∃ i, demoConst.ctxMin .global < i ∧ i < demoConst.ctxMax .global ∧
        demoGui.actionKeys i = 536871023 ∧ Int.land 536871023 demoConst.FURK_MASK ≠ 0) ∧
    (∀ v, (parseKeybinds demoConst demoGui).actionMap .global 536871023 = some v →
      demoConst.ctxMin .global < v ∧ v < demoConst.ctxMax .global ∧
      demoGui.actionKeys v = 536871023 ∧ Int.land 536871023 demoConst.FURK_MASK ≠ 0 ∧
      demoGui.actionKeys v ≠ 0 ∧ v ≠ demoConst.ctxMin .global ∧
      v ≠ demoConst.ctxMax .global) ∧
    (parseKeybinds demoConst demoGui).actionMap .global 0 = none ∧
    (Int.land 536871023 demoConst.FURK_MASK = 0 →
      (parseKeybinds demoConst demoGui).actionMap .global 536871023 = none) :=
  parseKeybinds_exact_content demoConst demoGui .global 536871023

/-! resetKeybinds, characterised -/

theorem resetKeybindsStep_apply (K : GuiConst V) (keys : Nat → Int) (n i : Nat) :
    resetKeybindsStep K keys n i =
      if i = n ∧ (K.guiActions n).defaultBind ≠ -1 then (K.guiActions n).defaultBind
      else keys i := by
  unfold resetKeybindsStep
  by_cases hd : (K.guiActions n).defaultBind = -1
  · simp [hd]
  · by_cases hi : i = n
    · subst hi
      simp [hd]
    · simp [hd, hi, Function.update_noteq hi]

theorem resetKeybinds_fold (K : GuiConst V) (keys : Nat → Int) (n i : Nat) :
    (List.range n).foldl (resetKeybindsStep K) keys i =
      if i < n ∧ (K.guiActions i).defaultBind ≠ -1 then (K.guiActions i).defaultBind
      else keys i := by
  induction n with
  | zero => simp
  | succ n ih =>
    rw [List.range_succ, List.foldl_append]
    simp only [List.foldl_cons, List.foldl_nil]
    rw [resetKeybindsStep_apply, ih]
    by_cases hi : i = n
    · subst hi
      by_cases hd : (K.guiActions i).defaultBind = -1
      · simp [hd]
      · simp [hd]
    · have h1 : (i < n + 1) ↔ (i < n) := by omega
      simp only [hi, false_and, if_false, h1]

/-- The table after `resetKeybinds`: the entries below `GUI_COLOR_MAX` that are bindable
hold their default, every other entry is untouched. -/
theorem resetKeybinds_actionKeys (K : GuiConst V) (g : FurnaceGUI V) (i : Nat) :
    (resetKeybinds K g).actionKeys i =
      if i < K.GUI_COLOR_MAX ∧ (K.guiActions i).defaultBind ≠ -1
      then (K.guiActions i).defaultBind else g.actionKeys i := by
  unfold resetKeybinds
  simp only [parseKeybinds_actionKeys]
  exact resetKeybinds_fold K g.actionKeys K.GUI_COLOR_MAX i

theorem resetKeybinds_uiColors (K : GuiConst V) (g : FurnaceGUI V) :
    (resetKeybinds K g).uiColors = g.uiColors := rfl

/-- The maps after `resetKeybinds` are the compilation of the table it leaves. -/
theorem resetKeybinds_actionMap (K : GuiConst V) (g : FurnaceGUI V) (c : ActionContext) :
    (resetKeybinds K g).actionMap c =
      (parseKeybinds K (resetKeybinds K g)).actionMap c := by
  unfold resetKeybinds
  rw [parseKeybinds_actionMap, parseKeybinds_actionMap, parseKeybinds_actionKeys]

/-! fgets and the reading loop -/

theorem fgetsAux_append (n : Nat) (rest : List Char) :
    (fgetsAux n rest).1 ++ (fgetsAux n rest).2 = rest := by
  induction rest generalizing n with
  | nil => cases n <;> simp [fgetsAux]
  | cons c cs ih =>
    cases n with
    | zero => simp [fgetsAux]
    | succ n =>
      unfold fgetsAux
      by_cases hc : c = '\n'
      · simp [hc]
      · simp [hc, ih n]

theorem fgetsAux_rest_length (n : Nat) (c : Char) (cs : List Char) :
    (fgetsAux (n + 1) (c :: cs)).2.length < (c :: cs).length := by
  have h := congrArg List.length (fgetsAux_append (n + 1) (c :: cs))
  rw [List.length_append] at h
  have h1 : 0 < (fgetsAux (n + 1) (c :: cs)).1.length := by
    unfold fgetsAux
    by_cases hc : c = '\n' <;> simp [hc]
  omega

theorem fgets_rest_length (rest : List Char) (h : rest ≠ []) :
    (fgets 4095 rest).2.length < rest.length := by
  cases rest with
  | nil => exact absurd rfl h
  | cons c cs => exact fgetsAux_rest_length 4093 c cs

/-- A whole line, newline included, is what `fgetsAux` returns when the line fits. -/
theorem fgetsAux_line (n : Nat) (body post : List Char) (hnl : '\n' ∉ body)
    (hlen : body.length < n) :
    fgetsAux n (body ++ '\n' :: post) = (body ++ ['\n'], post) := by
  induction body generalizing n with
  | nil =>
    cases n with
    | zero => simp at hlen
    | succ n => simp [fgetsAux]
  | cons c cs ih =>
    cases n with
    | zero => simp at hlen
    | succ n =>
      have hc : c ≠ '\n' := fun h => hnl (by simp [h])
      have hcs : '\n' ∉ cs := fun h => hnl (by simp [h])
      have hl : cs.length < n := by simpa using hlen
      rw [List.cons_append, fgetsAux, if_neg hc, ih n hcs hl]
      rfl

theorem lineAligned_tail (c : Char) (cs : List Char) (h : LineAligned (c :: cs)) :
    LineAligned cs := by
  cases cs with
  | nil => exact Or.inl rfl
  | cons d ds =>
    rcases h with h | h
    · cases h
    · exact Or.inr (by simpa [List.getLast?_cons_cons] using h)

theorem lineAligned_ne_nil (c : Char) (cs : List Char) (h : LineAligned (c :: cs))
    (hc : c ≠ '\n') : cs ≠ [] := by
  intro hcs
  subst hcs
  rcases h with h | h
  · cases h
  · simp at h
    exact hc h

/-- Reading from line-aligned text followed by more text never looks at the text that
follows. -/
theorem fgetsAux_aligned (n : Nat) (pre rest : List Char) (hne : pre ≠ [])
    (hal : LineAligned pre) :
    fgetsAux n (pre ++ rest) = ((fgetsAux n pre).1, (fgetsAux n pre).2 ++ rest) ∧
      LineAligned (fgetsAux n pre).2 := by
  induction pre generalizing n with
  | nil => exact absurd rfl hne
  | cons c cs ih =>
    cases n with
    | zero => exact ⟨by simp [fgetsAux], by simpa [fgetsAux] using hal⟩
    | succ n =>
      by_cases hc : c = '\n'
      · refine ⟨by simp [fgetsAux, hc], ?_⟩
        simpa [fgetsAux, hc] using lineAligned_tail c cs hal
      · obtain ⟨h1, h2⟩ := ih n (lineAligned_ne_nil c cs hal hc) (lineAligned_tail c cs hal)
        refine ⟨?_, ?_⟩
        · rw [List.cons_append, fgetsAux, if_neg hc, h1, fgetsAux, if_neg hc]
        · simpa [fgetsAux, hc] using h2

theorem importLoop_nil {σ : Type} (step : List Char → σ → σ) (fuel : Nat) (st : σ) :
    importLoop step fuel [] st = st := by
  cases fuel <;> simp [importLoop]

/-- Enough fuel gives the result: any two fuels of at least the length of the unread text
give the same state. -/
theorem importLoop_fuel {σ : Type} (step : List Char → σ → σ) (f1 f2 : Nat)
    (rest : List Char) (st : σ) (h1 : rest.length ≤ f1) (h2 : rest.length ≤ f2) :
    importLoop step f1 rest st = importLoop step f2 rest st := by
  induction f1 generalizing f2 rest st with
  | zero =>
    have : rest = [] := List.eq_nil_of_length_eq_zero (by omega)
    subst this
    rw [importLoop_nil, importLoop_nil]
  | succ f1 ih =>
    by_cases hr : rest = []
    · subst hr
      rw [importLoop_nil, importLoop_nil]
    · have hlt := fgets_rest_length rest hr
      cases f2 with
      | zero =>
        exact absurd (List.eq_nil_of_length_eq_zero (by omega)) hr
      | succ f2 =>
        simp only [importLoop, if_neg hr]
        exact ih f2 _ _ (by omega) (by omega)

/-- Reading line-aligned text followed by more text is reading the first, then the
second. -/
theorem importLoop_append {σ : Type} (step : List Char → σ → σ) (fuel : Nat)
    (pre rest : List Char) (st : σ) (hal : LineAligned pre)
    (hf : (pre ++ rest).length ≤ fuel) :
    importLoop step fuel (pre ++ rest) st =
      importLoop step fuel rest (importLoop step fuel pre st) := by
  induction fuel generalizing pre st with
  | zero =>
    have h0 : pre ++ rest = [] := List.eq_nil_of_length_eq_zero (by omega)
    have hp : pre = [] := (List.append_eq_nil.mp h0).1
    have hr : rest = [] := (List.append_eq_nil.mp h0).2
    subst hp hr
    simp [importLoop]
  | succ fuel ih =>
    by_cases hp : pre = []
    · subst hp
      simp [importLoop_nil]
    · have hne : pre ++ rest ≠ [] := by simp [hp]
      have h12 : fgets 4095 (pre ++ rest) = ((fgets 4095 pre).1, (fgets 4095 pre).2 ++ rest) ∧
          LineAligned (fgets 4095 pre).2 := fgetsAux_aligned 4094 pre rest hp hal
      obtain ⟨h1, h2⟩ := h12
      have hlt := fgets_rest_length pre hp
      rw [List.length_append] at hf
      have hpos : 0 < pre.length := List.length_pos.mpr hp
      have hstep : importLoop step (fuel + 1) (pre ++ rest) st =
          importLoop step fuel ((fgets 4095 pre).2 ++ rest) (step (fgets 4095 pre).1 st) := by
        simp only [importLoop, if_neg hne]
        rw [h1]
      have hstep2 : importLoop step (fuel + 1) pre st =
          importLoop step fuel (fgets 4095 pre).2 (step (fgets 4095 pre).1 st) := by
        simp only [importLoop, if_neg hp]
      rw [hstep, hstep2, ih _ _ h2 (by rw [List.length_append]; omega)]
      exact importLoop_fuel step _ _ _ _ (by omega) (by omega)

/-! The character loop over one line, characterised -/

theorem lineText_nil : lineText [] = [] := rfl

theorem lineText_cons_nul (cs : List Char) : lineText (Char.ofNat 0 :: cs) = [] := by
  simp [lineText]

theorem lineText_cons_newline (cs : List Char) : lineText ('\n' :: cs) = lineText cs := by
  have h : ('\n' : Char) ≠ Char.ofNat 0 := by decide
  simp [lineText, h]

theorem lineText_cons (c : Char) (cs : List Char) (h0 : c ≠ Char.ofNat 0) (hn : c ≠ '\n') :
    lineText (c :: cs) = c :: lineText cs := by
  simp [lineText, h0, hn]

theorem scanLine_value_mode (l : List Char) (st : LineScan) (h : st.keyOrValue = true) :
    scanLine l st = { st with value := st.value ++ lineText l } := by
  induction l generalizing st with
  | nil => simp [scanLine, lineText_nil]
  | cons c cs ih =>
    unfold scanLine
    by_cases h0 : c = Char.ofNat 0
    · subst h0
      simp [lineText_cons_nul]
    · rw [if_neg h0]
      by_cases hn : c = '\n'
      · subst hn
        rw [if_pos rfl, ih st h, lineText_cons_newline]
      · rw [if_neg hn, if_pos h, ih { st with value := st.value ++ [c] } h,
          lineText_cons c cs h0 hn]
        simp

theorem scanLine_key_mode (l : List Char) (st : LineScan) (h : st.keyOrValue = false) :
    scanLine l st =
      if '=' ∈ lineText l then
        ⟨st.key ++ (lineText l).takeWhile (fun c => decide (c ≠ '=')),
          st.value ++ ((lineText l).dropWhile (fun c => decide (c ≠ '='))).tail, true⟩
      else ⟨st.key ++ lineText l, st.value, false⟩ := by
  induction l generalizing st with
  | nil =>
    cases st
    simp at h
    simp [scanLine, lineText_nil, h]
  | cons c cs ih =>
    unfold scanLine
    by_cases h0 : c = Char.ofNat 0
    · subst h0
      cases st
      simp at h
      simp [lineText_cons_nul, h]
    · rw [if_neg h0]
      by_cases hn : c = '\n'
      · subst hn
        rw [if_pos rfl, ih st h, lineText_cons_newline]
      · rw [if_neg hn, lineText_cons c cs h0 hn]
        have hkv : ¬ (st.keyOrValue = true) := by simp [h]
        rw [if_neg hkv]
        by_cases he : c = '='
        · subst he
          rw [if_pos rfl, scanLine_value_mode _ _ rfl]
          simp
        · rw [if_neg he, ih { st with key := st.key ++ [c] } h]
          have he2 : ¬ ('=' = c) := fun h => he h.symm
          simp [he, he2]

/-- The character loop on a line, from its initial state. -/
theorem scanLine_init (l : List Char) :
    scanLine l LineScan.init =
      if '=' ∈ lineText l then
        ⟨(lineText l).takeWhile (fun c => decide (c ≠ '=')),
          ((lineText l).dropWhile (fun c => decide (c ≠ '='))).tail, true⟩
      else ⟨lineText l, [], false⟩ := by
  rw [scanLine_key_mode l LineScan.init rfl]
  simp [LineScan.init]

theorem lineText_line (body : List Char) (hnl : '\n' ∉ body) :
    lineText (body ++ ['\n']) = body.takeWhile (fun c => decide (c ≠ Char.ofNat 0)) := by
  induction body with
  | nil => simpa using lineText_cons_newline []
  | cons c cs ih =>
    have hc : c ≠ '\n' := fun h => hnl (by simp [h])
    have hcs : '\n' ∉ cs := fun h => hnl (by simp [h])
    by_cases h0 : c = Char.ofNat 0
    · subst h0
      simp [lineText_cons_nul]
    · rw [List.cons_append, lineText_cons c _ h0 hc, ih hcs]
      simp [h0]

theorem lineText_no_newline (body : List Char) (hnl : '\n' ∉ body) :
    lineText body = body.takeWhile (fun c => decide (c ≠ Char.ofNat 0)) := by
  induction body with
  | nil => rfl
  | cons c cs ih =>
    have hc : c ≠ '\n' := fun h => hnl (by simp [h])
    have hcs : '\n' ∉ cs := fun h => hnl (by simp [h])
    by_cases h0 : c = Char.ofNat 0
    · subst h0
      simp [lineText_cons_nul]
    · rw [lineText_cons c _ h0 hc, ih hcs]
      simp [h0]

/-! Lines that importKeybinds skips -/

theorem takeWhile_takeWhile_of_imp (p q : Char → Bool)
    (hpq : ∀ c, q c = true → p c = true) (l : List Char) :
    (l.takeWhile p).takeWhile q = l.takeWhile q := by
  induction l with
  | nil => rfl
  | cons c cs ih =>
    by_cases hq : q c = true
    · simp [List.takeWhile_cons, hq, hpq c hq, ih]
    · by_cases hp : p c = true
      · simp [List.takeWhile_cons, hq, hp]
      · simp [List.takeWhile_cons, hq, hp]

theorem dropWhile_takeWhile_of_imp (p q : Char → Bool)
    (hpq : ∀ c, q c = true → p c = true) (l : List Char) :
    (l.takeWhile p).dropWhile q = (l.dropWhile q).takeWhile p := by
  induction l with
  | nil => rfl
  | cons c cs ih =>
    by_cases hq : q c = true
    · simp [List.takeWhile_cons, List.dropWhile_cons, hq, hpq c hq, ih]
    · by_cases hp : p c = true
      · simp [List.takeWhile_cons, List.dropWhile_cons, hq, hp]
      · simp [List.takeWhile_cons, List.dropWhile_cons, hq, hp]

/-- When `=` comes before the first NUL, the key is the text before the first `=`. -/
theorem takeWhile_eq_of_mem (l : List Char)
    (h : '=' ∈ l.takeWhile (fun c => decide (c ≠ Char.ofNat 0))) :
    (l.takeWhile (fun c => decide (c ≠ Char.ofNat 0))).takeWhile (fun c => decide (c ≠ '='))
      = l.takeWhile (fun c => decide (c ≠ '=')) := by
  induction l with
  | nil => rfl
  | cons c cs ih =>
    by_cases h0 : c = Char.ofNat 0
    · subst h0
      simp at h
    · by_cases he : c = '='
      · subst he
        simp
      · have hmem : '=' ∈ cs.takeWhile (fun c => decide (c ≠ Char.ofNat 0)) := by
          have he2 : ¬ ('=' = c) := fun h => he h.symm
          simpa [List.takeWhile_cons, h0, he2] using h
        simpa [List.takeWhile_cons, h0, he] using ih hmem

/-- When `=` comes before the first NUL, the value is the text after the first `=`, up
to the first NUL. -/
theorem dropWhile_eq_of_mem (l : List Char)
    (h : '=' ∈ l.takeWhile (fun c => decide (c ≠ Char.ofNat 0))) :
    ((l.takeWhile (fun c => decide (c ≠ Char.ofNat 0))).dropWhile
        (fun c => decide (c ≠ '='))).tail
      = ((l.dropWhile (fun c => decide (c ≠ '='))).tail).takeWhile
          (fun c => decide (c ≠ Char.ofNat 0)) := by
  induction l with
  | nil => rfl
  | cons c cs ih =>
    by_cases h0 : c = Char.ofNat 0
    · subst h0
      simp at h
    · by_cases he : c = '='
      · subst he
        simp [List.takeWhile_cons, List.dropWhile_cons, h0]
      · have hmem : '=' ∈ cs.takeWhile (fun c => decide (c ≠ Char.ofNat 0)) := by
          have he2 : ¬ ('=' = c) := fun h => he h.symm
          simpa [List.takeWhile_cons, h0, he2] using h
        simpa [List.takeWhile_cons, List.dropWhile_cons, h0, he] using ih hmem

theorem isspace_ne_nul (c : Char) (h : isspace c = true) :
    decide (c ≠ Char.ofNat 0) = true := by
  by_contra hc
  simp at hc
  subst hc
  revert h
  decide

theorem isDigit_ne_nul (c : Char) (h : c.isDigit = true) :
    decide (c ≠ Char.ofNat 0) = true := by
  by_contra hc
  simp at hc
  subst hc
  revert h
  decide

theorem stoiSigned_takeWhile_nul (s : List Char) :
    stoiSigned (s.takeWhile (fun c => decide (c ≠ Char.ofNat 0))) = stoiSigned s := by
  cases s with
  | nil => rfl
  | cons c cs =>
    have hd : ∀ l : List Char, List.takeWhile Char.isDigit
        (List.takeWhile (fun c => !decide (c = Char.ofNat 0)) l) =
          List.takeWhile Char.isDigit l := by
      intro l
      simpa using takeWhile_takeWhile_of_imp (fun c => decide (c ≠ Char.ofNat 0)) Char.isDigit
        isDigit_ne_nul l
    by_cases h0 : c = Char.ofNat 0
    · subst h0
      have h1 : (Char.ofNat 0).isDigit = false := by decide
      have h2 : ¬ (Char.ofNat 0 = '-') := by decide
      have h3 : ¬ (Char.ofNat 0 = '+') := by decide
      simp [stoiSigned, h1, h2, h3]
    · unfold stoiSigned
      by_cases hs : c = '-' ∨ c = '+'
      · simp [List.takeWhile_cons, h0, hs, hd cs]
      · simp [List.takeWhile_cons, h0, hs, hd cs]

/-- The call `std::stoi` reads its argument as a C string: what follows a NUL is not seen. -/
theorem stoi_takeWhile_nul (s : List Char) :
    stoi (s.takeWhile (fun c => decide (c ≠ Char.ofNat 0))) = stoi s := by
  unfold stoi
  rw [dropWhile_takeWhile_of_imp _ _ isspace_ne_nul, stoiSigned_takeWhile_nul]

theorem importKeybindsScan_no_match (K : GuiConst V) (key value : List Char)
    (is : List Nat) (keys : Nat → Int) (h : ∀ i ∈ is, (K.guiActions i).name ≠ key) :
    importKeybindsScan K key value is keys = keys := by
  induction is with
  | nil => rfl
  | cons i is ih =>
    unfold importKeybindsScan
    have hi : ¬ (key = (K.guiActions i).name) := fun e => h i (by simp) e.symm
    rw [if_neg hi]
    exact ih (fun j hj => h j (by simp [hj]))

theorem importKeybindsScan_stoi_none (K : GuiConst V) (key value : List Char)
    (is : List Nat) (keys : Nat → Int) (h : stoi value = none) :
    importKeybindsScan K key value is keys = keys := by
  induction is with
  | nil => rfl
  | cons i is ih =>
    unfold importKeybindsScan
    by_cases hi : key = (K.guiActions i).name
    · rw [if_pos hi, h]
    · rw [if_neg hi]
      exact ih

theorem filter_takeWhile_comm (p q : Char → Bool)
    (hpq : ∀ c, p c = false → q c = true) (l : List Char) :
    (l.filter p).takeWhile q = (l.takeWhile q).filter p := by
  induction l with
  | nil => rfl
  | cons c cs ih =>
    by_cases hp : p c = true
    · by_cases hq : q c = true
      · simp [List.filter_cons, List.takeWhile_cons, hp, hq, ih]
      · simp [List.filter_cons, List.takeWhile_cons, hp, hq]
    · have hp2 : p c = false := by simpa using hp
      simp [List.filter_cons, List.takeWhile_cons, hp2, hpq c hp2, ih]

theorem filter_dropWhile_tail_comm (p q : Char → Bool)
    (hpq : ∀ c, p c = false → q c = true) (l : List Char) :
    ((l.filter p).dropWhile q).tail = ((l.dropWhile q).tail).filter p := by
  induction l with
  | nil => rfl
  | cons c cs ih =>
    by_cases hp : p c = true
    · by_cases hq : q c = true
      · simp [List.filter_cons, List.dropWhile_cons, hp, hq, ih]
      · simp [List.filter_cons, List.dropWhile_cons, hp, hq]
    · have hp2 : p c = false := by simpa using hp
      simp [List.filter_cons, List.dropWhile_cons, hp2, hpq c hp2, ih]

theorem newline_imp_ne_eq (c : Char) (h : decide (c ≠ '\n') = false) :
    decide (c ≠ '=') = true := by
  have hc : c = '\n' := by simpa using h
  subst hc
  decide

theorem newline_imp_ne_nul (c : Char) (h : decide (c ≠ '\n') = false) :
    decide (c ≠ Char.ofNat 0) = true := by
  have hc : c = '\n' := by simpa using h
  subst hc
  decide

/-- When the character loop finds a `=`, the key it builds is the key of the line. -/
theorem lineText_key (line : List Char) (h : '=' ∈ lineText line) :
    (lineText line).takeWhile (fun c => decide (c ≠ '=')) = lineKey line := by
  have hmem : '=' ∈ line.takeWhile (fun c => decide (c ≠ Char.ofNat 0)) :=
    (List.mem_filter.mp h).1
  unfold lineText lineKey
  rw [filter_takeWhile_comm _ _ newline_imp_ne_eq, takeWhile_eq_of_mem line hmem]

/-- When the character loop finds a `=`, the value it builds is the value of the line
up to the first NUL. -/
theorem lineText_value (line : List Char) (h : '=' ∈ lineText line) :
    ((lineText line).dropWhile (fun c => decide (c ≠ '='))).tail =
      (lineValue line).takeWhile (fun c => decide (c ≠ Char.ofNat 0)) := by
  have hmem : '=' ∈ line.takeWhile (fun c => decide (c ≠ Char.ofNat 0)) :=
    (List.mem_filter.mp h).1
  unfold lineText lineValue
  rw [filter_dropWhile_tail_comm _ _ newline_imp_ne_eq, dropWhile_eq_of_mem line hmem,
    filter_takeWhile_comm _ _ newline_imp_ne_nul]

theorem mem_of_mem_lineText (c : Char) (line : List Char) (h : c ∈ lineText line) :
    c ∈ line :=
  (List.takeWhile_prefix _).subset (List.mem_filter.mp h).1

/-- A malformed line leaves the table as it was: a line without `=`, a line whose key
is no machine name of the registry, a line whose value `std::stoi` rejects. -/
theorem importKeybindsLine_malformed (K : GuiConst V) (line : List Char)
    (keys : Nat → Int)
    (hbad : '=' ∉ line ∨
      (∀ i, i < K.GUI_ACTION_MAX → (K.guiActions i).name ≠ lineKey line) ∨
      stoi (lineValue line) = none) :
    importKeybindsLine K line keys = keys := by
  unfold importKeybindsLine
  rw [scanLine_init]
  by_cases hmem : '=' ∈ lineText line
  · rw [if_pos hmem]
    simp only [if_true]
    rcases hbad with h | h | h
    · exact absurd (mem_of_mem_lineText _ _ hmem) h
    · apply importKeybindsScan_no_match
      intro i hi
      rw [lineText_key line hmem]
      exact h i (List.mem_range.mp hi)
    · apply importKeybindsScan_stoi_none
      rw [lineText_value line hmem, stoi_takeWhile_nul]
      exact h
  · rw [if_neg hmem]
    simp

/-- A line fitting the buffer is read whole when it is the last one and has no
newline. -/
theorem fgetsAux_last (n : Nat) (body : List Char) (hnl : '\n' ∉ body)
    (hlen : body.length ≤ n) : fgetsAux n body = (body, []) := by
  induction body generalizing n with
  | nil => cases n <;> rfl
  | cons c cs ih =>
    cases n with
    | zero => simp at hlen
    | succ n =>
      have hc : c ≠ '\n' := fun h => hnl (by simp [h])
      have hcs : '\n' ∉ cs := fun h => hnl (by simp [h])
      have hl : cs.length ≤ n := by simpa using hlen
      rw [fgetsAux, if_neg hc, ih n hcs hl]

theorem fgets_nil : fgets 4095 [] = ([], []) := rfl

/-- A line on which the body of the loop does nothing can be taken out of the file:
reading `pre` and then `rest` ends as reading `pre` and then what follows the first line
of `rest`. -/
theorem importLoop_skip {σ : Type} (step : List Char → σ → σ)
    (pre rest : List Char) (st : σ) (hpre : LineAligned pre)
    (hskip : ∀ s, step (fgets 4095 rest).1 s = s) (f1 f2 : Nat)
    (h1 : (pre ++ rest).length ≤ f1) (h2 : (pre ++ (fgets 4095 rest).2).length ≤ f2) :
    importLoop step f1 (pre ++ rest) st =
      importLoop step f2 (pre ++ (fgets 4095 rest).2) st := by
  simp only [List.length_append] at h1 h2
  rw [importLoop_append step f1 pre _ st hpre (by simp; omega),
    importLoop_append step f2 pre _ st hpre (by simp; omega),
    importLoop_fuel step f1 f2 pre st (by omega) (by omega)]
  by_cases hr : rest = []
  · subst hr
    rw [fgets_nil, importLoop_nil, importLoop_nil]
  · have hlt := fgets_rest_length rest hr
    cases f1 with
    | zero => exact absurd (List.eq_nil_of_length_eq_zero (by omega)) hr
    | succ f1 =>
      simp only [importLoop, if_neg hr, hskip]
      exact importLoop_fuel step _ _ _ _ (by omega) (by omega)

/-! What an import assigns -/

/-- The reading loop applies the body to the lines of the file, in order. -/
theorem importLoop_eq_foldl {σ : Type} (step : List Char → σ → σ) (fuel : Nat)
    (rest : List Char) (st : σ) :
    importLoop step fuel rest st =
      (fileLines fuel rest).foldl (fun s line => step line s) st := by
  induction fuel generalizing rest st with
  | zero => rfl
  | succ fuel ih =>
    by_cases hr : rest = []
    · simp [importLoop, fileLines, hr]
    · simp only [importLoop, fileLines, if_neg hr, List.foldl_cons]
      exact ih _ _

theorem importKeybindsScan_other (K : GuiConst V) (key value : List Char) (is : List Nat)
    (keys : Nat → Int) (i : Nat) (h : (K.guiActions i).name ≠ key) :
    importKeybindsScan K key value is keys i = keys i := by
  induction is with
  | nil => rfl
  | cons j js ih =>
    unfold importKeybindsScan
    by_cases hj : key = (K.guiActions j).name
    · rw [if_pos hj]
      have hij : i ≠ j := by
        intro e
        subst e
        exact h hj.symm
      cases stoi value with
      | none => rfl
      | some v => exact Function.update_noteq hij _ _
    · rw [if_neg hj]
      exact ih

/-- A line whose key is not the machine name of entry `i` leaves the binding of `i` as
it was. -/
theorem importKeybindsLine_other (K : GuiConst V) (line : List Char) (keys : Nat → Int)
    (i : Nat) (h : (K.guiActions i).name ≠ lineKey line) :
    importKeybindsLine K line keys i = keys i := by
  unfold importKeybindsLine
  rw [scanLine_init]
  by_cases hmem : '=' ∈ lineText line
  · rw [if_pos hmem]
    simp only [if_true]
    apply importKeybindsScan_other
    rw [lineText_key line hmem]
    exact h
  · rw [if_neg hmem]
    simp

theorem importKeybindsScan_first (K : GuiConst V) (key value : List Char) (v : Int)
    (s n : Nat) (keys : Nat → Int) (i : Nat) (hs : s ≤ i) (hi : i < s + n)
    (hname : (K.guiActions i).name = key)
    (hfirst : ∀ j, j < i → (K.guiActions j).name ≠ key) (hv : stoi value = some v) :
    importKeybindsScan K key value (List.range' s n) keys i = v := by
  induction n generalizing s with
  | zero => omega
  | succ n ih =>
    rw [List.range'_succ]
    unfold importKeybindsScan
    by_cases hsi : s = i
    · subst hsi
      rw [if_pos hname.symm, hv]
      simp
    · have hlt : s < i := by omega
      rw [if_neg (fun e => hfirst s hlt e.symm)]
      exact ih (s + 1) (by omega) (by omega)

/-- A line with a `=` before any NUL, whose key is the machine name of entry `i` and of
no earlier entry, and whose value `std::stoi` reads as `v`, binds `i` to `v`. -/
theorem importKeybindsLine_assign (K : GuiConst V) (line : List Char) (keys : Nat → Int)
    (i : Nat) (v : Int) (hi : i < K.GUI_ACTION_MAX) (heq : '=' ∈ lineText line)
    (hname : (K.guiActions i).name = lineKey line)
    (hfirst : ∀ j, j < i → (K.guiActions j).name ≠ lineKey line)
    (hv : stoi (lineValue line) = some v) :
    importKeybindsLine K line keys i = v := by
  unfold importKeybindsLine
  rw [scanLine_init, if_pos heq]
  simp only [if_true]
  rw [List.range_eq_range', lineText_key line heq, lineText_value line heq]
  exact importKeybindsScan_first K _ _ v 0 _ keys i (Nat.zero_le _) (by omega) hname hfirst
    (by rw [stoi_takeWhile_nul]; exact hv)

theorem foldl_importKeybindsLine_other (K : GuiConst V) (ls : List (List Char))
    (keys : Nat → Int) (i : Nat) (h : ∀ l ∈ ls, (K.guiActions i).name ≠ lineKey l) :
    ls.foldl (fun s line => importKeybindsLine K line s) keys i = keys i := by
  induction ls generalizing keys with
  | nil => rfl
  | cons l ls ih =>
    rw [List.foldl_cons, ih _ (fun m hm => h m (by simp [hm])),
      importKeybindsLine_other K l keys i (h l (by simp))]

/-- The table an import leaves, entry by entry. An entry whose machine name is the key
of no line of the file holds what `resetKeybinds` left there. An entry `i` named by a
line, and by no later line, holds the integer of that line, provided the line has its
`=` before any NUL and no earlier registry entry has the same machine name. -/
theorem importKeybinds_actionKeys (K : GuiConst V) (g : FurnaceGUI V) (f : List Char)
    (i : Nat) :
    ((∀ l ∈ fileLines f.length f, (K.guiActions i).name ≠ lineKey l) →
      (importKeybinds K (some f) g).2.actionKeys i = (resetKeybinds K g).actionKeys i) ∧
    (∀ (l1 l2 : List (List Char)) (line : List Char) (v : Int),
      fileLines f.length f = l1 ++ line :: l2 → i < K.GUI_ACTION_MAX →
      '=' ∈ lineText line → (K.guiActions i).name = lineKey line →
      (∀ j, j < i → (K.guiActions j).name ≠ lineKey line) →
      stoi (lineValue line) = some v →
      (∀ l ∈ l2, (K.guiActions i).name ≠ lineKey l) →
      (importKeybinds K (some f) g).2.actionKeys i = v) := by
  constructor
  · intro h
    simp only [importKeybinds, importKeybindsLoop, importLoop_eq_foldl]
    exact foldl_importKeybindsLine_other K _ _ i h
  · intro l1 l2 line v hsplit hi heq hname hfirst hv hlater
    simp only [importKeybinds, importKeybindsLoop, importLoop_eq_foldl]
    rw [hsplit, List.foldl_append, List.foldl_cons,
      foldl_importKeybindsLine_other K l2 _ i hlater]
    exact importKeybindsLine_assign K line _ i v hi heq hname hfirst hv

/-! The export loops, characterised -/

theorem fmtLine_eq_exportLine (name : List Char) (v : Int) :
    fmtLine name v = exportLine name v := by
  simp [fmtLine, exportLine]

theorem exportKeybindsLoop_all_ok (K : GuiConst V) (keys : Nat → Int) (wr : Nat → Bool)
    (hwr : ∀ i, wr i = true) (is : List Nat) (out : List Char) :
    exportKeybindsLoop K keys wr is out =
      out ++ (is.filter (fun i => decide ((K.guiActions i).defaultBind ≠ -1))).flatMap
        (fun i => exportLine (K.guiActions i).name (keys i)) := by
  induction is generalizing out with
  | nil => simp [exportKeybindsLoop]
  | cons i is ih =>
    unfold exportKeybindsLoop
    by_cases hd : (K.guiActions i).defaultBind = -1
    · rw [if_pos hd, ih]
      simp [List.filter_cons, hd]
    · rw [if_neg hd, if_pos (hwr i), ih, fmtLine_eq_exportLine]
      simp [List.filter_cons, hd, List.append_assoc]

theorem exportColorsLoop_all_ok (K : GuiConst V) (cols : Nat → V) (wr : Nat → Bool)
    (hwr : ∀ i, wr i = true) (is : List Nat) (out : List Char) :
    exportColorsLoop K cols wr is out =
      out ++ is.flatMap (fun i =>
        exportLine (K.guiColors i).name (toInt32 (K.ColorConvertFloat4ToU32 (cols i)))) := by
  induction is generalizing out with
  | nil => simp [exportColorsLoop]
  | cons i is ih =>
    unfold exportColorsLoop
    rw [if_pos (hwr i), ih, fmtLine_eq_exportLine]
    simp [List.append_assoc]

/-! C5, C9, C10: return values and the export format -/

/-- C5. When the file cannot be opened, `importKeybinds` and `importColors` return
`false` and leave the whole state (binding table, dispatch maps, colour table) as it
was. -/
theorem import_open_failure_unchanged (K : GuiConst V) (g : FurnaceGUI V) :
    importKeybinds K none g = (false, g) ∧ importColors K none g = (false, g) :=
  ⟨rfl, rfl⟩

/-- C9. Export format: when the file opens and no write fails, `exportKeybinds` writes
exactly the lines `<machine name>=<binding in decimal>` of the entries whose default
is not `-1`, in increasing identifier order, and `exportColors` writes one
`<colour name>=<integer>` line per catalog entry, in catalog order. -/
theorem export_format (K : GuiConst V) (g : FurnaceGUI V) (wr : Nat → Bool)
    (hwr : ∀ i, wr i = true) :
    exportKeybinds K (some wr) g = (true, g, some (keybindsText K g.actionKeys)) ∧
      exportColors K (some wr) g = (true, g, some (colorsText K g.uiColors)) := by
  constructor
  · simp [exportKeybinds, keybindsText, exportKeybindsLoop_all_ok K g.actionKeys wr hwr]
  · simp [exportColors, colorsText, exportColorsLoop_all_ok K g.uiColors wr hwr]

theorem export_format_witness :
    (∀ i : Nat, (fun _ => true) i = true) ∧
      (exportKeybinds demoConst (some (fun _ => true)) demoGui =
          (true, demoGui, some (keybindsText demoConst demoGui.actionKeys)) ∧
        exportColors demoConst (some (fun _ => true)) demoGui =
          (true, demoGui, some (colorsText demoConst demoGui.uiColors))) :=
  ⟨fun _ => rfl, export_format demoConst demoGui (fun _ => true) (fun _ => rfl)⟩

/-- C10. Each of `importKeybinds`, `importColors`, `exportKeybinds`, `exportColors`
returns `false` if and only if the file cannot be opened, whatever the file holds and
whichever writes fail; and the two export functions leave the state unchanged. -/
theorem import_export_false_iff_open_fails (K : GuiConst V) (g : FurnaceGUI V)
    (fin : Option (List Char)) (fout : Option (Nat → Bool)) :
    ((importKeybinds K fin g).1 = false ↔ fin = none) ∧
    ((importColors K fin g).1 = false ↔ fin = none) ∧
    ((exportKeybinds K fout g).1 = false ↔ fout = none) ∧
    ((exportColors K fout g).1 = false ↔ fout = none) ∧
    (exportKeybinds K fout g).2.1 = g ∧ (exportColors K fout g).2.1 = g := by
  cases fin <;> cases fout <;>
    simp [importKeybinds, importColors, exportKeybinds, exportColors]

/-! C4, C7, C8: evaluation of the reset and import code -/

/-- C8. `resetKeybinds` on the eighteen-entry registry, whose colour catalog has two
entries: the bindable action 16 (`ORDERS_UP`, default 1073741906) lies in the registry
but keeps the binding 98 it had before the call, while action 1, below `GUI_COLOR_MAX`,
is reset to its default. -/
theorem resetKeybinds_leaves_tail :
    16 < demoConst.GUI_ACTION_MAX ∧
    (demoConst.guiActions 16).defaultBind = 1073741906 ∧
    demoGuiEdited.actionKeys 16 = 98 ∧
    (resetKeybinds demoConst demoGuiEdited).actionKeys 16 = 98 ∧
    (resetKeybinds demoConst demoGuiEdited).actionKeys 1 = (demoConst.guiActions 1).defaultBind := by
  decide

/-- C7. `importKeybinds` of the one-line file `SAVE=83` succeeds and binds action 2 to
key 83, but the global dispatch map it leaves has no entry for 83, whereas compiling the
resulting table maps 83 to action 2. -/
theorem importKeybinds_maps_stale :
    (importKeybinds demoConst (some "SAVE=83\n".toList) demoGui).1 = true ∧
    (importKeybinds demoConst (some "SAVE=83\n".toList) demoGui).2.actionKeys 2 = 83 ∧
    (importKeybinds demoConst (some "SAVE=83\n".toList) demoGui).2.actionMap .global 83 = none ∧
    (parseKeybinds demoConst
      (importKeybinds demoConst (some "SAVE=83\n".toList) demoGui).2).actionMap .global 83
        = some 2 := by
  decide

/-- C4. `importKeybinds` of the well-formed one-line file `SAVE=83`: the bindable action
16 (`ORDERS_UP`), named in no line, does not hold its default 1073741906 afterwards but
the binding 98 the table held before the import; the named action 2 holds 83. -/
theorem importKeybinds_default_missed :
    (importKeybinds demoConst (some "SAVE=83\n".toList) demoGuiEdited).1 = true ∧
    16 < demoConst.GUI_ACTION_MAX ∧
    (demoConst.guiActions 16).name = "ORDERS_UP".toList ∧
    (demoConst.guiActions 16).defaultBind = 1073741906 ∧
    (importKeybinds demoConst (some "SAVE=83\n".toList) demoGuiEdited).2.actionKeys 16 = 98 ∧
    (importKeybinds demoConst (some "SAVE=83\n".toList) demoGuiEdited).2.actionKeys 2 = 83 := by
  decide

/-! C6: malformed records -/

/-- C6. `importKeybinds` tolerates malformed records. Let the next line of the file, as
`fgets` delivers it, have no `=`, or a key (the text before the first `=`) that is the
machine name of no registry entry, or a value (the text after the first `=`) that
`std::stoi` rejects as not numeric or out of `int` range. Then that line leaves every
binding table as it was, and the import of the file returns `true` and ends in the
state of the import of the file without that line: the import does not stop, every
later line is processed. Here `pre` is the text of the lines before, `rest` the text
from the malformed line on. -/
theorem importKeybinds_skips_malformed (K : GuiConst V) (g : FurnaceGUI V)
    (pre rest : List Char) (hpre : LineAligned pre)
    (hbad : '=' ∉ (fgets 4095 rest).1 ∨
      (∀ i, i < K.GUI_ACTION_MAX →
        (K.guiActions i).name ≠ lineKey (fgets 4095 rest).1) ∨
      stoi (lineValue (fgets 4095 rest).1) = none) :
    (∀ keys, importKeybindsLine K (fgets 4095 rest).1 keys = keys) ∧
    importKeybinds K (some (pre ++ rest)) g =
      importKeybinds K (some (pre ++ (fgets 4095 rest).2)) g ∧
    (importKeybinds K (some (pre ++ rest)) g).1 = true := by
  have hl : ∀ keys, importKeybindsLine K (fgets 4095 rest).1 keys = keys := fun keys =>
    importKeybindsLine_malformed K _ keys hbad
  refine ⟨hl, ?_, rfl⟩
  simp only [importKeybinds, importKeybindsLoop]
  rw [importLoop_skip (importKeybindsLine K) pre rest _ hpre hl _
    (pre ++ (fgets 4095 rest).2).length (le_refl _) (le_refl _)]

theorem importKeybinds_skips_malformed_witness :
    (LineAligned "SAVE=83\n".toList ∧
      stoi (lineValue (fgets 4095 "OPEN=x\nORDERS_UP=84\n".toList).1) = none) ∧
    ((∀ keys, importKeybindsLine demoConst (fgets 4095 "OPEN=x\nORDERS_UP=84\n".toList).1 keys
        = keys) ∧
    importKeybinds demoConst (some ("SAVE=83\n".toList ++ "OPEN=x\nORDERS_UP=84\n".toList))
        demoGuiEdited =
      importKeybinds demoConst
        (some ("SAVE=83\n".toList ++ (fgets 4095 "OPEN=x\nORDERS_UP=84\n".toList).2))
        demoGuiEdited ∧
    (importKeybinds demoConst (some ("SAVE=83\n".toList ++ "OPEN=x\nORDERS_UP=84\n".toList))
        demoGuiEdited).1 = true) :=
  ⟨⟨by decide, by decide⟩,
    importKeybinds_skips_malformed demoConst demoGuiEdited "SAVE=83\n".toList
      "OPEN=x\nORDERS_UP=84\n".toList (by decide) (Or.inr (Or.inr (by decide)))⟩

/-! C11, C12: promptKey and stripName -/

/-- C11. `promptKey(A)` enters the awaiting-capture state for action `A`: afterwards
the capture target is `A`, the capture-active and capture-pending flags are set, the
remembered previous value is the binding `A` had before the call, the binding of `A` is
0, and the binding of every other action is unchanged. -/
theorem promptKey_enters_capture (g : FurnaceGUI V) (A : Nat) :
    (promptKey A g).bindSetTarget = (A : Int) ∧
    (promptKey A g).bindSetActive = true ∧
    (promptKey A g).bindSetPending = true ∧
    (promptKey A g).bindSetPrevValue = g.actionKeys A ∧
    (promptKey A g).actionKeys A = 0 ∧
    ∀ i, i ≠ A → (promptKey A g).actionKeys i = g.actionKeys i := by
  refine ⟨rfl, rfl, rfl, rfl, ?_, ?_⟩
  · simp [promptKey]
  · intro i hi
    simp [promptKey, Function.update_noteq hi]

theorem promptKey_enters_capture_witness :
    (promptKey 1 demoGui).bindSetTarget = ((1 : Nat) : Int) ∧
    (promptKey 1 demoGui).bindSetActive = true ∧
    (promptKey 1 demoGui).bindSetPending = true ∧
    (promptKey 1 demoGui).bindSetPrevValue = demoGui.actionKeys 1 ∧
    (promptKey 1 demoGui).actionKeys 1 = 0 ∧
    ∀ i, i ≠ 1 → (promptKey 1 demoGui).actionKeys i = demoGui.actionKeys i :=
  promptKey_enters_capture demoGui 1

theorem stripName_foldl (acc what : List Char) :
    what.foldl stripNameStep acc = acc ++ what.map stripChar := by
  induction what generalizing acc with
  | nil => simp
  | cons c cs ih =>
    rw [List.foldl_cons, ih]
    unfold stripNameStep stripChar IsAsciiAlnum
    by_cases h : ('A' ≤ c ∧ c ≤ 'Z') ∨ ('a' ≤ c ∧ c ≤ 'z') ∨ ('0' ≤ c ∧ c ≤ '9')
    · simp [h]
    · simp [h]

theorem stripName_eq_map (what : List Char) : stripName what = what.map stripChar := by
  unfold stripName
  rw [stripName_foldl]
  simp

theorem stripChar_idem (c : Char) : stripChar (stripChar c) = stripChar c := by
  unfold stripChar
  by_cases h : IsAsciiAlnum c
  · simp [h]
  · have hd : ¬ IsAsciiAlnum '-' := by decide
    simp [h, hd]

/-- C12. `stripName` sanitises character by character: the output has the length of
the input, the character at each position is the input character when that is an ASCII
letter or digit and `-` otherwise, so the output holds only characters of
`[A-Za-z0-9-]`, and `stripName` is idempotent. -/
theorem stripName_sanitises (what : List Char) :
    (stripName what).length = what.length ∧
    (∀ (n : Nat) (c : Char), what[n]? = some c →
      (stripName what)[n]? = some (if IsAsciiAlnum c then c else '-')) ∧
    (∀ c ∈ stripName what, IsAsciiAlnum c ∨ c = '-') ∧
    stripName (stripName what) = stripName what := by
  refine ⟨?_, ?_, ?_, ?_⟩
  · simp [stripName_eq_map]
  · intro n c h
    rw [stripName_eq_map, List.getElem?_map, h]
    rfl
  · intro c hc
    rw [stripName_eq_map, List.mem_map] at hc
    obtain ⟨d, -, rfl⟩ := hc
    unfold stripChar
    by_cases h : IsAsciiAlnum d
    · simp [h]
    · simp [h]
  · rw [stripName_eq_map, stripName_eq_map, List.map_map]
    apply List.map_congr_left
    intro c _
    exact stripChar_idem c

theorem stripName_sanitises_witness :
    (stripName "USB MIDI/2".toList).length = "USB MIDI/2".toList.length ∧
    (∀ (n : Nat) (c : Char), "USB MIDI/2".toList[n]? = some c →
      (stripName "USB MIDI/2".toList)[n]? = some (if IsAsciiAlnum c then c else '-')) ∧
    (∀ c ∈ stripName "USB MIDI/2".toList, IsAsciiAlnum c ∨ c = '-') ∧
    stripName (stripName "USB MIDI/2".toList) = stripName "USB MIDI/2".toList :=
  stripName_sanitises "USB MIDI/2".toList

/-! C20: adding a MIDI bind -/

/-- C20. Adding a MIDI binding appends one empty rule: after the add action the bind
list is the previous list followed by one default-constructed rule, every existing rule
keeps its index and content, and the learn target is unchanged; after the add-and-learn
action the list is the same and the learn target is the index of the new last rule. -/
theorem addAction_appends (dflt : MIDIBind) (g : FurnaceGUI V) :
    (addAction dflt g).midiMap.binds = g.midiMap.binds ++ [dflt] ∧
    (∀ n, n < g.midiMap.binds.length →
      (addAction dflt g).midiMap.binds[n]? = g.midiMap.binds[n]?) ∧
    (addAction dflt g).learning = g.learning ∧
    (addLearnAction dflt g).midiMap.binds = g.midiMap.binds ++ [dflt] ∧
    (∀ n, n < g.midiMap.binds.length →
      (addLearnAction dflt g).midiMap.binds[n]? = g.midiMap.binds[n]?) ∧
    (addLearnAction dflt g).learning = (g.midiMap.binds.length : Int) ∧
    (addLearnAction dflt g).learning = ((addLearnAction dflt g).midiMap.binds.length : Int) - 1 ∧
    (addLearnAction dflt g).midiMap.binds[g.midiMap.binds.length]? = some dflt := by
  refine ⟨rfl, ?_, rfl, rfl, ?_, ?_, rfl, ?_⟩
  · intro n hn
    simp [addAction, List.getElem?_append_left hn]
  · intro n hn
    simp [addLearnAction, List.getElem?_append_left hn]
  · simp [addLearnAction]
  · simp [addLearnAction]

theorem addAction_appends_witness :
    (addAction ⟨0, 16, 128, 128, 0⟩ demoGuiMidi).midiMap.binds =
      demoGuiMidi.midiMap.binds ++ [⟨0, 16, 128, 128, 0⟩] ∧
    (∀ n, n < demoGuiMidi.midiMap.binds.length →
      (addAction ⟨0, 16, 128, 128, 0⟩ demoGuiMidi).midiMap.binds[n]? =
        demoGuiMidi.midiMap.binds[n]?) ∧
    (addAction ⟨0, 16, 128, 128, 0⟩ demoGuiMidi).learning = demoGuiMidi.learning ∧
    (addLearnAction ⟨0, 16, 128, 128, 0⟩ demoGuiMidi).midiMap.binds =
      demoGuiMidi.midiMap.binds ++ [⟨0, 16, 128, 128, 0⟩] ∧
    (∀ n, n < demoGuiMidi.midiMap.binds.length →
      (addLearnAction ⟨0, 16, 128, 128, 0⟩ demoGuiMidi).midiMap.binds[n]? =
        demoGuiMidi.midiMap.binds[n]?) ∧
    (addLearnAction ⟨0, 16, 128, 128, 0⟩ demoGuiMidi).learning =
      (demoGuiMidi.midiMap.binds.length : Int) ∧
    (addLearnAction ⟨0, 16, 128, 128, 0⟩ demoGuiMidi).learning =
      ((addLearnAction ⟨0, 16, 128, 128, 0⟩ demoGuiMidi).midiMap.binds.length : Int) - 1 ∧
    (addLearnAction ⟨0, 16, 128, 128, 0⟩ demoGuiMidi).midiMap.binds[
      demoGuiMidi.midiMap.binds.length]? = some ⟨0, 16, 128, 128, 0⟩ :=
  addAction_appends ⟨0, 16, 128, 128, 0⟩ demoGuiMidi

/-! C13: the CC index fields -/

theorem editCC_some (x v : Int) : editCC (some x) v = min 127 (max 0 x) := by
  unfold editCC
  simp only
  split_ifs <;> omega

theorem drawSpecificControl_column (ev : ValueInputEvents) (m : MIDIMap) (j i : Nat) :
    specificColumn (drawSpecificControl ev m j) i =
      if i = j then editSpecific ev j (specificColumn m j) else specificColumn m i := by
  by_cases hij : i = j
  · subst hij
    simp only [if_true]
    unfold drawSpecificControl editSpecific specificColumn
    simp only [Function.update_same]
    split_ifs <;> simp
  · simp only [if_neg hij]
    unfold drawSpecificControl specificColumn
    simp only [Function.update_same]
    split_ifs <;> simp [Function.update_noteq hij]

theorem drawSpecificControl_global (ev : ValueInputEvents) (m : MIDIMap) (j : Nat) :
    (drawSpecificControl ev m j).valueInputControlSingle = m.valueInputControlSingle ∧
    (drawSpecificControl ev m j).valueInputControlMSB = m.valueInputControlMSB ∧
    (drawSpecificControl ev m j).valueInputControlLSB = m.valueInputControlLSB := by
  unfold drawSpecificControl
  simp only
  split_ifs <;> simp

theorem foldl_drawSpecificControl_column (ev : ValueInputEvents) (l : List Nat)
    (hl : l.Nodup) (m : MIDIMap) (i : Nat) :
    specificColumn (l.foldl (drawSpecificControl ev) m) i =
      if i ∈ l then editSpecific ev i (specificColumn m i) else specificColumn m i := by
  induction l generalizing m with
  | nil => simp
  | cons j js ih =>
    rw [List.foldl_cons, ih (List.nodup_cons.mp hl).2, drawSpecificControl_column]
    have hj : j ∉ js := (List.nodup_cons.mp hl).1
    by_cases hij : i = j
    · subst hij
      simp [hj]
    · by_cases him : i ∈ js
      · simp [hij, him, drawSpecificControl_column]
      · simp [hij, him]

theorem foldl_drawSpecificControl_global (ev : ValueInputEvents) (l : List Nat)
    (m : MIDIMap) :
    (l.foldl (drawSpecificControl ev) m).valueInputControlSingle = m.valueInputControlSingle ∧
    (l.foldl (drawSpecificControl ev) m).valueInputControlMSB = m.valueInputControlMSB ∧
    (l.foldl (drawSpecificControl ev) m).valueInputControlLSB = m.valueInputControlLSB := by
  induction l generalizing m with
  | nil => simp
  | cons j js ih =>
    rw [List.foldl_cons]
    obtain ⟨h1, h2, h3⟩ := ih (drawSpecificControl ev m j)
    obtain ⟨g1, g2, g3⟩ := drawSpecificControl_global ev m j
    exact ⟨h1.trans g1, h2.trans g2, h3.trans g3⟩

theorem drawValueInputControls_column (ev : ValueInputEvents) (m : MIDIMap) (i : Nat) :
    specificColumn (drawValueInputControls ev m) i = specificColumn m i := by
  unfold drawValueInputControls specificColumn
  simp only
  split_ifs <;> rfl

/-- The per-column members after one frame. -/
theorem drawValueInput_column (ev : ValueInputEvents) (m : MIDIMap) (i : Nat) (hi : i < 18) :
    specificColumn (drawValueInput ev m) i = editSpecific ev i (specificColumn m i) := by
  unfold drawValueInput
  rw [foldl_drawSpecificControl_column ev _ (List.nodup_range 18), if_pos (List.mem_range.mpr hi),
    drawValueInputControls_column]

/-- C13. CC index fields are clamped on edit: whenever one of the CC fields of the MIDI
value input (global single, MSB, LSB, and single, MSB, LSB of each of the 18 columns)
is shown and the user enters the integer `entered` into it, the field holds
`min(127, max(0, entered))` after the frame. -/
theorem cc_fields_clamped (ev : ValueInputEvents) (m : MIDIMap) (entered : Int) :
    (editCombo ev.style m.valueInputStyle = 6 → ev.controlSingle = some entered →
      (drawValueInput ev m).valueInputControlSingle = min 127 (max 0 entered)) ∧
    (editCombo ev.style m.valueInputStyle > 3 → editCombo ev.style m.valueInputStyle ≠ 6 →
      ev.controlMSB = some entered →
      (drawValueInput ev m).valueInputControlMSB = min 127 (max 0 entered)) ∧
    (editCombo ev.style m.valueInputStyle > 3 → editCombo ev.style m.valueInputStyle ≠ 6 →
      ev.controlLSB = some entered →
      (drawValueInput ev m).valueInputControlLSB = min 127 (max 0 entered)) ∧
    (∀ i, i < 18 → editCombo (ev.specificStyle i) (m.valueInputSpecificStyle i) = 3 →
      ev.specificSingle i = some entered →
      (drawValueInput ev m).valueInputSpecificSingle i = min 127 (max 0 entered)) ∧
    (∀ i, i < 18 → editCombo (ev.specificStyle i) (m.valueInputSpecificStyle i) > 0 →
      editCombo (ev.specificStyle i) (m.valueInputSpecificStyle i) ≠ 3 →
      ev.specificMSB i = some entered →
      (drawValueInput ev m).valueInputSpecificMSB i = min 127 (max 0 entered)) ∧
    (∀ i, i < 18 → editCombo (ev.specificStyle i) (m.valueInputSpecificStyle i) > 0 →
      editCombo (ev.specificStyle i) (m.valueInputSpecificStyle i) ≠ 3 →
      ev.specificLSB i = some entered →
      (drawValueInput ev m).valueInputSpecificLSB i = min 127 (max 0 entered)) := by
  obtain ⟨g1, g2, g3⟩ :=
    foldl_drawSpecificControl_global ev (List.range 18) (drawValueInputControls ev m)
  refine ⟨?_, ?_, ?_, ?_, ?_, ?_⟩
  · intro hs he
    unfold drawValueInput
    rw [g1]
    unfold drawValueInputControls
    simp only [hs, he, editCC_some]
    simp
  · intro hs hne he
    unfold drawValueInput
    rw [g2]
    unfold drawValueInputControls
    simp only [hs, hne, he, editCC_some]
    simp
  · intro hs hne he
    unfold drawValueInput
    rw [g3]
    unfold drawValueInputControls
    simp only [hs, hne, he, editCC_some]
    simp
  · intro i hi hs he
    have h := drawValueInput_column ev m i hi
    unfold editSpecific specificColumn at h
    simp only [hs, he, editCC_some] at h
    simpa using congrArg (fun c => c.2.1) h
  · intro i hi hs hne he
    have h := drawValueInput_column ev m i hi
    unfold editSpecific specificColumn at h
    simp only [hs, hne, he, editCC_some, if_true, if_false] at h
    simpa using congrArg (fun c => c.2.2.1) h
  · intro i hi hs hne he
    have h := drawValueInput_column ev m i hi
    unfold editSpecific specificColumn at h
    simp only [hs, hne, he, editCC_some, if_true, if_false] at h
    simpa using congrArg (fun c => c.2.2.2) h

theorem cc_fields_clamped_witness :
    (editCombo demoValueEvents.style demoGuiMidi.midiMap.valueInputStyle = 6 ∧
      demoValueEvents.controlSingle = some 200) ∧
    (drawValueInput demoValueEvents demoGuiMidi.midiMap).valueInputControlSingle = 127 :=
  ⟨⟨by decide, rfl⟩,
    (cc_fields_clamped demoValueEvents demoGuiMidi.midiMap 200).1 (by decide) rfl⟩

/-! C17, C18: the note-key map on the settings screen -/

theorem insertMapped_perm (x : MappedInput) (l : List MappedInput) :
    List.Perm (insertMapped x l) (x :: l) := by
  induction l with
  | nil => exact List.Perm.refl _
  | cons j js ih =>
    unfold insertMapped
    split_ifs
    · exact List.Perm.refl _
    · exact (List.Perm.cons j ih).trans (List.Perm.swap x j js)

theorem insertMapped_sorted (x : MappedInput) (l : List MappedInput)
    (h : l.Pairwise (fun a b => a.val ≤ b.val)) :
    (insertMapped x l).Pairwise (fun a b => a.val ≤ b.val) := by
  induction l with
  | nil => simp [insertMapped]
  | cons j js ih =>
    obtain ⟨hj, hjs⟩ := List.pairwise_cons.mp h
    unfold insertMapped
    split_ifs with hgt
    · refine List.pairwise_cons.mpr ⟨?_, h⟩
      intro b hb
      rcases List.mem_cons.mp hb with rfl | hb
      · omega
      · have := hj b hb
        omega
    · refine List.pairwise_cons.mpr ⟨?_, ih hjs⟩
      intro b hb
      rcases List.mem_cons.mp ((insertMapped_perm x js).subset hb) with rfl | hb
      · omega
      · exact hj b hb

theorem foldl_insertMapped (m : NoteKeys) (acc : List MappedInput)
    (h : acc.Pairwise (fun a b => a.val ≤ b.val)) :
    List.Perm ((m.foldl (fun sorted i => insertMapped ⟨i.1, i.2⟩ sorted) acc).map
        (fun x => (x.scan, x.val))) (acc.map (fun x => (x.scan, x.val)) ++ m) ∧
      (m.foldl (fun sorted i => insertMapped ⟨i.1, i.2⟩ sorted) acc).Pairwise
        (fun a b => a.val ≤ b.val) := by
  induction m generalizing acc with
  | nil => simpa using h
  | cons e es ih =>
    rw [List.foldl_cons]
    obtain ⟨h1, h2⟩ := ih (insertMapped ⟨e.1, e.2⟩ acc) (insertMapped_sorted _ _ h)
    refine ⟨h1.trans ?_, h2⟩
    have hp := (insertMapped_perm ⟨e.1, e.2⟩ acc).map (fun x => (x.scan, x.val))
    refine (List.Perm.append_right es hp).trans ?_
    simp only [List.map_cons, List.cons_append]
    exact (@List.perm_middle _ e (acc.map (fun x => (x.scan, x.val))) es).symm

/-- C17. The note-key display list is the note-key map sorted by note slot: the list
built for display holds exactly the (key-code, slot) pairs of the map, each as often as
the map does (once), and is ordered by non-decreasing note slot. -/
theorem sortNoteKeys_sorted_perm (m : NoteKeys) :
    List.Perm ((sortNoteKeys m).map (fun x => (x.scan, x.val))) m ∧
      (sortNoteKeys m).Pairwise (fun a b => a.val ≤ b.val) := by
  have h := foldl_insertMapped m [] List.Pairwise.nil
  simpa [sortNoteKeys] using h

theorem validSlots_set (m : NoteKeys) (k v : Int) (hm : ValidSlots m) (hv : ValidSlot v) :
    ValidSlots (m.set k v) := by
  induction m with
  | nil =>
    intro e he
    simp [NoteKeys.set] at he
    subst he
    exact hv
  | cons a rest ih =>
    obtain ⟨k', v'⟩ := a
    have hrest : ValidSlots rest := fun e he => hm e (List.mem_cons_of_mem _ he)
    unfold NoteKeys.set
    split_ifs
    · intro e he
      rcases List.mem_cons.mp he with rfl | he
      · exact hv
      · exact hm e he
    · intro e he
      rcases List.mem_cons.mp he with rfl | he
      · exact hv
      · exact hrest e he
    · intro e he
      rcases List.mem_cons.mp he with rfl | he
      · exact hm _ (List.mem_cons_self _ _)
      · exact ih hrest e he

theorem validSlots_erase (m : NoteKeys) (k : Int) (hm : ValidSlots m) :
    ValidSlots (m.erase k) := by
  intro e he
  exact hm e (List.mem_of_mem_filter he)

theorem validSlots_noteRow (ev : Int → NoteRowEvents) (m : NoteKeys) (i : MappedInput)
    (hm : ValidSlots m) : ValidSlots (noteRow ev m i) := by
  have h0 : ValidSlot 0 := by decide
  have h100 : ValidSlot 100 := by decide
  have h101 : ValidSlot 101 := by decide
  have h102 : ValidSlot 102 := by decide
  have hclamp : ∀ x : Int,
      ValidSlot (if (if x < 0 then 0 else x) > 96 then 96 else (if x < 0 then 0 else x)) := by
    intro x
    unfold ValidSlot
    split_ifs <;> omega
  have step1 : ValidSlots
      (if i.val = 102 then (if (ev i.scan).typeButton then m.set i.scan 0 else m)
      else if i.val = 101 then (if (ev i.scan).typeButton then m.set i.scan 102 else m)
      else if i.val = 100 then (if (ev i.scan).typeButton then m.set i.scan 101 else m)
      else (if (ev i.scan).typeButton then m.set i.scan 100 else m)) := by
    split_ifs
    all_goals first
      | exact hm
      | exact validSlots_set m _ _ hm h0
      | exact validSlots_set m _ _ hm h100
      | exact validSlots_set m _ _ hm h101
      | exact validSlots_set m _ _ hm h102
  unfold noteRow
  simp only
  generalize (if i.val = 102 then (if (ev i.scan).typeButton then m.set i.scan 0 else m)
      else if i.val = 101 then (if (ev i.scan).typeButton then m.set i.scan 102 else m)
      else if i.val = 100 then (if (ev i.scan).typeButton then m.set i.scan 101 else m)
      else (if (ev i.scan).typeButton then m.set i.scan 100 else m)) = m1 at step1 ⊢
  have step2 : ValidSlots
      (if i.val < 100 then
        match (ev i.scan).valueInput with
        | some x =>
          m1.set i.scan (if (if x < 0 then 0 else x) > 96 then 96 else (if x < 0 then 0 else x))
        | none => m1
      else m1) := by
    split_ifs
    · cases (ev i.scan).valueInput with
      | none => exact step1
      | some x => exact validSlots_set m1 _ _ step1 (hclamp x)
    · exact step1
  by_cases hr : (ev i.scan).removeButton = true
  · rw [if_pos hr]
    exact validSlots_erase _ _ step2
  · rw [if_neg hr]
    exact step2

theorem validSlots_foldl_noteRow (ev : Int → NoteRowEvents) (rows : List MappedInput)
    (m : NoteKeys) (hm : ValidSlots m) : ValidSlots (rows.foldl (noteRow ev) m) := by
  induction rows generalizing m with
  | nil => exact hm
  | cons i rest ih => exact ih _ (validSlots_noteRow ev m i hm)

theorem validSlots_foldl_noteAddStep (named sel : Nat → Bool) (l : List Nat)
    (m : NoteKeys) (hm : ValidSlots m) : ValidSlots (l.foldl (noteAddStep named sel) m) := by
  induction l generalizing m with
  | nil => exact hm
  | cons i rest ih =>
    apply ih
    unfold noteAddStep
    split_ifs
    · exact validSlots_set m _ _ hm (by decide)
    · exact hm
    · exact hm

/-- C18. Note-slot range invariant under settings edits: if every value of the note-key
map lies in `[0,96]` or is one of 100, 101, 102, it still does after a frame of the note
input section, whatever the user does in it: cycling the type of keys, entering note
values, removing keys, adding keys. -/
theorem drawNoteInput_preserves_slots (tableOpen : Bool) (numScancodes : Nat)
    (named : Nat → Bool) (ev : Int → NoteRowEvents) (sel : Nat → Bool) (m : NoteKeys)
    (hm : ValidSlots m) :
    ValidSlots (drawNoteInput tableOpen numScancodes named ev sel m) := by
  unfold drawNoteInput
  split_ifs
  · exact validSlots_foldl_noteAddStep named sel _ _ (validSlots_foldl_noteRow ev _ m hm)
  · exact hm

theorem drawNoteInput_preserves_slots_witness :
    ValidSlots demoNoteKeys ∧
      ValidSlots (drawNoteInput true 512 (fun i => decide (i = 44)) demoNoteEvents
        (fun i => decide (i = 44)) demoNoteKeys) :=
  ⟨by decide,
    drawNoteInput_preserves_slots true 512 (fun i => decide (i = 44)) demoNoteEvents
      (fun i => decide (i = 44)) demoNoteKeys (by decide)⟩

/-! C19: commit, then revert -/

theorem getConfInt_setConf_same (e : Conf) (key : List Char) (v fallback : Int) :
    getConfInt (setConf e key (ConfValue.int v)) key fallback = v := by
  simp [getConfInt, setConf]

theorem setConf_other (e : Conf) (key key' : List Char) (v : ConfValue) (h : key' ≠ key) :
    setConf e key v key' = e key' := by
  simp [setConf, Function.update_noteq h]

theorem keybindKey_injective (K : GuiConst V) (i j : Nat)
    (h : keybindKey K i = keybindKey K j) : (K.guiActions i).name = (K.guiActions j).name :=
  List.append_cancel_left h

theorem keybindKey_ne_noteKeys (K : GuiConst V) (i : Nat) :
    keybindKey K i ≠ "noteKeys".toList := by
  intro h
  have h2 := congrArg List.head? h
  revert h2
  simp [keybindKey]

theorem commitKeybindsStep_apply (K : GuiConst V) (keys : Nat → Int) (e : Conf) (n : Nat)
    (key : List Char) :
    commitKeybindsStep K keys e n key =
      if (K.guiActions n).defaultBind ≠ -1 ∧ key = keybindKey K n
      then some (ConfValue.int (keys n)) else e key := by
  unfold commitKeybindsStep
  by_cases hd : (K.guiActions n).defaultBind = -1
  · simp [hd]
  · by_cases hk : key = keybindKey K n
    · subst hk
      simp [hd, setConf]
    · simp [hd, hk, setConf, Function.update_noteq hk]

theorem commitKeybinds_fold (K : GuiConst V) (keys : Nat → Int) (e : Conf) (n i : Nat)
    (hn : n ≤ K.GUI_ACTION_MAX) (hi : i < K.GUI_ACTION_MAX)
    (hnames : ∀ a, a < K.GUI_ACTION_MAX → ∀ b, b < K.GUI_ACTION_MAX →
      (K.guiActions a).name = (K.guiActions b).name → a = b) :
    (List.range n).foldl (commitKeybindsStep K keys) e (keybindKey K i) =
      if i < n ∧ (K.guiActions i).defaultBind ≠ -1 then some (ConfValue.int (keys i))
      else e (keybindKey K i) := by
  induction n with
  | zero => simp
  | succ n ih =>
    rw [List.range_succ, List.foldl_append]
    simp only [List.foldl_cons, List.foldl_nil]
    rw [commitKeybindsStep_apply, ih (by omega)]
    by_cases hin : i = n
    · subst hin
      by_cases hd : (K.guiActions i).defaultBind = -1
      · simp [hd]
      · simp [hd]
    · have hlt : (i < n + 1) ↔ (i < n) := by omega
      have hne : keybindKey K i ≠ keybindKey K n := by
        intro h
        exact hin (hnames i hi n (by omega) (keybindKey_injective K i n h))
      simp only [hne, and_false, if_false, hlt]

theorem syncKeybindsStep_apply (K : GuiConst V) (e : Conf) (keys : Nat → Int) (n i : Nat) :
    syncKeybindsStep K e keys n i =
      if i = n ∧ (K.guiActions n).defaultBind ≠ -1
      then getConfInt e (keybindKey K n) (K.guiActions n).defaultBind else keys i := by
  unfold syncKeybindsStep
  by_cases hd : (K.guiActions n).defaultBind = -1
  · simp [hd]
  · by_cases hin : i = n
    · subst hin
      simp [hd]
    · simp [hd, hin, Function.update_noteq hin]

theorem syncKeybinds_fold (K : GuiConst V) (e : Conf) (keys : Nat → Int) (n i : Nat) :
    (List.range n).foldl (syncKeybindsStep K e) keys i =
      if i < n ∧ (K.guiActions i).defaultBind ≠ -1
      then getConfInt e (keybindKey K i) (K.guiActions i).defaultBind else keys i := by
  induction n with
  | zero => simp
  | succ n ih =>
    rw [List.range_succ, List.foldl_append]
    simp only [List.foldl_cons, List.foldl_nil]
    rw [syncKeybindsStep_apply, ih]
    by_cases hin : i = n
    · subst hin
      by_cases hd : (K.guiActions i).defaultBind = -1
      · simp [hd]
      · simp [hd]
    · have hlt : (i < n + 1) ↔ (i < n) := by omega
      simp only [hin, false_and, if_false, hlt]

/-- The table after `syncSettings`: a bindable entry of the registry holds what the
config store gives for its key, every other entry is untouched. -/
theorem syncSettings_actionKeys (K : GuiConst V) (X : SettingsExt) (e : DivEngine)
    (g : FurnaceGUI V) (i : Nat) :
    (syncSettings K X e g).2.actionKeys i =
      if i < K.GUI_ACTION_MAX ∧ (K.guiActions i).defaultBind ≠ -1
      then getConfInt e.conf (keybindKey K i) (K.guiActions i).defaultBind
      else g.actionKeys i := by
  unfold syncSettings
  simp only [parseKeybinds_actionKeys]
  exact syncKeybinds_fold K e.conf g.actionKeys K.GUI_ACTION_MAX i

/-- The dispatch maps after `syncSettings` are the compilation of the table it leaves. -/
theorem syncSettings_actionMap (K : GuiConst V) (X : SettingsExt) (e : DivEngine)
    (g : FurnaceGUI V) (c : ActionContext) :
    (syncSettings K X e g).2.actionMap c =
      bindLoop K.FURK_MASK (syncSettings K X e g).2.actionKeys (K.ctxMin c) (K.ctxMax c)
        KeyMap.clear := by
  unfold syncSettings
  cases c <;> rfl

/-- The store after `commitSettings` holds the binding of every bindable action under
its key, when machine names are pairwise distinct. -/
theorem commitSettings_conf_keybind (K : GuiConst V) (X : SettingsExt) (e : DivEngine)
    (g : FurnaceGUI V) (i : Nat) (hi : i < K.GUI_ACTION_MAX)
    (hd : (K.guiActions i).defaultBind ≠ -1)
    (hnames : ∀ a, a < K.GUI_ACTION_MAX → ∀ b, b < K.GUI_ACTION_MAX →
      (K.guiActions a).name = (K.guiActions b).name → a = b) :
    (commitSettings K X e g).1.conf (keybindKey K i) = some (ConfValue.int (g.actionKeys i)) := by
  unfold commitSettings
  simp only
  rw [setConf_other _ _ _ _ (keybindKey_ne_noteKeys K i),
    commitKeybinds_fold K g.actionKeys _ K.GUI_ACTION_MAX i (le_refl _) hi hnames,
    if_pos ⟨hi, hd⟩]

theorem bindLoop_congr (mask : Int) (keys keys' : Nat → Int) (lo hi : Nat) (m : KeyMap)
    (h : ∀ i, lo < i → i < hi → keys i = keys' i) :
    bindLoop mask keys lo hi m = bindLoop mask keys' lo hi m := by
  unfold bindLoop
  have hmem : ∀ i ∈ List.range' (lo + 1) (hi - (lo + 1)), keys i = keys' i := by
    intro i hi'
    rw [List.mem_range'_1] at hi'
    exact h i (by omega) (by omega)
  generalize List.range' (lo + 1) (hi - (lo + 1)) = l at hmem
  induction l generalizing m with
  | nil => rfl
  | cons a as ih =>
    rw [List.foldl_cons, List.foldl_cons]
    have ha : bindStep mask keys m a = bindStep mask keys' m a := by
      unfold bindStep
      rw [hmem a (by simp)]
    rw [ha]
    exact ih _ (fun i hi' => hmem i (by simp [hi']))

/-- C19. Commit then revert restores the committed key bindings. Let `commitSettings`
run on a state with binding table `t = g.actionKeys`, and let `syncSettings` run later on
any state `g'` (the table after arbitrary live edits) and an engine whose config store is
the one the commit left. If machine names are pairwise distinct, every bindable action
has the binding it had in `t`; the dispatch maps are the compilation of the restored
table; and for a context whose range holds bindable actions only, its map is the
compilation of `t` itself. -/
theorem commit_then_sync_restores_keybinds (K : GuiConst V) (X X' : SettingsExt)
    (e e' : DivEngine) (g g' : FurnaceGUI V)
    (hconf : e'.conf = (commitSettings K X e g).1.conf)
    (hnames : ∀ a, a < K.GUI_ACTION_MAX → ∀ b, b < K.GUI_ACTION_MAX →
      (K.guiActions a).name = (K.guiActions b).name → a = b) :
    (∀ i, i < K.GUI_ACTION_MAX → (K.guiActions i).defaultBind ≠ -1 →
      (syncSettings K X' e' g').2.actionKeys i = g.actionKeys i) ∧
    (∀ c, (syncSettings K X' e' g').2.actionMap c =
      (parseKeybinds K (syncSettings K X' e' g').2).actionMap c) ∧
    (∀ c, (∀ i, K.ctxMin c < i → i < K.ctxMax c →
        i < K.GUI_ACTION_MAX ∧ (K.guiActions i).defaultBind ≠ -1) →
      (syncSettings K X' e' g').2.actionMap c = (parseKeybinds K g).actionMap c) := by
  have h1 : ∀ i, i < K.GUI_ACTION_MAX → (K.guiActions i).defaultBind ≠ -1 →
      (syncSettings K X' e' g').2.actionKeys i = g.actionKeys i := by
    intro i hi hd
    rw [syncSettings_actionKeys, if_pos ⟨hi, hd⟩, hconf, getConfInt,
      commitSettings_conf_keybind K X e g i hi hd hnames]
  refine ⟨h1, ?_, ?_⟩
  · intro c
    rw [syncSettings_actionMap, parseKeybinds_actionMap]
  · intro c hc
    rw [syncSettings_actionMap, parseKeybinds_actionMap]
    apply bindLoop_congr
    intro i hlo hhi
    exact h1 i (hc i hlo hhi).1 (hc i hlo hhi).2

theorem commit_then_sync_restores_keybinds_witness :
    ((commitSettings demoConst demoExt demoEngine demoGui).1.conf =
        (commitSettings demoConst demoExt demoEngine demoGui).1.conf ∧
      (∀ a, a < demoConst.GUI_ACTION_MAX → ∀ b, b < demoConst.GUI_ACTION_MAX →
        (demoConst.guiActions a).name = (demoConst.guiActions b).name → a = b)) ∧
    ((∀ i, i < demoConst.GUI_ACTION_MAX → (demoConst.guiActions i).defaultBind ≠ -1 →
      (syncSettings demoConst demoExt
        (commitSettings demoConst demoExt demoEngine demoGui).1 demoGuiEdited).2.actionKeys i =
          demoGui.actionKeys i) ∧
    (∀ c, (syncSettings demoConst demoExt
        (commitSettings demoConst demoExt demoEngine demoGui).1 demoGuiEdited).2.actionMap c =
      (parseKeybinds demoConst (syncSettings demoConst demoExt
        (commitSettings demoConst demoExt demoEngine demoGui).1 demoGuiEdited).2).actionMap c) ∧
    (∀ c, (∀ i, demoConst.ctxMin c < i → i < demoConst.ctxMax c →
        i < demoConst.GUI_ACTION_MAX ∧ (demoConst.guiActions i).defaultBind ≠ -1) →
      (syncSettings demoConst demoExt
        (commitSettings demoConst demoExt demoEngine demoGui).1 demoGuiEdited).2.actionMap c =
          (parseKeybinds demoConst demoGui).actionMap c)) :=
  ⟨⟨rfl, by decide⟩,
    commit_then_sync_restores_keybinds demoConst demoExt demoExt demoEngine
      (commitSettings demoConst demoExt demoEngine demoGui).1 demoGui demoGuiEdited rfl
      (by decide)⟩

/-! C14: syncSettings clamps what it reads -/

theorem clampSetting_spec (x minV maxV : Int) (h : minV ≤ maxV) :
    minV ≤ clampSetting x minV maxV ∧ clampSetting x minV maxV ≤ maxV ∧
    (minV ≤ x → x ≤ maxV → clampSetting x minV maxV = x) ∧
    (x < minV → clampSetting x minV maxV = minV) ∧
    (maxV < x → clampSetting x minV maxV = maxV) := by
  unfold clampSetting
  simp only
  refine ⟨?_, ?_, ?_, ?_, ?_⟩ <;> split_ifs <;> intros <;> omega

theorem clampSettingF_spec (x : CFloat) (hx : x ≠ CFloat.nan) :
    CFloat.le (CFloat.fin 0) (clampSettingF x (CFloat.fin 0) (CFloat.fin 4)) = true ∧
    CFloat.le (clampSettingF x (CFloat.fin 0) (CFloat.fin 4)) (CFloat.fin 4) = true ∧
    (CFloat.le (CFloat.fin 0) x = true → CFloat.le x (CFloat.fin 4) = true →
      clampSettingF x (CFloat.fin 0) (CFloat.fin 4) = x) ∧
    (CFloat.lt x (CFloat.fin 0) = true →
      clampSettingF x (CFloat.fin 0) (CFloat.fin 4) = CFloat.fin 0) ∧
    (CFloat.lt (CFloat.fin 4) x = true →
      clampSettingF x (CFloat.fin 0) (CFloat.fin 4) = CFloat.fin 4) := by
  have h04 : ¬ ((4 : ℚ) < 0) := by norm_num
  cases x with
  | nan => exact absurd rfl hx
  | negInf => simp [clampSettingF, CFloat.lt, CFloat.le, h04]
  | posInf => simp [clampSettingF, CFloat.lt, CFloat.le]
  | fin q =>
    by_cases h0 : q < 0
    · have h4 : ¬ (4 < q) := by linarith
      have hq0 : ¬ (0 ≤ q) := by linarith
      simp [clampSettingF, CFloat.lt, CFloat.le, h0, h4, h04, hq0]
    · by_cases h4 : 4 < q
      · have hq4 : ¬ (q ≤ 4) := by linarith
        have hq0 : 0 ≤ q := by linarith
        simp [clampSettingF, CFloat.lt, CFloat.le, h0, h4, hq4, hq0]
      · have hq4 : q ≤ 4 := by linarith
        have hq0 : 0 ≤ q := by linarith
        simp [clampSettingF, CFloat.lt, CFloat.le, h0, h4, hq4, hq0]

theorem syncSettings_settings (K : GuiConst V) (X : SettingsExt) (e : DivEngine)
    (g : FurnaceGUI V) :
    (syncSettings K X e g).2.settings = clampSettings (readSettings e.conf) := rfl

theorem clampedIntSettings_members (e : Conf) :
    ∀ d ∈ clampedIntSettings,
      d.member (clampSettings (readSettings e)) =
        clampSetting (getConfInt e d.key d.fallback) d.minV d.maxV ∧ d.minV ≤ d.maxV := by
  simp only [clampedIntSettings, List.forall_mem_cons]
  repeat' apply And.intro
  all_goals first
    | rfl
    | decide
    | simp

/-- C14, the claim as stated fails: with NaN stored for `dpiScale` the two comparisons
of `clampSetting` are false, the setting stays NaN after `syncSettings`, and NaN does
not lie in `[0,4]`. -/
theorem syncSettings_dpiScale_nan :
    getConfFloat demoEngineNaN.conf "dpiScale".toList (CFloat.fin 0) = CFloat.nan ∧
    (syncSettings demoConst demoExt demoEngineNaN demoGui).2.settings.dpiScale = CFloat.nan ∧
    ¬ (CFloat.le (CFloat.fin 0)
          (syncSettings demoConst demoExt demoEngineNaN demoGui).2.settings.dpiScale = true ∧
        CFloat.le (syncSettings demoConst demoExt demoEngineNaN demoGui).2.settings.dpiScale
          (CFloat.fin 4) = true) := by
  refine ⟨by decide, by decide, ?_⟩
  have h : (syncSettings demoConst demoExt demoEngineNaN demoGui).2.settings.dpiScale
      = CFloat.nan := by decide
  rw [h]
  simp [CFloat.le]

/-- C14, amended. For every content of the config store, after `syncSettings` every
integer setting with a `clampSetting` line lies within the bounds of that line, equals
the stored value when that was within bounds and the nearest bound otherwise; in
particular `mainFontSize` and `patFontSize` lie in `[2,96]`, `iconSize` in `[2,48]`,
`audioBufSize` in `[32,4096]`, `audioRate` in `[8000,384000]`, `mainFont` and `patFont`
in `[0,6]`; `audioEngine` is 0 or 1; and `dpiScale` lies in `[0,4]`, equal to the stored
value when that was within bounds and to the nearest bound otherwise, provided the stored
value is not NaN. -/
theorem syncSettings_clamps (K : GuiConst V) (X : SettingsExt) (e : DivEngine)
    (g : FurnaceGUI V) :
    (∀ d ∈ clampedIntSettings,
      d.minV ≤ d.member (syncSettings K X e g).2.settings ∧
      d.member (syncSettings K X e g).2.settings ≤ d.maxV ∧
      (d.minV ≤ getConfInt e.conf d.key d.fallback →
        getConfInt e.conf d.key d.fallback ≤ d.maxV →
        d.member (syncSettings K X e g).2.settings = getConfInt e.conf d.key d.fallback) ∧
      (getConfInt e.conf d.key d.fallback < d.minV →
        d.member (syncSettings K X e g).2.settings = d.minV) ∧
      (d.maxV < getConfInt e.conf d.key d.fallback →
        d.member (syncSettings K X e g).2.settings = d.maxV)) ∧
    (2 ≤ (syncSettings K X e g).2.settings.mainFontSize ∧
      (syncSettings K X e g).2.settings.mainFontSize ≤ 96 ∧
      2 ≤ (syncSettings K X e g).2.settings.patFontSize ∧
      (syncSettings K X e g).2.settings.patFontSize ≤ 96 ∧
      2 ≤ (syncSettings K X e g).2.settings.iconSize ∧
      (syncSettings K X e g).2.settings.iconSize ≤ 48 ∧
      32 ≤ (syncSettings K X e g).2.settings.audioBufSize ∧
      (syncSettings K X e g).2.settings.audioBufSize ≤ 4096 ∧
      8000 ≤ (syncSettings K X e g).2.settings.audioRate ∧
      (syncSettings K X e g).2.settings.audioRate ≤ 384000 ∧
      0 ≤ (syncSettings K X e g).2.settings.mainFont ∧
      (syncSettings K X e g).2.settings.mainFont ≤ 6 ∧
      0 ≤ (syncSettings K X e g).2.settings.patFont ∧
      (syncSettings K X e g).2.settings.patFont ≤ 6) ∧
    (0 ≤ (syncSettings K X e g).2.settings.audioEngine ∧
      (syncSettings K X e g).2.settings.audioEngine ≤ 1) ∧
    (getConfFloat e.conf "dpiScale".toList (CFloat.fin 0) ≠ CFloat.nan →
      CFloat.le (CFloat.fin 0) (syncSettings K X e g).2.settings.dpiScale = true ∧
      CFloat.le (syncSettings K X e g).2.settings.dpiScale (CFloat.fin 4) = true ∧
      (CFloat.le (CFloat.fin 0) (getConfFloat e.conf "dpiScale".toList (CFloat.fin 0)) = true →
        CFloat.le (getConfFloat e.conf "dpiScale".toList (CFloat.fin 0)) (CFloat.fin 4) = true →
        (syncSettings K X e g).2.settings.dpiScale =
          getConfFloat e.conf "dpiScale".toList (CFloat.fin 0)) ∧
      (CFloat.lt (getConfFloat e.conf "dpiScale".toList (CFloat.fin 0)) (CFloat.fin 0) = true →
        (syncSettings K X e g).2.settings.dpiScale = CFloat.fin 0) ∧
      (CFloat.lt (CFloat.fin 4) (getConfFloat e.conf "dpiScale".toList (CFloat.fin 0)) = true →
        (syncSettings K X e g).2.settings.dpiScale = CFloat.fin 4)) := by
  have hint : ∀ d ∈ clampedIntSettings,
      d.minV ≤ d.member (syncSettings K X e g).2.settings ∧
      d.member (syncSettings K X e g).2.settings ≤ d.maxV ∧
      (d.minV ≤ getConfInt e.conf d.key d.fallback →
        getConfInt e.conf d.key d.fallback ≤ d.maxV →
        d.member (syncSettings K X e g).2.settings = getConfInt e.conf d.key d.fallback) ∧
      (getConfInt e.conf d.key d.fallback < d.minV →
        d.member (syncSettings K X e g).2.settings = d.minV) ∧
      (d.maxV < getConfInt e.conf d.key d.fallback →
        d.member (syncSettings K X e g).2.settings = d.maxV) := by
    intro d hd
    obtain ⟨h1, h2⟩ := clampedIntSettings_members e.conf d hd
    rw [syncSettings_settings, h1]
    exact clampSetting_spec _ _ _ h2
  have hb : ∀ (x lo hi : Int), lo ≤ hi →
      lo ≤ clampSetting x lo hi ∧ clampSetting x lo hi ≤ hi := fun x lo hi h =>
    ⟨(clampSetting_spec x lo hi h).1, (clampSetting_spec x lo hi h).2.1⟩
  refine ⟨hint, ?_, ?_, ?_⟩
  · rw [syncSettings_settings]
    exact ⟨(hb _ 2 96 (by decide)).1, (hb _ 2 96 (by decide)).2,
      (hb _ 2 96 (by decide)).1, (hb _ 2 96 (by decide)).2,
      (hb _ 2 48 (by decide)).1, (hb _ 2 48 (by decide)).2,
      (hb _ 32 4096 (by decide)).1, (hb _ 32 4096 (by decide)).2,
      (hb _ 8000 384000 (by decide)).1, (hb _ 8000 384000 (by decide)).2,
      (hb _ 0 6 (by decide)).1, (hb _ 0 6 (by decide)).2,
      (hb _ 0 6 (by decide)).1, (hb _ 0 6 (by decide)).2⟩
  · rw [syncSettings_settings]
    exact hb _ 0 1 (by decide)
  · intro hx
    rw [syncSettings_settings]
    exact clampSettingF_spec _ hx

theorem syncSettings_clamps_witness :
    getConfInt demoEngineNaN.conf "mainFontSize".toList 18 = 200 ∧
      (syncSettings demoConst demoExt demoEngineNaN demoGui).2.settings.mainFontSize = 96 :=
  ⟨by decide,
    ((syncSettings_clamps demoConst demoExt demoEngineNaN demoGui).1
      ⟨"mainFontSize".toList, 18, 2, 96, Settings.mainFontSize⟩
      (by simp [clampedIntSettings])).2.2.2.2 (by decide)⟩

/-! C15, C16: the volume curve -/

theorem log2Aux_spec (fuel : Nat) : ∀ n : Nat, n ≤ fuel → n ≠ 0 →
    2 ^ log2Aux fuel n ≤ n ∧ n < 2 ^ (log2Aux fuel n + 1) := by
  induction fuel with
  | zero => intro n h hn; omega
  | succ f ih =>
    intro n h hn
    unfold log2Aux
    by_cases h2 : n < 2
    · rw [if_pos h2]
      have : n = 1 := by omega
      subst this
      simp
    · rw [if_neg h2]
      have hle : n / 2 ≤ f := by omega
      have hne : n / 2 ≠ 0 := by omega
      obtain ⟨h3, h4⟩ := ih (n / 2) hle hne
      rw [pow_succ] at h4
      constructor
      · rw [pow_succ]; omega
      · rw [pow_succ, pow_succ]; omega

theorem floorLog2_spec (n : Nat) (hn : n ≠ 0) :
    2 ^ floorLog2 n ≤ n ∧ n < 2 ^ (floorLog2 n + 1) :=
  log2Aux_spec n n (le_refl n) hn

theorem pow2_eq (k : Int) : pow2 k = (2 : ℚ) ^ k := by
  unfold pow2
  by_cases h : 0 ≤ k
  · rw [if_pos h]
    obtain ⟨n, rfl⟩ := Int.eq_ofNat_of_zero_le h
    simp
  · rw [if_neg h]
    obtain ⟨n, hn⟩ := Int.eq_ofNat_of_zero_le (show 0 ≤ -k by omega)
    have hk : k = -(n : Int) := by omega
    subst hk
    simp

theorem pow2_pos (k : Int) : 0 < pow2 k := by
  rw [pow2_eq]; positivity

theorem pow2_le_pow2 {a b : Int} (h : a ≤ b) : pow2 a ≤ pow2 b := by
  rw [pow2_eq, pow2_eq]
  exact zpow_le_zpow_right₀ (by norm_num) h

theorem pow2_succ (k : Int) : pow2 (k + 1) = pow2 k * 2 := by
  rw [pow2_eq, pow2_eq, zpow_add_one₀ (by norm_num)]

theorem ilog2_spec (q : ℚ) (hq : 0 < q) :
    pow2 (ilog2 q) ≤ q ∧ q < pow2 (ilog2 q + 1) := by
  have hnum : 0 < q.num := Rat.num_pos.mpr hq
  have hn0 : q.num.natAbs ≠ 0 := by omega
  obtain ⟨ha1, ha2⟩ := floorLog2_spec q.num.natAbs hn0
  obtain ⟨hb1, hb2⟩ := floorLog2_spec q.den q.den_nz
  have hqe : q = (q.num.natAbs : ℚ) / (q.den : ℚ) := by
    have h1 : (q.num.natAbs : ℚ) = (q.num : ℚ) := by
      rw [Nat.cast_natAbs, abs_of_pos hnum]
    rw [h1]
    exact (Rat.num_div_den q).symm
  have hden : (0 : ℚ) < (q.den : ℚ) := by exact_mod_cast q.den_pos
  set a := floorLog2 q.num.natAbs with ha
  set b := floorLog2 q.den with hb
  have ha1q : ((2 : ℚ) ^ a) ≤ (q.num.natAbs : ℚ) := by exact_mod_cast ha1
  have ha2q : (q.num.natAbs : ℚ) < (2 : ℚ) ^ (a + 1) := by exact_mod_cast ha2
  have hb1q : ((2 : ℚ) ^ b) ≤ (q.den : ℚ) := by exact_mod_cast hb1
  have hb2q : (q.den : ℚ) < (2 : ℚ) ^ (b + 1) := by exact_mod_cast hb2
  have hpa : (0 : ℚ) < (2 : ℚ) ^ a := by positivity
  have hpb : (0 : ℚ) < (2 : ℚ) ^ b := by positivity
  have e1 : pow2 ((a : Int) - (b : Int)) = (2 : ℚ) ^ a / (2 : ℚ) ^ b := by
    rw [pow2_eq, zpow_sub₀ (by norm_num)]; simp
  have hlo : pow2 ((a : Int) - (b : Int) - 1) ≤ q := by
    have : pow2 ((a : Int) - (b : Int) - 1 + 1) = pow2 ((a : Int) - (b : Int) - 1) * 2 :=
      pow2_succ _
    rw [sub_add_cancel, e1] at this
    have h3 : pow2 ((a : Int) - (b : Int) - 1) = (2 : ℚ) ^ a / ((2 : ℚ) ^ b * 2) := by
      rw [div_eq_iff (ne_of_gt hpb)] at this
      rw [eq_div_iff (by positivity)]
      linarith
    rw [h3, hqe, div_le_div_iff₀ (by positivity) hden]
    rw [pow_succ] at hb2q
    nlinarith
  have hhi : q < pow2 ((a : Int) - (b : Int) + 1) := by
    rw [pow2_succ, e1, hqe, div_mul_eq_mul_div, div_lt_div_iff₀ hden hpb]
    rw [pow_succ] at ha2q
    nlinarith
  show pow2 (ilog2 q) ≤ q ∧ q < pow2 (ilog2 q + 1)
  unfold ilog2
  simp only [← ha, ← hb]
  by_cases hc : pow2 ((a : Int) - (b : Int)) ≤ q
  · rw [if_pos hc]; exact ⟨hc, hhi⟩
  · rw [if_neg hc, sub_add_cancel]; exact ⟨hlo, lt_of_not_le hc⟩

theorem ilog2_unique (q : ℚ) (e : Int) (h1 : pow2 e ≤ q) (h2 : q < pow2 (e + 1)) :
    ilog2 q = e := by
  have hq : 0 < q := lt_of_lt_of_le (pow2_pos e) h1
  obtain ⟨h3, h4⟩ := ilog2_spec q hq
  by_contra hne
  rcases lt_or_gt_of_ne hne with h | h
  · have : pow2 (ilog2 q + 1) ≤ pow2 e := pow2_le_pow2 (by omega)
    linarith
  · have : pow2 (e + 1) ≤ pow2 (ilog2 q) := pow2_le_pow2 (by omega)
    linarith

theorem roundHalfEven_cases (s : ℚ) :
    roundHalfEven s = ⌊s⌋ ∨ roundHalfEven s = ⌊s⌋ + 1 := by
  unfold roundHalfEven
  simp only
  split_ifs <;> simp

theorem roundHalfEven_intCast (n : Int) : roundHalfEven (n : ℚ) = n := by
  unfold roundHalfEven
  simp

theorem roundHalfEven_mono {s t : ℚ} (h : s ≤ t) : roundHalfEven s ≤ roundHalfEven t := by
  have hft : ⌊s⌋ ≤ ⌊t⌋ := Int.floor_mono h
  rcases lt_or_eq_of_le hft with hlt | heq
  · rcases roundHalfEven_cases s with h1 | h1 <;> rcases roundHalfEven_cases t with h2 | h2 <;>
      omega
  · unfold roundHalfEven
    simp only
    rw [heq]
    have hst : s - (⌊t⌋ : ℚ) ≤ t - (⌊t⌋ : ℚ) := by linarith
    by_cases a1 : s - (⌊t⌋ : ℚ) < 1 / 2
    · rw [if_pos a1]
      split_ifs <;> omega
    · rw [if_neg a1]
      have b1 : ¬ (t - (⌊t⌋ : ℚ) < 1 / 2) := by linarith
      rw [if_neg b1]
      by_cases a2 : 1 / 2 < s - (⌊t⌋ : ℚ)
      · have b2 : 1 / 2 < t - (⌊t⌋ : ℚ) := by linarith
        rw [if_pos a2, if_pos b2]
      · rw [if_neg a2]
        split_ifs <;> omega

theorem rndPos_bounds (q : ℚ) (hq : 0 < q) :
    pow2 (ilog2 q) ≤ rndPos q ∧ rndPos q ≤ pow2 (ilog2 q + 1) := by
  obtain ⟨h1, h2⟩ := ilog2_spec q hq
  have hu : 0 < pow2 (ilog2 q - 52) := pow2_pos _
  have e1 : pow2 (ilog2 q) = pow2 (ilog2 q - 52) * ((2 ^ 52 : Int) : ℚ) := by
    rw [pow2_eq, pow2_eq, zpow_sub₀ (by norm_num)]
    norm_num
  have e2 : pow2 (ilog2 q + 1) = pow2 (ilog2 q - 52) * ((2 ^ 53 : Int) : ℚ) := by
    rw [pow2_succ, e1]
    norm_num
    ring
  have l1 : ((2 ^ 52 : Int) : ℚ) ≤ q / pow2 (ilog2 q - 52) := by
    rw [le_div_iff₀ hu]; rw [e1] at h1; linarith
  have l2 : q / pow2 (ilog2 q - 52) ≤ ((2 ^ 53 : Int) : ℚ) := by
    rw [div_le_iff₀ hu]; rw [e2] at h2; linarith
  have m1 := roundHalfEven_mono l1
  have m2 := roundHalfEven_mono l2
  rw [roundHalfEven_intCast] at m1 m2
  unfold rndPos
  rw [e1, e2]
  constructor
  · apply mul_le_mul_of_nonneg_left _ hu.le
    exact_mod_cast m1
  · apply mul_le_mul_of_nonneg_left _ hu.le
    exact_mod_cast m2

theorem rndPos_pos (q : ℚ) (hq : 0 < q) : 0 < rndPos q :=
  lt_of_lt_of_le (pow2_pos _) (rndPos_bounds q hq).1

theorem rndPos_mono {a b : ℚ} (ha : 0 < a) (hab : a ≤ b) : rndPos a ≤ rndPos b := by
  have hb : 0 < b := lt_of_lt_of_le ha hab
  obtain ⟨a1, a2⟩ := ilog2_spec a ha
  obtain ⟨b1, b2⟩ := ilog2_spec b hb
  have hle : ilog2 a ≤ ilog2 b := by
    by_contra hc
    have : pow2 (ilog2 b + 1) ≤ pow2 (ilog2 a) := pow2_le_pow2 (by omega)
    linarith
  rcases lt_or_eq_of_le hle with hlt | heq
  · have h1 := (rndPos_bounds a ha).2
    have h2 := (rndPos_bounds b hb).1
    have : pow2 (ilog2 a + 1) ≤ pow2 (ilog2 b) := pow2_le_pow2 (by omega)
    linarith
  · unfold rndPos
    rw [heq]
    have hu : 0 < pow2 (ilog2 b - 52) := pow2_pos _
    apply mul_le_mul_of_nonneg_left _ hu.le
    have : a / pow2 (ilog2 b - 52) ≤ b / pow2 (ilog2 b - 52) :=
      div_le_div_of_nonneg_right hab hu.le
    exact_mod_cast roundHalfEven_mono this

theorem roundDouble_nonneg {q : ℚ} (hq : 0 ≤ q) : 0 ≤ roundDouble q := by
  unfold roundDouble
  by_cases h0 : q = 0
  · rw [if_pos h0]
  · rw [if_neg h0, if_neg (not_lt.mpr hq)]
    exact (rndPos_pos q (lt_of_le_of_ne hq (Ne.symm h0))).le

theorem roundDouble_neg (q : ℚ) : roundDouble (-q) = -roundDouble q := by
  unfold roundDouble
  by_cases h0 : q = 0
  · subst h0; simp
  · rcases lt_or_gt_of_ne h0 with h | h
    · have h1 : ¬ (-q = 0) := by simpa using h0
      have h2 : ¬ (-q < 0) := by linarith
      rw [if_neg h1, if_neg h2, if_neg h0, if_pos h]
      simp
    · have h1 : ¬ (-q = 0) := by simpa using h0
      have h2 : -q < 0 := by linarith
      have h3 : ¬ (q < 0) := by linarith
      rw [if_neg h1, if_pos h2, if_neg h0, if_neg h3]
      simp

theorem roundDouble_of_pos {q : ℚ} (hq : 0 < q) : roundDouble q = rndPos q := by
  unfold roundDouble
  rw [if_neg (ne_of_gt hq), if_neg (not_lt.mpr hq.le)]

theorem roundDouble_mono {a b : ℚ} (hab : a ≤ b) : roundDouble a ≤ roundDouble b := by
  rcases lt_trichotomy a 0 with ha | ha | ha
  · rcases lt_or_le b 0 with hb | hb
    · have h1 : roundDouble (-b) ≤ roundDouble (-a) := by
        rw [roundDouble_of_pos (by linarith : 0 < -b), roundDouble_of_pos (by linarith : 0 < -a)]
        exact rndPos_mono (by linarith) (by linarith)
      rw [roundDouble_neg, roundDouble_neg] at h1
      linarith
    · have h1 : 0 ≤ roundDouble (-a) := roundDouble_nonneg (by linarith)
      rw [roundDouble_neg] at h1
      have h2 := roundDouble_nonneg hb
      linarith
  · subst ha
    have : roundDouble 0 = 0 := by unfold roundDouble; simp
    rw [this]
    exact roundDouble_nonneg hab
  · rw [roundDouble_of_pos ha, roundDouble_of_pos (lt_of_lt_of_le ha hab)]
    exact rndPos_mono ha hab

theorem rndPos_def (x : ℚ) :
    rndPos x = pow2 (ilog2 x - 52) * roundHalfEven (x / pow2 (ilog2 x - 52)) := rfl

theorem rndPos_idem (q : ℚ) (hq : 0 < q) : rndPos (rndPos q) = rndPos q := by
  obtain ⟨h1, h2⟩ := rndPos_bounds q hq
  have hu : 0 < pow2 (ilog2 q - 52) := pow2_pos _
  rcases lt_or_eq_of_le h2 with hlt | heq
  · have he : ilog2 (rndPos q) = ilog2 q := ilog2_unique _ _ h1 hlt
    have : rndPos (rndPos q) = pow2 (ilog2 q - 52) *
        roundHalfEven (rndPos q / pow2 (ilog2 q - 52)) := by
      rw [rndPos_def (rndPos q), he]
    rw [this]
    have e : rndPos q / pow2 (ilog2 q - 52) =
        ((roundHalfEven (q / pow2 (ilog2 q - 52)) : Int) : ℚ) := by
      unfold rndPos
      field_simp
    rw [e, roundHalfEven_intCast]
    rfl
  · have he : ilog2 (rndPos q) = ilog2 q + 1 := by
      apply ilog2_unique
      · rw [heq]
      · rw [heq, pow2_succ (ilog2 q + 1)]
        have := pow2_pos (ilog2 q + 1)
        linarith
    have e1 : pow2 (ilog2 q + 1) = pow2 (ilog2 q + 1 - 52) * ((2 ^ 52 : Int) : ℚ) := by
      rw [pow2_eq, pow2_eq, zpow_sub₀ (by norm_num)]
      norm_num
    have hu2 : 0 < pow2 (ilog2 q + 1 - 52) := pow2_pos _
    have : rndPos (rndPos q) = pow2 (ilog2 q + 1 - 52) *
        roundHalfEven (rndPos q / pow2 (ilog2 q + 1 - 52)) := by
      rw [rndPos_def (rndPos q), he]
    rw [this, heq]
    have e : pow2 (ilog2 q + 1) / pow2 (ilog2 q + 1 - 52) = ((2 ^ 52 : Int) : ℚ) := by
      rw [div_eq_iff (ne_of_gt hu2), mul_comm]
      exact e1
    rw [e, roundHalfEven_intCast]
    exact e1.symm

theorem roundDouble_idem (q : ℚ) : roundDouble (roundDouble q) = roundDouble q := by
  rcases lt_trichotomy q 0 with hq | hq | hq
  · have h1 : roundDouble (-q) = rndPos (-q) := roundDouble_of_pos (by linarith)
    have h2 : roundDouble q = -rndPos (-q) := by
      rw [← h1, roundDouble_neg]; simp
    rw [h2, roundDouble_neg, roundDouble_of_pos (rndPos_pos _ (by linarith)),
      rndPos_idem _ (by linarith)]
  · subst hq
    have : roundDouble 0 = 0 := by unfold roundDouble; simp
    rw [this, this]
  · rw [roundDouble_of_pos hq, roundDouble_of_pos (rndPos_pos q hq), rndPos_idem q hq]

theorem toInt_mono {a b : ℚ} (hab : a ≤ b) : toInt a ≤ toInt b := by
  unfold toInt
  by_cases ha : 0 ≤ a
  · have hb : 0 ≤ b := le_trans ha hab
    rw [if_pos ha, if_pos hb]
    exact Int.floor_mono hab
  · rw [if_neg ha]
    have h1 : 0 ≤ ⌊-a⌋ := Int.floor_nonneg.mpr (by linarith)
    by_cases hb : 0 ≤ b
    · rw [if_pos hb]
      have h2 : 0 ≤ ⌊b⌋ := Int.floor_nonneg.mpr hb
      omega
    · rw [if_neg hb]
      have : ⌊-b⌋ ≤ ⌊-a⌋ := Int.floor_mono (by linarith)
      omega

theorem roundDouble_zero : roundDouble 0 = 0 := by
  unfold roundDouble; simp

theorem volumeCurve_identity_table :
    ∀ i : Nat, i < 128 → toInt (roundDouble (roundDouble ((i : ℚ) / 127) * 127)) = (i : Int) := by
  decide!

theorem demoPow_one (x : ℚ) (hx : IsDouble x) : demoPow x 1 = x := by
  unfold demoPow
  simpa using hx

theorem demoPow_mono (n : ℚ) (x y : ℚ) (hx : 0 ≤ x) (hxy : x ≤ y) :
    demoPow x n ≤ demoPow y n := by
  unfold demoPow
  exact roundDouble_mono (pow_le_pow_left₀ hx hxy _)

/-- C15, counterexample: at exponent 2.0 and raw value 8 the product
`pow(8/127.0, 2.0)*127.0` lies strictly between 1/2 and 1, so the cast stores
0 in `curve[8]`, while the formula `round((8/127)^2 * 127)` gives 1. -/
theorem volumeCurve_not_rounded :
    volumeCurve demoPow 2 8 = 0 ∧ specVolumeCurve 2 8 = 1 ∧
      1 / 2 < roundDouble (demoPow (roundDouble (((8 : Nat) : ℚ) / 127)) 2 * 127) ∧
      roundDouble (demoPow (roundDouble (((8 : Nat) : ℚ) / 127)) 2 * 127) < 1 := by
  decide!

/-- C15, amended: for every raw value `i`, every exponent and every `pow`,
`curve[i]` is the computed `double` product `pow(i/127.0, volExp)*127.0` cut
toward zero, not rounded to nearest: when `pow` returns a value that is not
negative, `0 ≤ curve[i] ≤ product < curve[i] + 1`, and when that value is at
most 1 the entry is at most 127. -/
theorem volumeCurve_truncates (pow : ℚ → ℚ → ℚ) (volExp : ℚ) (i : Nat)
    (h : 0 ≤ pow (roundDouble ((i : ℚ) / 127)) volExp) :
    0 ≤ volumeCurve pow volExp i ∧
      ((volumeCurve pow volExp i : Int) : ℚ) ≤
        roundDouble (pow (roundDouble ((i : ℚ) / 127)) volExp * 127) ∧
      roundDouble (pow (roundDouble ((i : ℚ) / 127)) volExp * 127) <
        ((volumeCurve pow volExp i : Int) : ℚ) + 1 ∧
      (pow (roundDouble ((i : ℚ) / 127)) volExp ≤ 1 → volumeCurve pow volExp i ≤ 127) := by
  have hv : 0 ≤ roundDouble (pow (roundDouble ((i : ℚ) / 127)) volExp * 127) :=
    roundDouble_nonneg (by linarith)
  have hc : volumeCurve pow volExp i =
      ⌊roundDouble (pow (roundDouble ((i : ℚ) / 127)) volExp * 127)⌋ := by
    unfold volumeCurve toInt
    rw [if_pos hv]
  refine ⟨?_, ?_, ?_, ?_⟩
  · rw [hc]; exact Int.floor_nonneg.mpr hv
  · rw [hc]; exact Int.floor_le _
  · rw [hc]; exact Int.lt_floor_add_one _
  · intro h1
    have h2 : roundDouble (pow (roundDouble ((i : ℚ) / 127)) volExp * 127) ≤ roundDouble 127 :=
      roundDouble_mono (by linarith)
    have h3 := toInt_mono h2
    have h4 : toInt (roundDouble 127) = 127 := by decide!
    rw [h4] at h3
    exact h3

theorem volumeCurve_truncates_witness :
    0 ≤ demoPow (roundDouble (((8 : Nat) : ℚ) / 127)) 2 ∧
      (0 ≤ volumeCurve demoPow 2 8 ∧
        ((volumeCurve demoPow 2 8 : Int) : ℚ) ≤
          roundDouble (demoPow (roundDouble (((8 : Nat) : ℚ) / 127)) 2 * 127) ∧
        roundDouble (demoPow (roundDouble (((8 : Nat) : ℚ) / 127)) 2 * 127) <
          ((volumeCurve demoPow 2 8 : Int) : ℚ) + 1 ∧
        (demoPow (roundDouble (((8 : Nat) : ℚ) / 127)) 2 ≤ 1 → volumeCurve demoPow 2 8 ≤ 127)) :=
  ⟨by decide!, volumeCurve_truncates demoPow 2 8 (by decide!)⟩

/-- C16: let `pow` return its first argument at exponent 1.0, return 0 at
(0, 8.0) and 1 at (1, 8.0), and be non-decreasing in its first argument at
exponent 8.0 on the doubles that are not negative. Then with exponent 1.0
`curve[i] = i` for every `i` in [0,127], and with exponent 8.0 `curve[0] = 0`,
`curve[127] = 127` and the curve is non-decreasing in `i`. -/
theorem volumeCurve_reference_exponents (pow : ℚ → ℚ → ℚ)
    (h1 : ∀ x : ℚ, IsDouble x → pow x 1 = x)
    (h0 : pow 0 8 = 0) (h127 : pow 1 8 = 1)
    (hmono : ∀ x y : ℚ, IsDouble x → IsDouble y → 0 ≤ x → x ≤ y → pow x 8 ≤ pow y 8) :
    (∀ i : Nat, i < 128 → volumeCurve pow 1 i = (i : Int)) ∧
      volumeCurve pow 8 0 = 0 ∧ volumeCurve pow 8 127 = 127 ∧
      ∀ i j : Nat, i ≤ j → volumeCurve pow 8 i ≤ volumeCurve pow 8 j := by
  refine ⟨?_, ?_, ?_, ?_⟩
  · intro i hi
    unfold volumeCurve
    rw [h1 _ (roundDouble_idem _)]
    exact volumeCurve_identity_table i hi
  · have e : roundDouble (((0 : Nat) : ℚ) / 127) = 0 := by decide!
    unfold volumeCurve
    rw [e, h0]
    decide!
  · have e : roundDouble (((127 : Nat) : ℚ) / 127) = 1 := by decide!
    unfold volumeCurve
    rw [e, h127]
    decide!
  · intro i j hij
    have hq : ((i : ℚ) / 127) ≤ ((j : ℚ) / 127) := by
      have : (i : ℚ) ≤ (j : ℚ) := by exact_mod_cast hij
      linarith
    have hi0 : (0 : ℚ) ≤ (i : ℚ) / 127 := by positivity
    have hp := hmono _ _ (roundDouble_idem ((i : ℚ) / 127)) (roundDouble_idem ((j : ℚ) / 127))
      (roundDouble_nonneg hi0) (roundDouble_mono hq)
    unfold volumeCurve
    exact toInt_mono (roundDouble_mono (by linarith))

theorem volumeCurve_reference_exponents_witness :
    (∀ x : ℚ, IsDouble x → demoPow x 1 = x) ∧ demoPow 0 8 = 0 ∧ demoPow 1 8 = 1 ∧
      ((∀ i : Nat, i < 128 → volumeCurve demoPow 1 i = (i : Int)) ∧
        volumeCurve demoPow 8 0 = 0 ∧ volumeCurve demoPow 8 127 = 127 ∧
        ∀ i j : Nat, i ≤ j → volumeCurve demoPow 8 i ≤ volumeCurve demoPow 8 j) :=
  ⟨demoPow_one, by decide!, by decide!,
    volumeCurve_reference_exponents demoPow demoPow_one (by decide!) (by decide!)
      (fun x y _ _ hx hxy => demoPow_mono 8 x y hx hxy)⟩

/-! Decimal text of an integer, read back by std::stoi -/

theorem digitChar_digit : ∀ k : Nat, k < 10 →
    (Nat.digitChar k).isDigit = true ∧ (Nat.digitChar k).toNat - 48 = k := by
  decide

theorem toDigitsCore_append (f : Nat) : ∀ (n : Nat) (ds : List Char),
    Nat.toDigitsCore 10 f n ds = Nat.toDigitsCore 10 f n [] ++ ds := by
  induction f with
  | zero => intro n ds; simp [Nat.toDigitsCore]
  | succ f ih =>
    intro n ds
    simp only [Nat.toDigitsCore]
    by_cases h : n / 10 = 0
    · simp [h]
    · simp only [h, if_false]
      rw [ih (n / 10) (Nat.digitChar (n % 10) :: ds), ih (n / 10) [Nat.digitChar (n % 10)]]
      simp

theorem digitsValue_append (xs : List Char) (c : Char) :
    digitsValue (xs ++ [c]) = 10 * digitsValue xs + (c.toNat - 48) := by
  simp [digitsValue, List.foldl_append]

theorem toDigitsCore_spec (f : Nat) : ∀ n : Nat, n < f →
    (∀ c ∈ Nat.toDigitsCore 10 f n [], c.isDigit = true) ∧
      digitsValue (Nat.toDigitsCore 10 f n []) = n ∧ Nat.toDigitsCore 10 f n [] ≠ [] := by
  induction f with
  | zero => intro n h; omega
  | succ f ih =>
    intro n hn
    have hd := digitChar_digit (n % 10) (Nat.mod_lt n (by decide))
    simp only [Nat.toDigitsCore]
    by_cases h : n / 10 = 0
    · simp only [h, if_true]
      refine ⟨?_, ?_, by simp⟩
      · intro c hc
        simp only [List.mem_singleton] at hc
        rw [hc]; exact hd.1
      · have : digitsValue [Nat.digitChar (n % 10)] = (Nat.digitChar (n % 10)).toNat - 48 := by
          simp [digitsValue]
        rw [this, hd.2]
        omega
    · simp only [h, if_false]
      rw [toDigitsCore_append f (n / 10) [Nat.digitChar (n % 10)]]
      obtain ⟨h1, h2, h3⟩ := ih (n / 10) (by omega)
      refine ⟨?_, ?_, by simp⟩
      · intro c hc
        rcases List.mem_append.mp hc with hc | hc
        · exact h1 c hc
        · simp only [List.mem_singleton] at hc
          rw [hc]; exact hd.1
      · rw [digitsValue_append, h2, hd.2]
        omega

theorem toDigits_spec (n : Nat) :
    (∀ c ∈ Nat.toDigits 10 n, c.isDigit = true) ∧ digitsValue (Nat.toDigits 10 n) = n ∧
      Nat.toDigits 10 n ≠ [] :=
  toDigitsCore_spec (n + 1) n (Nat.lt_succ_self n)

theorem isDigit_not_space (c : Char) (h : c.isDigit = true) :
    isspace c = false ∧ c ≠ '-' ∧ c ≠ '+' := by
  refine ⟨?_, ?_, ?_⟩
  · simp only [Char.isDigit, Bool.and_eq_true, decide_eq_true_eq] at h
    have h1 : 48 ≤ c.toNat := by
      have := h.1
      exact this
    unfold isspace
    have hne : c ≠ ' ' := by
      intro hc; rw [hc] at h1; revert h1; decide
    simp [hne]
    omega
  · intro hc; rw [hc] at h; revert h; decide
  · intro hc; rw [hc] at h; revert h; decide

theorem takeWhile_all {α : Type} (p : α → Bool) (l : List α) (h : ∀ x ∈ l, p x = true) :
    l.takeWhile p = l := by
  induction l with
  | nil => rfl
  | cons x xs ih =>
    simp only [List.takeWhile, h x (List.mem_cons_self x xs)]
    rw [ih (fun y hy => h y (List.mem_cons_of_mem x hy))]

theorem stoi_fmtInt (v : Int) (hlo : -2147483648 ≤ v) (hhi : v ≤ 2147483647) :
    stoi (fmtInt v) = some v := by
  obtain ⟨hall, hval, hne⟩ := toDigits_spec v.natAbs
  obtain ⟨d, ds, hds⟩ := List.exists_cons_of_ne_nil hne
  have hd : d.isDigit = true := hall d (by rw [hds]; exact List.mem_cons_self d ds)
  obtain ⟨hsp, hm, hp⟩ := isDigit_not_space d hd
  have htw : (Nat.toDigits 10 v.natAbs).takeWhile Char.isDigit = Nat.toDigits 10 v.natAbs :=
    takeWhile_all _ _ hall
  unfold fmtInt
  by_cases hneg : v < 0
  · rw [if_pos hneg]
    have hs : isspace '-' = false := by decide
    unfold stoi
    rw [List.dropWhile_cons_of_neg (by simp [hs])]
    unfold stoiSigned
    simp only [List.head?_cons, true_or, if_true, List.tail_cons]
    rw [htw]
    unfold stoiDigits
    rw [if_neg hne, hval]
    have : -((v.natAbs : Nat) : Int) = v := by omega
    simp only [decide_True, if_true]
    rw [this, if_pos ⟨hlo, hhi⟩]
  · rw [if_neg hneg]
    unfold stoi
    rw [hds, List.dropWhile_cons_of_neg (by simp [hsp])]
    unfold stoiSigned
    have h1 : ¬ ((d :: ds).head? = some '-' ∨ (d :: ds).head? = some '+') := by
      simp [hm, hp]
    have h2 : decide ((d :: ds).head? = some '-') = false := by simp [hm]
    simp only [h1, h2, if_false]
    rw [← hds, htw]
    unfold stoiDigits
    rw [if_neg hne, hval]
    simp only [Bool.false_eq_true, if_false]
    have : ((v.natAbs : Nat) : Int) = v := by omega
    rw [this, if_pos ⟨hlo, hhi⟩]

theorem toInt32_range (c : Nat) : -2147483648 ≤ toInt32 c ∧ toInt32 c ≤ 2147483647 := by
  unfold toInt32
  split_ifs with h <;> omega

theorem toU32_toInt32 (c : Nat) (hc : c < 4294967296) : toU32 (toInt32 c) = c := by
  unfold toU32 toInt32
  rw [Nat.mod_eq_of_lt hc]
  split_ifs with h <;> omega

theorem takeWhile_append_cons {α : Type} (p : α → Bool) (l : List α) (x : α) (r : List α)
    (hl : ∀ y ∈ l, p y = true) (hx : p x = false) : (l ++ x :: r).takeWhile p = l := by
  induction l with
  | nil => simp [List.takeWhile, hx]
  | cons y ys ih =>
    rw [List.cons_append, List.takeWhile_cons_of_pos (hl y (List.mem_cons_self y ys)),
      ih (fun z hz => hl z (List.mem_cons_of_mem y hz))]

theorem dropWhile_append_cons {α : Type} (p : α → Bool) (l : List α) (x : α) (r : List α)
    (hl : ∀ y ∈ l, p y = true) (hx : p x = false) : (l ++ x :: r).dropWhile p = x :: r := by
  induction l with
  | nil => simp [List.dropWhile, hx]
  | cons y ys ih =>
    rw [List.cons_append, List.dropWhile_cons_of_pos (hl y (List.mem_cons_self y ys))]
    exact ih (fun z hz => hl z (List.mem_cons_of_mem y hz))

theorem fmtInt_chars (v : Int) : ∀ c ∈ fmtInt v, c = '-' ∨ c.isDigit = true := by
  intro c hc
  unfold fmtInt at hc
  split_ifs at hc
  · rcases List.mem_cons.mp hc with h | h
    · exact Or.inl h
    · exact Or.inr ((toDigits_spec v.natAbs).1 c h)
  · exact Or.inr ((toDigits_spec v.natAbs).1 c hc)

theorem fmtInt_plain (v : Int) :
    '\n' ∉ fmtInt v ∧ '=' ∉ fmtInt v ∧ Char.ofNat 0 ∉ fmtInt v ∧ ':' ∉ fmtInt v ∧
      ';' ∉ fmtInt v := by
  refine ⟨?_, ?_, ?_, ?_, ?_⟩ <;>
  · intro h
    rcases fmtInt_chars v _ h with h1 | h1
    · revert h1; decide
    · revert h1; decide

theorem fmtInt_length (v : Int) (hlo : -2147483648 ≤ v) (hhi : v ≤ 2147483647) :
    (fmtInt v).length ≤ 11 := by
  have h : (Nat.toDigits 10 v.natAbs).length ≤ 10 :=
    Nat.toDigitsCore_length 10 (by decide) (v.natAbs + 1) v.natAbs 10 (by omega) (by decide)
  unfold fmtInt
  split_ifs
  · simp only [List.length_cons]; omega
  · omega

theorem exportLine_lineText (name : List Char) (v : Int) (h0 : Char.ofNat 0 ∉ name)
    (hnl : '\n' ∉ name) : lineText (exportLine name v) = name ++ '=' :: fmtInt v := by
  obtain ⟨f1, _, f3, _, _⟩ := fmtInt_plain v
  have e : exportLine name v = (name ++ '=' :: fmtInt v) ++ ['\n'] := by
    simp [exportLine]
  have hb : '\n' ∉ name ++ '=' :: fmtInt v := by
    simp only [List.mem_append, List.mem_cons, not_or]
    exact ⟨hnl, by decide, f1⟩
  rw [e, lineText_line _ hb]
  apply takeWhile_all
  intro c hc
  simp only [List.mem_append, List.mem_cons] at hc
  simp only [decide_eq_true_eq]
  rcases hc with hc | hc | hc
  · intro hz; exact h0 (hz ▸ hc)
  · rw [hc]; decide
  · intro hz; exact f3 (hz ▸ hc)

theorem exportLine_lineKey (name : List Char) (v : Int) (heq : '=' ∉ name)
    (hnl : '\n' ∉ name) : lineKey (exportLine name v) = name := by
  have e : exportLine name v = name ++ '=' :: (fmtInt v ++ ['\n']) := by
    simp [exportLine]
  unfold lineKey
  rw [e, takeWhile_append_cons _ name '=' _ (fun y hy => by
    simp only [decide_eq_true_eq]; intro hz; exact heq (hz ▸ hy)) (by decide)]
  apply List.filter_eq_self.mpr
  intro c hc
  simp only [decide_eq_true_eq]
  intro hz; exact hnl (hz ▸ hc)

theorem exportLine_lineValue (name : List Char) (v : Int) (heq : '=' ∉ name) :
    lineValue (exportLine name v) = fmtInt v := by
  obtain ⟨f1, _, _, _, _⟩ := fmtInt_plain v
  have e : exportLine name v = name ++ '=' :: (fmtInt v ++ ['\n']) := by
    simp [exportLine]
  unfold lineValue
  rw [e, dropWhile_append_cons _ name '=' _ (fun y hy => by
    simp only [decide_eq_true_eq]; intro hz; exact heq (hz ▸ hy)) (by decide)]
  simp only [List.tail_cons, List.filter_append]
  have h1 : (fmtInt v).filter (fun c => decide (c ≠ '\n')) = fmtInt v := by
    apply List.filter_eq_self.mpr
    intro c hc
    simp only [decide_eq_true_eq]
    intro hz; exact f1 (hz ▸ hc)
  rw [h1]
  simp

theorem exportLine_has_eq (name : List Char) (v : Int) (h0 : Char.ofNat 0 ∉ name)
    (hnl : '\n' ∉ name) : '=' ∈ lineText (exportLine name v) := by
  rw [exportLine_lineText name v h0 hnl]
  simp

/-! C28: colours through the signed text encoding -/

theorem importColorsScan_first (K : GuiConst V) (key value : List Char) (v : Int)
    (s n : Nat) (cols : Nat → V) (i : Nat) (hs : s ≤ i) (hi : i < s + n)
    (hname : (K.guiColors i).name = key)
    (hfirst : ∀ j, j < i → (K.guiColors j).name ≠ key) (hv : stoi value = some v) :
    importColorsScan K key value (List.range' s n) cols i =
      K.ColorConvertU32ToFloat4 (toU32 v) := by
  induction n generalizing s with
  | zero => omega
  | succ n ih =>
    rw [List.range'_succ]
    unfold importColorsScan
    by_cases hsi : s = i
    · subst hsi
      rw [if_pos hname.symm, hv]
      simp
    · have hlt : s < i := by omega
      rw [if_neg (fun e => hfirst s hlt e.symm)]
      exact ih (s + 1) (by omega) (by omega)

theorem importColorsLine_exportLine (K : GuiConst V) (cols : Nat → V) (i : Nat) (v : Int)
    (hi : i < K.GUI_COLOR_MAX) (hlo : -2147483648 ≤ v) (hhi : v ≤ 2147483647)
    (h0 : Char.ofNat 0 ∉ (K.guiColors i).name) (hnl : '\n' ∉ (K.guiColors i).name)
    (heq : '=' ∉ (K.guiColors i).name)
    (hfirst : ∀ j, j < i → (K.guiColors j).name ≠ (K.guiColors i).name) :
    importColorsLine K (fmtLine (K.guiColors i).name v) cols i =
      K.ColorConvertU32ToFloat4 (toU32 v) := by
  have hin := exportLine_has_eq (K.guiColors i).name v h0 hnl
  unfold importColorsLine
  rw [fmtLine_eq_exportLine, scanLine_init, if_pos hin]
  simp only [if_true]
  rw [List.range_eq_range', lineText_key _ hin, lineText_value _ hin,
    exportLine_lineKey _ v heq hnl, exportLine_lineValue _ v heq]
  exact importColorsScan_first K _ _ v 0 _ cols i (Nat.zero_le _) (by omega) rfl hfirst
    (by rw [stoi_takeWhile_nul]; exact stoi_fmtInt v hlo hhi)

/-- C28. Colour values survive the signed text encoding. For every packed colour
`c < 2^32`: the text `exportColors` writes for it with `%d` is read by `std::stoi`
without an exception, as the signed value `toInt32 c`; converting that value back to
`ImU32`, as `importColors` does, gives `c`; and for every catalog entry whose name is a C
string without `=` and newline and is the name of no earlier entry, the body of
`importColors` applied to the line `exportColors` writes for `c` stores the colour
converted from `c`. -/
theorem color_survives_text (c : Nat) (hc : c < 4294967296) :
    stoi (fmtInt (toInt32 c)) = some (toInt32 c) ∧
    toU32 (toInt32 c) = c ∧
    ∀ (K : GuiConst V) (cols : Nat → V) (i : Nat), i < K.GUI_COLOR_MAX →
      Char.ofNat 0 ∉ (K.guiColors i).name → '\n' ∉ (K.guiColors i).name →
      '=' ∉ (K.guiColors i).name →
      (∀ j, j < i → (K.guiColors j).name ≠ (K.guiColors i).name) →
      importColorsLine K (fmtLine (K.guiColors i).name (toInt32 c)) cols i =
        K.ColorConvertU32ToFloat4 c := by
  obtain ⟨hlo, hhi⟩ := toInt32_range c
  refine ⟨stoi_fmtInt _ hlo hhi, toU32_toInt32 c hc, ?_⟩
  intro K cols i hi h0 hnl heq hfirst
  rw [importColorsLine_exportLine K cols i _ hi hlo hhi h0 hnl heq hfirst,
    toU32_toInt32 c hc]

theorem color_survives_text_witness :
    (4294967295 : Nat) < 4294967296 ∧
    fmtInt (toInt32 4294967295) = "-1".toList ∧
    stoi (fmtInt (toInt32 4294967295)) = some (-1) ∧
    toU32 (toInt32 4294967295) = 4294967295 ∧
    importColorsLine demoConst (fmtLine (demoConst.guiColors 1).name (toInt32 4294967295))
      demoGui.uiColors 1 = 4294967295 :=
  ⟨by decide, by decide,
    (color_survives_text (V := Nat) 4294967295 (by decide)).1,
    (color_survives_text (V := Nat) 4294967295 (by decide)).2.1,
    (color_survives_text 4294967295 (by decide)).2.2 demoConst demoGui.uiColors 1
      (by decide) (by decide) (by decide) (by decide) (by decide)⟩

/-! C27: export, then import -/

theorem exportLine_body (name : List Char) (v : Int) :
    exportLine name v = (name ++ '=' :: fmtInt v) ++ ['\n'] := by
  simp [exportLine]

theorem fileLines_cons_line (fuel : Nat) (body post : List Char) (hnl : '\n' ∉ body)
    (hlen : body.length < 4094) :
    fileLines (fuel + 1) (body ++ '\n' :: post) = (body ++ ['\n']) :: fileLines fuel post := by
  have hne : body ++ '\n' :: post ≠ [] := by simp
  have hg : fgets 4095 (body ++ '\n' :: post) = (body ++ ['\n'], post) := by
    unfold fgets
    exact fgetsAux_line 4094 body post hnl hlen
  rw [fileLines, if_neg hne, hg]

theorem fileLines_nil (fuel : Nat) : fileLines fuel [] = [] := by
  cases fuel with
  | zero => rfl
  | succ f => rw [fileLines, if_pos rfl]

theorem fileLines_exportLines (K : GuiConst V) (t : Nat → Int) (B : List Nat)
    (hB : ∀ j ∈ B, '\n' ∉ (K.guiActions j).name ∧ (K.guiActions j).name.length ≤ 4081 ∧
      -2147483648 ≤ t j ∧ t j ≤ 2147483647) :
    ∀ fuel, (B.flatMap (fun j => exportLine (K.guiActions j).name (t j))).length ≤ fuel →
      fileLines fuel (B.flatMap (fun j => exportLine (K.guiActions j).name (t j))) =
        B.map (fun j => exportLine (K.guiActions j).name (t j)) := by
  induction B with
  | nil => intro fuel _; simpa using fileLines_nil fuel
  | cons j js ih =>
    intro fuel hf
    obtain ⟨hnl, hlen, hlo, hhi⟩ := hB j (List.mem_cons_self j js)
    obtain ⟨f1, _, _, _, _⟩ := fmtInt_plain (t j)
    have hfl := fmtInt_length (t j) hlo hhi
    rw [List.flatMap_cons, exportLine_body] at hf ⊢
    rw [List.append_assoc, List.singleton_append] at hf ⊢
    have hb : '\n' ∉ (K.guiActions j).name ++ '=' :: fmtInt (t j) := by
      simp only [List.mem_append, List.mem_cons, not_or]
      exact ⟨hnl, by decide, f1⟩
    have hbl : ((K.guiActions j).name ++ '=' :: fmtInt (t j)).length < 4094 := by
      simp only [List.length_append, List.length_cons]; omega
    cases fuel with
    | zero => simp at hf
    | succ f =>
      rw [fileLines_cons_line f _ _ hb hbl, List.map_cons, exportLine_body,
        ih (fun k hk => hB k (List.mem_cons_of_mem j hk)) f (by
          simp only [List.length_append, List.length_cons] at hf; omega)]

/-- C27. Keybind export/import round trip. Let the machine names of the registry be
pairwise distinct C strings (no NUL) that contain neither `=` nor a newline and fit a
line of the reader (at most 4081 characters), and let the table of `g` hold C `int`
values. If `exportKeybinds` runs on `g` with no failing write and produces the text
`txt`, then `importKeybinds` on `txt`, from any state `g'`, succeeds and gives every
bindable action the binding it has in `g`. -/
theorem export_import_round_trip (K : GuiConst V) (g g' : FurnaceGUI V) (wr : Nat → Bool)
    (txt : List Char) (hwr : ∀ i, wr i = true)
    (htxt : (exportKeybinds K (some wr) g).2.2 = some txt)
    (hdistinct : ∀ a, a < K.GUI_ACTION_MAX → ∀ b, b < K.GUI_ACTION_MAX →
      (K.guiActions a).name = (K.guiActions b).name → a = b)
    (hplain : ∀ a, a < K.GUI_ACTION_MAX →
      '=' ∉ (K.guiActions a).name ∧ '\n' ∉ (K.guiActions a).name)
    (hcstr : ∀ a, a < K.GUI_ACTION_MAX →
      Char.ofNat 0 ∉ (K.guiActions a).name ∧ (K.guiActions a).name.length ≤ 4081)
    (hint : ∀ a, a < K.GUI_ACTION_MAX →
      -2147483648 ≤ g.actionKeys a ∧ g.actionKeys a ≤ 2147483647) :
    (importKeybinds K (some txt) g').1 = true ∧
    ∀ i, i < K.GUI_ACTION_MAX → (K.guiActions i).defaultBind ≠ -1 →
      (importKeybinds K (some txt) g').2.actionKeys i = g.actionKeys i := by
  have hfmt : exportKeybinds K (some wr) g = (true, g, some (keybindsText K g.actionKeys)) := by
    simp [exportKeybinds, keybindsText, exportKeybindsLoop_all_ok K g.actionKeys wr hwr]
  rw [hfmt] at htxt
  have ht : txt = keybindsText K g.actionKeys := (Option.some.inj htxt).symm
  subst ht
  refine ⟨rfl, ?_⟩
  intro i hi hbind
  have hmemB : ∀ j, j ∈ (List.range K.GUI_ACTION_MAX).filter
      (fun i => decide ((K.guiActions i).defaultBind ≠ -1)) → j < K.GUI_ACTION_MAX :=
    fun j hj => List.mem_range.mp (List.mem_filter.mp hj).1
  have hiB : i ∈ (List.range K.GUI_ACTION_MAX).filter
      (fun i => decide ((K.guiActions i).defaultBind ≠ -1)) :=
    List.mem_filter.mpr ⟨List.mem_range.mpr hi, by simpa using hbind⟩
  have hnd : ((List.range K.GUI_ACTION_MAX).filter
      (fun i => decide ((K.guiActions i).defaultBind ≠ -1))).Nodup :=
    (List.nodup_range K.GUI_ACTION_MAX).filter _
  have hlines := fileLines_exportLines K g.actionKeys _
    (fun j hj => ⟨(hplain j (hmemB j hj)).2, (hcstr j (hmemB j hj)).2, hint j (hmemB j hj)⟩)
    (keybindsText K g.actionKeys).length (le_refl _)
  obtain ⟨B1, B2, hB⟩ := List.append_of_mem hiB
  rw [hB] at hnd hmemB
  have hi2 : i ∉ B2 := by
    have := (List.nodup_append.mp hnd).2.1
    exact (List.nodup_cons.mp this).1
  have hsplit : fileLines (keybindsText K g.actionKeys).length (keybindsText K g.actionKeys) =
      B1.map (fun j => exportLine (K.guiActions j).name (g.actionKeys j)) ++
        exportLine (K.guiActions i).name (g.actionKeys i) ::
          B2.map (fun j => exportLine (K.guiActions j).name (g.actionKeys j)) := by
    unfold keybindsText at hlines ⊢
    rw [hlines, hB]
    simp
  obtain ⟨heq, hnl⟩ := hplain i hi
  obtain ⟨h0, _⟩ := hcstr i hi
  obtain ⟨hlo, hhi⟩ := hint i hi
  refine (importKeybinds_actionKeys K g' (keybindsText K g.actionKeys) i).2 _ _ _
    (g.actionKeys i) hsplit hi (exportLine_has_eq _ _ h0 hnl) ?_ ?_ ?_ ?_
  · rw [exportLine_lineKey _ _ heq hnl]
  · intro j hj
    rw [exportLine_lineKey _ _ heq hnl]
    intro e
    have := hdistinct j (by omega) i hi e
    omega
  · rw [exportLine_lineValue _ _ heq]
    exact stoi_fmtInt _ hlo hhi
  · intro l hl
    obtain ⟨j, hj, rfl⟩ := List.mem_map.mp hl
    have hjm : j < K.GUI_ACTION_MAX := hmemB j (by simp [hj])
    rw [exportLine_lineKey _ _ (hplain j hjm).1 (hplain j hjm).2]
    intro e
    have := hdistinct i hi j hjm e
    exact hi2 (this ▸ hj)

theorem export_import_round_trip_witness :
    (exportKeybinds demoConst (some (fun _ => true)) demoGuiEdited).2.2 =
        some "OPEN=0\nSAVE=0\nPAT_NOTE_UP=99\nORDERS_UP=98\n".toList ∧
    (importKeybinds demoConst (some "OPEN=0\nSAVE=0\nPAT_NOTE_UP=99\nORDERS_UP=98\n".toList)
        demoGui).1 = true ∧
    ∀ i, i < demoConst.GUI_ACTION_MAX → (demoConst.guiActions i).defaultBind ≠ -1 →
      (importKeybinds demoConst (some "OPEN=0\nSAVE=0\nPAT_NOTE_UP=99\nORDERS_UP=98\n".toList)
        demoGui).2.actionKeys i = demoGuiEdited.actionKeys i :=
  ⟨by decide,
    export_import_round_trip demoConst demoGuiEdited demoGui (fun _ => true)
      "OPEN=0\nSAVE=0\nPAT_NOTE_UP=99\nORDERS_UP=98\n".toList (fun _ => rfl) (by decide)
      (by decide) (by decide) (by decide) (by decide)⟩

/-! C30: what an import may assign -/

/-- C30. `importKeybinds` of the one-line file `GLOBAL_MIN=83`: entry 0 of the registry
is the range sentinel `GLOBAL_MIN`, whose default is the unbindable sentinel `-1`; its
binding is 0 before the import and 83 after it. `exportKeybinds` writes no line for the
entry, before or after. -/
theorem importKeybinds_assigns_unbindable :
    (demoConst.guiActions 0).name = "GLOBAL_MIN".toList ∧
    (demoConst.guiActions 0).defaultBind = -1 ∧
    demoGui.actionKeys 0 = 0 ∧
    (importKeybinds demoConst (some "GLOBAL_MIN=83\n".toList) demoGui).1 = true ∧
    (importKeybinds demoConst (some "GLOBAL_MIN=83\n".toList) demoGui).2.actionKeys 0 = 83 ∧
    (exportKeybinds demoConst (some (fun _ => true))
      (importKeybinds demoConst (some "GLOBAL_MIN=83\n".toList) demoGui).2).2.2 =
        some "OPEN=536871023\nSAVE=536871023\nPAT_NOTE_UP=0\nORDERS_UP=0\n".toList := by
  decide

/-! C21, C22, C26: the rows of the MIDI bind table -/

/-- C21. Removing the MIDI binding at index `i` deletes exactly that rule: the list
shrinks by one, the rules at indices below `i` are unchanged, each rule formerly at an
index `j > i` is at index `j-1` with unchanged content, and learn mode is disarmed when
it was armed for index `i` (and the learn target is left as it was otherwise). -/
theorem removeAction_deletes (g : FurnaceGUI V) (i : Nat) (hi : i < g.midiMap.binds.length) :
    (removeAction i g).midiMap.binds.length + 1 = g.midiMap.binds.length ∧
    (∀ j, j < i → (removeAction i g).midiMap.binds[j]? = g.midiMap.binds[j]?) ∧
    (∀ j, i < j → (removeAction i g).midiMap.binds[j - 1]? = g.midiMap.binds[j]?) ∧
    (g.learning = (i : Int) → (removeAction i g).learning = -1) ∧
    (g.learning ≠ (i : Int) → (removeAction i g).learning = g.learning) := by
  have hb : (removeAction i g).midiMap.binds = g.midiMap.binds.eraseIdx i := by
    unfold removeAction
    simp only
    split_ifs <;> rfl
  refine ⟨?_, ?_, ?_, ?_, ?_⟩
  · rw [hb, List.length_eraseIdx, if_pos hi]
    omega
  · intro j hj
    rw [hb, List.getElem?_eraseIdx, if_pos hj]
  · intro j hj
    rw [hb, List.getElem?_eraseIdx, if_neg (by omega)]
    congr 1
    omega
  · intro hl
    unfold removeAction
    simp only
    rw [if_pos hl]
  · intro hl
    unfold removeAction
    simp only
    rw [if_neg hl]

theorem removeAction_deletes_witness :
    (1 : Nat) < ([⟨9, 0, 60, 128, 1⟩, ⟨11, 3, 64, 128, 5⟩, ⟨14, 16, 128, 128, 2⟩] :
      List MIDIBind).length ∧
    (removeAction 1 { demoGui with
      midiMap := { binds := [⟨9, 0, 60, 128, 1⟩, ⟨11, 3, 64, 128, 5⟩, ⟨14, 16, 128, 128, 2⟩] },
      learning := 1 }).midiMap.binds = [⟨9, 0, 60, 128, 1⟩, ⟨14, 16, 128, 128, 2⟩] ∧
    (removeAction 1 { demoGui with
      midiMap := { binds := [⟨9, 0, 60, 128, 1⟩, ⟨11, 3, 64, 128, 5⟩, ⟨14, 16, 128, 128, 2⟩] },
      learning := 1 }).learning = -1 :=
  ⟨by decide, by decide,
    (removeAction_deletes { demoGui with
      midiMap := { binds := [⟨9, 0, 60, 128, 1⟩, ⟨11, 3, 64, 128, 5⟩, ⟨14, 16, 128, 128, 2⟩] },
      learning := 1 } 1 (by decide)).2.2.2.1 rfl⟩

theorem selectBindTypeStep_type (clicked : Nat → Bool) (b : MIDIBind) (j : Nat) :
    (selectBindTypeStep clicked b j).type = if clicked j then (j : Int) else b.type := by
  unfold selectBindTypeStep
  split_ifs <;> rfl

theorem selectBindType_fold_type (clicked : Nat → Bool) (js : List Nat) (b : MIDIBind) :
    (js.foldl (selectBindTypeStep clicked) b).type = b.type ∨
      ∃ j ∈ js, (js.foldl (selectBindTypeStep clicked) b).type = (j : Int) := by
  induction js generalizing b with
  | nil => exact Or.inl rfl
  | cons j js ih =>
    rw [List.foldl_cons]
    rcases ih (selectBindTypeStep clicked b j) with h | ⟨k, hk, h⟩
    · rw [h, selectBindTypeStep_type]
      by_cases hc : clicked j = true
      · rw [if_pos hc]
        exact Or.inr ⟨j, List.mem_cons_self j js, rfl⟩
      · rw [if_neg hc]
        exact Or.inl rfl
    · exact Or.inr ⟨k, List.mem_cons_of_mem j hk, h⟩

theorem selectBindType_fold_others (clicked : Nat → Bool) (js : List Nat) (b : MIDIBind) :
    (js.foldl (selectBindTypeStep clicked) b).channel = b.channel ∧
    (js.foldl (selectBindTypeStep clicked) b).data1 = b.data1 ∧
    (js.foldl (selectBindTypeStep clicked) b).data2 = b.data2 ∧
    (js.foldl (selectBindTypeStep clicked) b).action = b.action := by
  induction js generalizing b with
  | nil => exact ⟨rfl, rfl, rfl, rfl⟩
  | cons j js ih =>
    rw [List.foldl_cons]
    obtain ⟨h1, h2, h3, h4⟩ := ih (selectBindTypeStep clicked b j)
    rw [h1, h2, h3, h4]
    unfold selectBindTypeStep
    split_ifs <;> exact ⟨rfl, rfl, rfl, rfl⟩

/-- C22, the claim as stated fails: the type code 8 can be selected, and `messageTypes`
names it `Note Off`; the selectable codes 8 to 14 are seven kinds, note-off through
pitch-bend, not the six kinds note-on through pitch-bend. -/
theorem selectBindType_offers_note_off :
    (selectBindType true (fun j => decide (j = 8)) ⟨9, 0, 60, 128, 1⟩).type = 8 ∧
    messageTypes[8]? = some "Note Off".toList ∧
    messageTypes[9]? = some "Note On".toList ∧
    (List.range' 8 7).length = 7 := by
  decide

/-- C22, amended. The message types a user can select for a MIDI bind are exactly the
type codes 8 through 14: the type combo leaves the type of the rule as it was or stores
a code from 8 to 14, each of these codes is stored when its entry alone is clicked, and
no other member of the rule changes. `messageTypes` names these seven codes note-off,
note-on, aftertouch, control, program, channel-pressure and pitch-bend; code 15, SysEx,
and the codes below 8 are not offered. -/
theorem selectBindType_codes (comboOpen : Bool) (clicked : Nat → Bool) (b : MIDIBind) :
    ((selectBindType comboOpen clicked b).type = b.type ∨
      (8 ≤ (selectBindType comboOpen clicked b).type ∧
        (selectBindType comboOpen clicked b).type ≤ 14)) ∧
    (∀ j : Nat, 8 ≤ j → j ≤ 14 →
      (selectBindType true (fun k => decide (k = j)) b).type = (j : Int)) ∧
    ((selectBindType comboOpen clicked b).channel = b.channel ∧
      (selectBindType comboOpen clicked b).data1 = b.data1 ∧
      (selectBindType comboOpen clicked b).data2 = b.data2 ∧
      (selectBindType comboOpen clicked b).action = b.action) ∧
    (List.range' 8 7).map (fun j => messageTypes[j]?) =
      [some "Note Off".toList, some "Note On".toList, some "Aftertouch".toList,
       some "Control".toList, some "Program".toList, some "ChanPressure".toList,
       some "Pitch Bend".toList] ∧
    messageTypes[15]? = some "SysEx".toList ∧ 15 ∉ List.range' 8 7 ∧
    ∀ j, j < 8 → j ∉ List.range' 8 7 := by
  refine ⟨?_, ?_, ?_, by decide, by decide, by decide, ?_⟩
  · unfold selectBindType
    by_cases ho : comboOpen = true
    · rw [if_pos ho]
      rcases selectBindType_fold_type clicked (List.range' 8 7) b with h | ⟨j, hj, h⟩
      · exact Or.inl h
      · right
        rw [h]
        have := List.mem_range'_1.mp hj
        omega
    · rw [if_neg ho]
      exact Or.inl rfl
  · intro j h8 h14
    have hj : j = 8 ∨ j = 9 ∨ j = 10 ∨ j = 11 ∨ j = 12 ∨ j = 13 ∨ j = 14 := by omega
    rcases hj with h | h | h | h | h | h | h <;> subst h <;> rfl
  · unfold selectBindType
    by_cases ho : comboOpen = true
    · rw [if_pos ho]
      exact selectBindType_fold_others clicked _ b
    · rw [if_neg ho]
      exact ⟨rfl, rfl, rfl, rfl⟩
  · intro j hj hmem
    have := List.mem_range'_1.mp hmem
    omega

theorem selectBindType_codes_witness :
    (8 : Nat) ≤ 11 ∧ (11 : Nat) ≤ 14 ∧
    (selectBindType true (fun k => decide (k = 11)) ⟨9, 0, 60, 128, 1⟩).type = 11 :=
  ⟨by decide, by decide,
    (selectBindType_codes true (fun k => decide (k = 11)) ⟨9, 0, 60, 128, 1⟩).2.1 11
      (by decide) (by decide)⟩

/-- C26. Starting from an empty bind list with learn mode disarmed, the operations add,
add-and-learn (which arms learn mode for the rule at index 1), remove row 0 leave a list
of one rule and the learn target 1, which is neither -1 nor an index into the list: the
remove button disarms learn mode when it was armed for the removed row and leaves the
target alone, without moving it down, when it was armed for a later row. -/
theorem learn_target_not_shifted :
    demoGui.midiMap.binds = [] ∧ demoGui.learning = -1 ∧
    ([BindOp.add, BindOp.addLearn].foldl
      (applyBindOp ⟨0, 16, 128, 128, 0⟩) demoGui).learning = 1 ∧
    ([BindOp.add, BindOp.addLearn].foldl
      (applyBindOp ⟨0, 16, 128, 128, 0⟩) demoGui).midiMap.binds.length = 2 ∧
    ([BindOp.add, BindOp.addLearn, BindOp.remove 0].foldl
      (applyBindOp ⟨0, 16, 128, 128, 0⟩) demoGui).learning = 1 ∧
    ([BindOp.add, BindOp.addLearn, BindOp.remove 0].foldl
      (applyBindOp ⟨0, 16, 128, 128, 0⟩) demoGui).midiMap.binds.length = 1 := by
  decide

/-! C25: MIDI bind matching -/

theorem matchBindsFrom_mem (msg : MIDIMessage) (binds : List MIDIBind) :
    ∀ (s i : Nat), i ∈ matchBindsFrom msg s binds ↔
      s ≤ i ∧ ∃ b, binds[i - s]? = some b ∧ bindMatches b msg = true := by
  induction binds with
  | nil => intro s i; simp [matchBindsFrom]
  | cons b bs ih =>
    intro s i
    unfold matchBindsFrom
    by_cases hm : bindMatches b msg = true
    · rw [if_pos hm, List.mem_cons, ih (s + 1) i]
      constructor
      · rintro (h | ⟨h1, c, h2, h3⟩)
        · subst h
          exact ⟨le_refl _, b, by simp, hm⟩
        · refine ⟨by omega, c, ?_, h3⟩
          have : i - s = (i - (s + 1)) + 1 := by omega
          rw [this, List.getElem?_cons_succ]
          exact h2
      · rintro ⟨h1, c, h2, h3⟩
        by_cases he : i = s
        · exact Or.inl he
        · right
          refine ⟨by omega, c, ?_, h3⟩
          have : i - s = (i - (s + 1)) + 1 := by omega
          rw [this, List.getElem?_cons_succ] at h2
          exact h2
    · rw [if_neg hm, ih (s + 1) i]
      constructor
      · rintro ⟨h1, c, h2, h3⟩
        refine ⟨by omega, c, ?_, h3⟩
        have : i - s = (i - (s + 1)) + 1 := by omega
        rw [this, List.getElem?_cons_succ]
        exact h2
      · rintro ⟨h1, c, h2, h3⟩
        by_cases he : i = s
        · subst he
          simp only [Nat.sub_self, List.getElem?_cons_zero, Option.some.injEq] at h2
          subst h2
          exact absurd h3 hm
        · refine ⟨by omega, c, ?_, h3⟩
          have : i - s = (i - (s + 1)) + 1 := by omega
          rw [this, List.getElem?_cons_succ] at h2
          exact h2

theorem matchBindsFrom_sorted (msg : MIDIMessage) (binds : List MIDIBind) :
    ∀ s : Nat, (matchBindsFrom msg s binds).Pairwise (fun a b => a < b) := by
  induction binds with
  | nil => intro s; simp [matchBindsFrom]
  | cons b bs ih =>
    intro s
    unfold matchBindsFrom
    split_ifs
    · rw [List.pairwise_cons]
      refine ⟨?_, ih (s + 1)⟩
      intro a ha
      have := ((matchBindsFrom_mem msg bs (s + 1) a).mp ha).1
      omega
    · exact ih (s + 1)

theorem bindMatches_iff (b : MIDIBind) (msg : MIDIMessage) :
    bindMatches b msg = true ↔
      b.type = msg.type ∧ (b.channel = 16 ∨ b.channel = msg.channel) ∧
        (b.data1 = 128 ∨ b.data1 = msg.data1) ∧ (b.data2 = 128 ∨ b.data2 = msg.data2) := by
  unfold bindMatches
  simp only [Bool.and_eq_true, Bool.or_eq_true, decide_eq_true_eq]
  tauto

/-- C25. MIDI bind matching returns all matches: for every bind list and message, an
index is in the match result exactly when the list has a rule at that index whose type
equals the message type and whose channel, data1 and data2 are each the wildcard
(16, 128, 128) or equal to the message's; the result lists each such index once, in
increasing order. For the message Control, channel 3, data1 64, data2 100, the rule
Control, Any, 64, Any matches and the rule Control, 5, 64, Any does not. -/
theorem matchBinds_all_matches (binds : List MIDIBind) (msg : MIDIMessage) :
    (∀ i, i ∈ matchBinds binds msg ↔
      ∃ b, binds[i]? = some b ∧ b.type = msg.type ∧
        (b.channel = 16 ∨ b.channel = msg.channel) ∧
        (b.data1 = 128 ∨ b.data1 = msg.data1) ∧ (b.data2 = 128 ∨ b.data2 = msg.data2)) ∧
    (matchBinds binds msg).Pairwise (fun a b => a < b) ∧
    matchBinds [⟨11, 16, 64, 128, 1⟩, ⟨11, 5, 64, 128, 2⟩] ⟨11, 3, 64, 100⟩ = [0] ∧
    matchBinds [⟨11, 16, 64, 128, 1⟩, ⟨11, 3, 128, 100, 2⟩, ⟨9, 3, 64, 100, 3⟩,
      ⟨11, 3, 64, 100, 4⟩] ⟨11, 3, 64, 100⟩ = [0, 1, 3] := by
  refine ⟨?_, matchBindsFrom_sorted msg binds 0, by decide, by decide⟩
  intro i
  unfold matchBinds
  rw [matchBindsFrom_mem]
  simp only [Nat.zero_le, true_and, Nat.sub_zero]
  constructor
  · rintro ⟨b, h1, h2⟩
    exact ⟨b, h1, (bindMatches_iff b msg).mp h2⟩
  · rintro ⟨b, h1, h2⟩
    exact ⟨b, h1, (bindMatches_iff b msg).mpr h2⟩

/-! C23, C24: the note-key codec -/

theorem splitOnChar_ne_nil (sep : Char) (l : List Char) : splitOnChar sep l ≠ [] := by
  induction l with
  | nil => simp [splitOnChar]
  | cons c cs ih =>
    unfold splitOnChar
    split_ifs
    · simp
    · split <;> simp

theorem splitOnChar_of_not_mem (sep : Char) (a : List Char) (h : sep ∉ a) :
    splitOnChar sep a = [a] := by
  induction a with
  | nil => rfl
  | cons c cs ih =>
    have hc : c ≠ sep := fun e => h (e ▸ List.mem_cons_self c cs)
    have hcs : sep ∉ cs := fun e => h (List.mem_cons_of_mem c e)
    rw [splitOnChar, if_neg hc, ih hcs]

theorem splitOnChar_append (sep : Char) (a rest : List Char) (h : sep ∉ a) :
    splitOnChar sep (a ++ sep :: rest) = a :: splitOnChar sep rest := by
  induction a with
  | nil => simp [splitOnChar]
  | cons c cs ih =>
    have hc : c ≠ sep := fun e => h (e ▸ List.mem_cons_self c cs)
    have hcs : sep ∉ cs := fun e => h (List.mem_cons_of_mem c e)
    rw [List.cons_append, splitOnChar, if_neg hc, ih hcs]

theorem all_isDigit_of_forall (l : List Char) (h : ∀ c ∈ l, c.isDigit = true) :
    l.all Char.isDigit = true := by
  rw [List.all_eq_true]
  exact h

theorem parseField_fmtInt (v : Int) : parseField (fmtInt v) = some v := by
  obtain ⟨hall, hval, hne⟩ := toDigits_spec v.natAbs
  have hd := all_isDigit_of_forall _ hall
  unfold fmtInt parseField
  by_cases hneg : v < 0
  · rw [if_pos hneg]
    simp only [List.head?_cons, if_true, List.tail_cons]
    rw [if_pos ⟨hne, hd⟩, hval]
    congr 1
    omega
  · rw [if_neg hneg]
    obtain ⟨d, ds, hds⟩ := List.exists_cons_of_ne_nil hne
    have hdd : d.isDigit = true := hall d (by rw [hds]; exact List.mem_cons_self d ds)
    have hm : d ≠ '-' := (isDigit_not_space d hdd).2.1
    have hh : ¬ ((Nat.toDigits 10 v.natAbs).head? = some '-') := by
      rw [hds]
      simp [hm]
    rw [if_neg hh, if_pos ⟨hne, hd⟩, hval]
    congr 1
    omega

theorem decodeSegment_fmt (a b : Int) :
    decodeSegment (fmtInt a ++ ':' :: fmtInt b) = some (a, b) := by
  have ha := (fmtInt_plain a).2.2.2.1
  have hb := (fmtInt_plain b).2.2.2.1
  unfold decodeSegment
  rw [splitOnChar_append ':' _ _ ha, splitOnChar_of_not_mem ':' _ hb]
  simp only [parseField_fmtInt]

theorem decodeSegment_no_colon (seg : List Char) (h : ':' ∉ seg) : decodeSegment seg = none := by
  unfold decodeSegment
  rw [splitOnChar_of_not_mem ':' seg h]

theorem decodeSegment_bad_field (k v : List Char) (hk : ':' ∉ k) (hv : ':' ∉ v)
    (h : parseField k = none ∨ parseField v = none) : decodeSegment (k ++ ':' :: v) = none := by
  unfold decodeSegment
  rw [splitOnChar_append ':' _ _ hk, splitOnChar_of_not_mem ':' _ hv]
  rcases h with h | h
  · simp only [h]
  · simp only [h]
    cases parseField k <;> rfl

theorem decodeStep_nil (m : NoteKeys) : decodeStep m [] = m := by
  unfold decodeStep
  rw [decodeSegment_no_colon [] (by simp)]

theorem splitOnChar_segments (segs : List (List Char)) (h : ∀ s ∈ segs, ';' ∉ s) :
    splitOnChar ';' (segs.flatMap (fun s => s ++ [';'])) = segs ++ [[]] := by
  induction segs with
  | nil => rfl
  | cons s ss ih =>
    rw [List.flatMap_cons, List.append_assoc, List.singleton_append,
      splitOnChar_append ';' _ _ (h s (List.mem_cons_self s ss)),
      ih (fun t ht => h t (List.mem_cons_of_mem s ht))]
    rfl

theorem foldl_decodeStep (segs : List (List Char)) (m : NoteKeys) :
    segs.foldl decodeStep m =
      (segs.filterMap decodeSegment).foldl (fun (m : NoteKeys) (e : Int × Int) => NoteKeys.set m e.1 e.2) m := by
  induction segs generalizing m with
  | nil => rfl
  | cons s ss ih =>
    rw [List.foldl_cons, ih]
    unfold decodeStep
    cases hs : decodeSegment s with
    | none => simp [List.filterMap_cons, hs]
    | some e => simp [List.filterMap_cons, hs]

theorem decodeKeyMap_segments (segs : List (List Char)) (h : ∀ s ∈ segs, ';' ∉ s) :
    decodeKeyMap (segs.flatMap (fun s => s ++ [';'])) =
      (segs.filterMap decodeSegment).foldl (fun (m : NoteKeys) (e : Int × Int) => NoteKeys.set m e.1 e.2) [] := by
  unfold decodeKeyMap
  rw [splitOnChar_segments segs h, List.foldl_append, List.foldl_cons, List.foldl_nil,
    decodeStep_nil, foldl_decodeStep]

theorem encodeKeyMap_segments (p : NoteKeys) :
    encodeKeyMap p =
      (p.map (fun e => fmtInt e.1 ++ ':' :: fmtInt e.2)).flatMap (fun s => s ++ [';']) := by
  unfold encodeKeyMap
  induction p with
  | nil => rfl
  | cons x xs ih => simp only [List.flatMap_cons, List.map_cons, ih]; simp

theorem filterMap_decodeSegment_fmt (p : NoteKeys) :
    (p.map (fun e => fmtInt e.1 ++ ':' :: fmtInt e.2)).filterMap decodeSegment = p := by
  induction p with
  | nil => rfl
  | cons x xs ih => rw [List.map_cons, List.filterMap_cons, decodeSegment_fmt, ih]

theorem decodeKeyMap_encodeKeyMap_fold (p : NoteKeys) :
    decodeKeyMap (encodeKeyMap p) =
      p.foldl (fun (m : NoteKeys) (e : Int × Int) => NoteKeys.set m e.1 e.2) [] := by
  have hs : ∀ s ∈ p.map (fun e => fmtInt e.1 ++ ':' :: fmtInt e.2), ';' ∉ s := by
    intro s hs
    obtain ⟨e, _, rfl⟩ := List.mem_map.mp hs
    simp only [List.mem_append, List.mem_cons, not_or]
    exact ⟨(fmtInt_plain e.1).2.2.2.2, by decide, (fmtInt_plain e.2).2.2.2.2⟩
  rw [encodeKeyMap_segments, decodeKeyMap_segments _ hs, filterMap_decodeSegment_fmt]

theorem noteKeys_set_sorted_perm (l : NoteKeys) (k v : Int)
    (hs : l.Pairwise (fun a b => a.1 < b.1)) (hk : ∀ e ∈ l, e.1 ≠ k) :
    (l.set k v).Pairwise (fun a b => a.1 < b.1) ∧ List.Perm (l.set k v) ((k, v) :: l) := by
  induction l with
  | nil =>
    unfold NoteKeys.set
    exact ⟨List.pairwise_singleton _ _, List.Perm.refl _⟩
  | cons x xs ih =>
    obtain ⟨k', v'⟩ := x
    have hne : k' ≠ k := hk (k', v') (List.mem_cons_self _ _)
    obtain ⟨hx, hxs⟩ := List.pairwise_cons.mp hs
    unfold NoteKeys.set
    by_cases h1 : k < k'
    · rw [if_pos h1]
      refine ⟨?_, List.Perm.refl _⟩
      rw [List.pairwise_cons]
      refine ⟨?_, hs⟩
      intro e he
      rcases List.mem_cons.mp he with he | he
      · rw [he]; exact h1
      · exact lt_trans h1 (hx e he)
    · rw [if_neg h1, if_neg (fun e => hne e.symm)]
      obtain ⟨i1, i2⟩ := ih hxs (fun e he => hk e (List.mem_cons_of_mem _ he))
      refine ⟨?_, ?_⟩
      · rw [List.pairwise_cons]
        refine ⟨?_, i1⟩
        intro e he
        rcases List.mem_cons.mp (i2.subset he) with he | he
        · rw [he]
          show k' < k
          omega
        · exact hx e he
      · exact (List.Perm.cons _ i2).trans (List.Perm.swap _ _ _)

theorem foldl_set_sorted_perm (p : NoteKeys) :
    ∀ acc : NoteKeys, acc.Pairwise (fun a b => a.1 < b.1) →
      (p.map Prod.fst).Nodup → (∀ e ∈ acc, ∀ f ∈ p, e.1 ≠ f.1) →
      (p.foldl (fun (m : NoteKeys) (e : Int × Int) => NoteKeys.set m e.1 e.2) acc).Pairwise (fun a b => a.1 < b.1) ∧
        List.Perm (p.foldl (fun (m : NoteKeys) (e : Int × Int) => NoteKeys.set m e.1 e.2) acc) (acc ++ p) := by
  induction p with
  | nil => intro acc hs _ _; exact ⟨hs, by simp⟩
  | cons x xs ih =>
    intro acc hs hnd hdis
    rw [List.map_cons, List.nodup_cons] at hnd
    obtain ⟨s1, s2⟩ := noteKeys_set_sorted_perm acc x.1 x.2 hs
      (fun e he => hdis e he x (List.mem_cons_self x xs))
    rw [List.foldl_cons]
    obtain ⟨r1, r2⟩ := ih (acc.set x.1 x.2) s1 hnd.2 (by
      intro e he f hf
      rcases List.mem_cons.mp (s2.subset he) with he | he
      · rw [he]
        intro heq
        exact hnd.1 (List.mem_map.mpr ⟨f, hf, heq.symm⟩)
      · exact hdis e he f (List.mem_cons_of_mem x hf))
    refine ⟨r1, r2.trans ?_⟩
    have : List.Perm (acc.set x.1 x.2 ++ xs) (((x.1, x.2) :: acc) ++ xs) :=
      List.Perm.append_right xs s2
    refine this.trans ?_
    simp only [List.cons_append]
    exact (@List.perm_middle _ x acc xs).symm

/-- C23. Note-key codec round trip: for every note-key map `m` (its entries in key order,
each key once) and every order `p` in which its pairs are written, decoding the
encoding of `p` gives exactly `m`. -/
theorem decode_encode_round_trip (m p : NoteKeys)
    (hm : m.Pairwise (fun a b => a.1 < b.1)) (hp : List.Perm p m) :
    decodeKeyMap (encodeKeyMap p) = m := by
  have hnd : (p.map Prod.fst).Nodup := by
    have h1 : (m.map Prod.fst).Nodup := by
      rw [List.Nodup, List.pairwise_map]
      exact hm.imp (fun h => ne_of_lt h)
    exact (hp.map Prod.fst).nodup_iff.mpr h1
  obtain ⟨r1, r2⟩ := foldl_set_sorted_perm p [] List.Pairwise.nil hnd (by simp)
  rw [List.nil_append] at r2
  rw [decodeKeyMap_encodeKeyMap_fold]
  haveI : IsAntisymm (Int × Int) (fun a b => a.1 < b.1) :=
    ⟨fun a b h1 h2 => absurd h1 (not_lt.mpr (le_of_lt h2))⟩
  exact List.eq_of_perm_of_sorted (r2.trans hp) r1 hm

theorem decode_encode_round_trip_witness :
    ([(5, 7), (6, 4), (30, 100)] : NoteKeys).Pairwise (fun a b => a.1 < b.1) ∧
    encodeKeyMap [(30, 100), (5, 7), (6, 4)] = "30:100;5:7;6:4;".toList ∧
    decodeKeyMap (encodeKeyMap [(30, 100), (5, 7), (6, 4)]) = [(5, 7), (6, 4), (30, 100)] :=
  ⟨by decide, by decide,
    decode_encode_round_trip [(5, 7), (6, 4), (30, 100)] [(30, 100), (5, 7), (6, 4)]
      (by decide) (by decide)⟩

/-- C24. Note-key decoding is total and skips garbage. `decodeKeyMap` is a total
function. The decoding of a sequence of segments, each followed by `;`, is the map built
from exactly the well-formed segments, in their order: malformed segments and the empty
segment after the last `;` are skipped. A segment without `:` is malformed, and so is a
segment `k:v` with a field that is not numeric; a segment `<scancode>:<slot>` written in
decimal is well formed and gives that pair. Decoding `5:7;garbage;6:4;` gives exactly
the pairs 5:7 and 6:4. -/
theorem decodeKeyMap_skips_garbage :
    (∀ segs : List (List Char), (∀ s ∈ segs, ';' ∉ s) →
      decodeKeyMap (segs.flatMap (fun s => s ++ [';'])) =
        (segs.filterMap decodeSegment).foldl (fun (m : NoteKeys) (e : Int × Int) => NoteKeys.set m e.1 e.2) []) ∧
    (∀ seg : List Char, ':' ∉ seg → decodeSegment seg = none) ∧
    (∀ k v : List Char, ':' ∉ k → ':' ∉ v → parseField k = none ∨ parseField v = none →
      decodeSegment (k ++ ':' :: v) = none) ∧
    (∀ a b : Int, decodeSegment (fmtInt a ++ ':' :: fmtInt b) = some (a, b)) ∧
    decodeSegment [] = none ∧
    decodeSegment "garbage".toList = none ∧
    decodeKeyMap "5:7;garbage;6:4;".toList = [(5, 7), (6, 4)] :=
  ⟨decodeKeyMap_segments, decodeSegment_no_colon, decodeSegment_bad_field, decodeSegment_fmt,
    by decide, by decide, by decide⟩

theorem decodeKeyMap_skips_garbage_witness :
    (∀ s ∈ ["5:7".toList, "garbage".toList, "6:4".toList], ';' ∉ s) ∧
    decodeKeyMap (["5:7".toList, "garbage".toList, "6:4".toList].flatMap (fun s => s ++ [';'])) =
      (["5:7".toList, "garbage".toList, "6:4".toList].filterMap decodeSegment).foldl
        (fun (m : NoteKeys) (e : Int × Int) => NoteKeys.set m e.1 e.2) [] ∧
    ["5:7".toList, "garbage".toList, "6:4".toList].filterMap decodeSegment = [(5, 7), (6, 4)] :=
  ⟨by decide, decodeKeyMap_skips_garbage.1 _ (by decide), by decide⟩

/-! C29: settings through the config store -/

theorem settingsWrites_keys (s : Settings) : (settingsWrites s).map Prod.fst = settingsKeys :=
  rfl

theorem settingsKeys_nodup : settingsKeys.Nodup := by
  decide

theorem settingsKeys_head : ∀ k ∈ settingsKeys, k.head? ≠ some 'k' ∧ k ≠ "noteKeys".toList := by
  decide

theorem foldl_setConf_not_mem (ws : List (List Char × ConfValue)) (e : Conf) (k : List Char)
    (h : k ∉ ws.map Prod.fst) :
    ws.foldl (fun c kv => setConf c kv.1 kv.2) e k = e k := by
  induction ws generalizing e with
  | nil => rfl
  | cons w ws ih =>
    rw [List.map_cons, List.mem_cons, not_or] at h
    rw [List.foldl_cons, ih _ h.2, setConf_other _ _ _ _ h.1]

theorem foldl_setConf_mem (ws : List (List Char × ConfValue)) (e : Conf) (k : List Char)
    (v : ConfValue) (hnd : (ws.map Prod.fst).Nodup) (hmem : (k, v) ∈ ws) :
    ws.foldl (fun c kv => setConf c kv.1 kv.2) e k = some v := by
  induction ws generalizing e with
  | nil => simp at hmem
  | cons w ws ih =>
    rw [List.map_cons, List.nodup_cons] at hnd
    rw [List.foldl_cons]
    rcases List.mem_cons.mp hmem with h | h
    · subst h
      rw [foldl_setConf_not_mem _ _ _ hnd.1]
      simp [setConf]
    · exact ih _ hnd.2 h

theorem foldl_commitColorsStep_other (K : GuiConst V) (cols : Nat → V) (is : List Nat)
    (e : Conf) (k : List Char) (h : ∀ i ∈ is, (K.guiColors i).name ≠ k) :
    is.foldl (commitColorsStep K cols) e k = e k := by
  induction is generalizing e with
  | nil => rfl
  | cons i is ih =>
    rw [List.foldl_cons, ih _ (fun j hj => h j (List.mem_cons_of_mem i hj))]
    unfold commitColorsStep
    exact setConf_other _ _ _ _ (fun e' => h i (List.mem_cons_self i is) e'.symm)

theorem foldl_commitKeybindsStep_other (K : GuiConst V) (keys : Nat → Int) (is : List Nat)
    (e : Conf) (k : List Char) (h : ∀ i, k ≠ keybindKey K i) :
    is.foldl (commitKeybindsStep K keys) e k = e k := by
  induction is generalizing e with
  | nil => rfl
  | cons i is ih =>
    rw [List.foldl_cons, ih]
    unfold commitKeybindsStep
    split_ifs
    · rfl
    · exact setConf_other _ _ _ _ (h i)

/-- The store after `commitSettings` holds every member of `settings` under its key,
when no colour name is such a key. -/
theorem commitSettings_conf_setting (K : GuiConst V) (X : SettingsExt) (e : DivEngine)
    (g : FurnaceGUI V) (k : List Char) (v : ConfValue)
    (hcol : ∀ i, i < K.GUI_COLOR_MAX → (K.guiColors i).name ∉ settingsKeys)
    (hmem : (k, v) ∈ settingsWrites g.settings) :
    (commitSettings K X e g).1.conf k = some v := by
  have hk : k ∈ settingsKeys := by
    rw [← settingsWrites_keys g.settings]
    exact List.mem_map.mpr ⟨(k, v), hmem, rfl⟩
  obtain ⟨hh, hn⟩ := settingsKeys_head k hk
  unfold commitSettings
  simp only
  rw [setConf_other _ _ _ _ hn,
    foldl_commitKeybindsStep_other K _ _ _ k (fun i e' => hh (by rw [e']; rfl)),
    foldl_commitColorsStep_other K _ _ _ k (fun i hi e' =>
      hcol i (List.mem_range.mp hi) (e' ▸ hk)),
    foldl_setConf_mem _ _ k v (by rw [settingsWrites_keys]; exact settingsKeys_nodup) hmem]

theorem clampSetting_id (x minV maxV : Int) (h1 : minV ≤ x) (h2 : x ≤ maxV) :
    clampSetting x minV maxV = x := by
  unfold clampSetting
  simp only
  split_ifs <;> omega

theorem readSettings_of_writes (c : Conf) (s : Settings)
    (hc : ∀ k v, (k, v) ∈ settingsWrites s → c k = some v) :
    readSettings c =
      { s with audioEngine := if audioBackends s.audioEngine = "SDL".toList then 1 else 0 } := by
  have h0 : c "mainFontSize".toList = some (ConfValue.int (s.mainFontSize)) :=
    hc _ _ (List.getElem?_mem (show (settingsWrites s)[0]? = some _ from rfl))
  have h1 : c "patFontSize".toList = some (ConfValue.int (s.patFontSize)) :=
    hc _ _ (List.getElem?_mem (show (settingsWrites s)[1]? = some _ from rfl))
  have h2 : c "iconSize".toList = some (ConfValue.int (s.iconSize)) :=
    hc _ _ (List.getElem?_mem (show (settingsWrites s)[2]? = some _ from rfl))
  have h3 : c "audioEngine".toList = some (ConfValue.str ((audioBackends s.audioEngine))) :=
    hc _ _ (List.getElem?_mem (show (settingsWrites s)[3]? = some _ from rfl))
  have h4 : c "audioDevice".toList = some (ConfValue.str (s.audioDevice)) :=
    hc _ _ (List.getElem?_mem (show (settingsWrites s)[4]? = some _ from rfl))
  have h5 : c "midiInDevice".toList = some (ConfValue.str (s.midiInDevice)) :=
    hc _ _ (List.getElem?_mem (show (settingsWrites s)[5]? = some _ from rfl))
  have h6 : c "midiOutDevice".toList = some (ConfValue.str (s.midiOutDevice)) :=
    hc _ _ (List.getElem?_mem (show (settingsWrites s)[6]? = some _ from rfl))
  have h7 : c "audioQuality".toList = some (ConfValue.int (s.audioQuality)) :=
    hc _ _ (List.getElem?_mem (show (settingsWrites s)[7]? = some _ from rfl))
  have h8 : c "audioBufSize".toList = some (ConfValue.int (s.audioBufSize)) :=
    hc _ _ (List.getElem?_mem (show (settingsWrites s)[8]? = some _ from rfl))
  have h9 : c "audioRate".toList = some (ConfValue.int (s.audioRate)) :=
    hc _ _ (List.getElem?_mem (show (settingsWrites s)[9]? = some _ from rfl))
  have h10 : c "arcadeCore".toList = some (ConfValue.int (s.arcadeCore)) :=
    hc _ _ (List.getElem?_mem (show (settingsWrites s)[10]? = some _ from rfl))
  have h11 : c "ym2612Core".toList = some (ConfValue.int (s.ym2612Core)) :=
    hc _ _ (List.getElem?_mem (show (settingsWrites s)[11]? = some _ from rfl))
  have h12 : c "saaCore".toList = some (ConfValue.int (s.saaCore)) :=
    hc _ _ (List.getElem?_mem (show (settingsWrites s)[12]? = some _ from rfl))
  have h13 : c "mainFont".toList = some (ConfValue.int (s.mainFont)) :=
    hc _ _ (List.getElem?_mem (show (settingsWrites s)[13]? = some _ from rfl))
  have h14 : c "patFont".toList = some (ConfValue.int (s.patFont)) :=
    hc _ _ (List.getElem?_mem (show (settingsWrites s)[14]? = some _ from rfl))
  have h15 : c "mainFontPath".toList = some (ConfValue.str (s.mainFontPath)) :=
    hc _ _ (List.getElem?_mem (show (settingsWrites s)[15]? = some _ from rfl))
  have h16 : c "patFontPath".toList = some (ConfValue.str (s.patFontPath)) :=
    hc _ _ (List.getElem?_mem (show (settingsWrites s)[16]? = some _ from rfl))
  have h17 : c "patRowsBase".toList = some (ConfValue.int (s.patRowsBase)) :=
    hc _ _ (List.getElem?_mem (show (settingsWrites s)[17]? = some _ from rfl))
  have h18 : c "orderRowsBase".toList = some (ConfValue.int (s.orderRowsBase)) :=
    hc _ _ (List.getElem?_mem (show (settingsWrites s)[18]? = some _ from rfl))
  have h19 : c "soloAction".toList = some (ConfValue.int (s.soloAction)) :=
    hc _ _ (List.getElem?_mem (show (settingsWrites s)[19]? = some _ from rfl))
  have h20 : c "pullDeleteBehavior".toList = some (ConfValue.int (s.pullDeleteBehavior)) :=
    hc _ _ (List.getElem?_mem (show (settingsWrites s)[20]? = some _ from rfl))
  have h21 : c "wrapHorizontal".toList = some (ConfValue.int (s.wrapHorizontal)) :=
    hc _ _ (List.getElem?_mem (show (settingsWrites s)[21]? = some _ from rfl))
  have h22 : c "wrapVertical".toList = some (ConfValue.int (s.wrapVertical)) :=
    hc _ _ (List.getElem?_mem (show (settingsWrites s)[22]? = some _ from rfl))
  have h23 : c "macroView".toList = some (ConfValue.int (s.macroView)) :=
    hc _ _ (List.getElem?_mem (show (settingsWrites s)[23]? = some _ from rfl))
  have h24 : c "fmNames".toList = some (ConfValue.int (s.fmNames)) :=
    hc _ _ (List.getElem?_mem (show (settingsWrites s)[24]? = some _ from rfl))
  have h25 : c "allowEditDocking".toList = some (ConfValue.int (s.allowEditDocking)) :=
    hc _ _ (List.getElem?_mem (show (settingsWrites s)[25]? = some _ from rfl))
  have h26 : c "chipNames".toList = some (ConfValue.int (s.chipNames)) :=
    hc _ _ (List.getElem?_mem (show (settingsWrites s)[26]? = some _ from rfl))
  have h27 : c "overflowHighlight".toList = some (ConfValue.int (s.overflowHighlight)) :=
    hc _ _ (List.getElem?_mem (show (settingsWrites s)[27]? = some _ from rfl))
  have h28 : c "partyTime".toList = some (ConfValue.int (s.partyTime)) :=
    hc _ _ (List.getElem?_mem (show (settingsWrites s)[28]? = some _ from rfl))
  have h29 : c "germanNotation".toList = some (ConfValue.int (s.germanNotation)) :=
    hc _ _ (List.getElem?_mem (show (settingsWrites s)[29]? = some _ from rfl))
  have h30 : c "stepOnDelete".toList = some (ConfValue.int (s.stepOnDelete)) :=
    hc _ _ (List.getElem?_mem (show (settingsWrites s)[30]? = some _ from rfl))
  have h31 : c "scrollStep".toList = some (ConfValue.int (s.scrollStep)) :=
    hc _ _ (List.getElem?_mem (show (settingsWrites s)[31]? = some _ from rfl))
  have h32 : c "sysSeparators".toList = some (ConfValue.int (s.sysSeparators)) :=
    hc _ _ (List.getElem?_mem (show (settingsWrites s)[32]? = some _ from rfl))
  have h33 : c "forceMono".toList = some (ConfValue.int (s.forceMono)) :=
    hc _ _ (List.getElem?_mem (show (settingsWrites s)[33]? = some _ from rfl))
  have h34 : c "controlLayout".toList = some (ConfValue.int (s.controlLayout)) :=
    hc _ _ (List.getElem?_mem (show (settingsWrites s)[34]? = some _ from rfl))
  have h35 : c "restartOnFlagChange".toList = some (ConfValue.int (s.restartOnFlagChange)) :=
    hc _ _ (List.getElem?_mem (show (settingsWrites s)[35]? = some _ from rfl))
  have h36 : c "statusDisplay".toList = some (ConfValue.int (s.statusDisplay)) :=
    hc _ _ (List.getElem?_mem (show (settingsWrites s)[36]? = some _ from rfl))
  have h37 : c "dpiScale".toList = some (ConfValue.float (s.dpiScale)) :=
    hc _ _ (List.getElem?_mem (show (settingsWrites s)[37]? = some _ from rfl))
  have h38 : c "viewPrevPattern".toList = some (ConfValue.int (s.viewPrevPattern)) :=
    hc _ _ (List.getElem?_mem (show (settingsWrites s)[38]? = some _ from rfl))
  have h39 : c "guiColorsBase".toList = some (ConfValue.int (s.guiColorsBase)) :=
    hc _ _ (List.getElem?_mem (show (settingsWrites s)[39]? = some _ from rfl))
  have h40 : c "avoidRaisingPattern".toList = some (ConfValue.int (s.avoidRaisingPattern)) :=
    hc _ _ (List.getElem?_mem (show (settingsWrites s)[40]? = some _ from rfl))
  have h41 : c "insFocusesPattern".toList = some (ConfValue.int (s.insFocusesPattern)) :=
    hc _ _ (List.getElem?_mem (show (settingsWrites s)[41]? = some _ from rfl))
  have h42 : c "stepOnInsert".toList = some (ConfValue.int (s.stepOnInsert)) :=
    hc _ _ (List.getElem?_mem (show (settingsWrites s)[42]? = some _ from rfl))
  have h43 : c "unifiedDataView".toList = some (ConfValue.int (s.unifiedDataView)) :=
    hc _ _ (List.getElem?_mem (show (settingsWrites s)[43]? = some _ from rfl))
  have h44 : c "sysFileDialog".toList = some (ConfValue.int (s.sysFileDialog)) :=
    hc _ _ (List.getElem?_mem (show (settingsWrites s)[44]? = some _ from rfl))
  have h45 : c "roundedWindows".toList = some (ConfValue.int (s.roundedWindows)) :=
    hc _ _ (List.getElem?_mem (show (settingsWrites s)[45]? = some _ from rfl))
  have h46 : c "roundedButtons".toList = some (ConfValue.int (s.roundedButtons)) :=
    hc _ _ (List.getElem?_mem (show (settingsWrites s)[46]? = some _ from rfl))
  have h47 : c "roundedMenus".toList = some (ConfValue.int (s.roundedMenus)) :=
    hc _ _ (List.getElem?_mem (show (settingsWrites s)[47]? = some _ from rfl))
  have h48 : c "loadJapanese".toList = some (ConfValue.int (s.loadJapanese)) :=
    hc _ _ (List.getElem?_mem (show (settingsWrites s)[48]? = some _ from rfl))
  have h49 : c "fmLayout".toList = some (ConfValue.int (s.fmLayout)) :=
    hc _ _ (List.getElem?_mem (show (settingsWrites s)[49]? = some _ from rfl))
  have h50 : c "susPosition".toList = some (ConfValue.int (s.susPosition)) :=
    hc _ _ (List.getElem?_mem (show (settingsWrites s)[50]? = some _ from rfl))
  have h51 : c "effectCursorDir".toList = some (ConfValue.int (s.effectCursorDir)) :=
    hc _ _ (List.getElem?_mem (show (settingsWrites s)[51]? = some _ from rfl))
  have h52 : c "cursorPastePos".toList = some (ConfValue.int (s.cursorPastePos)) :=
    hc _ _ (List.getElem?_mem (show (settingsWrites s)[52]? = some _ from rfl))
  have h53 : c "titleBarInfo".toList = some (ConfValue.int (s.titleBarInfo)) :=
    hc _ _ (List.getElem?_mem (show (settingsWrites s)[53]? = some _ from rfl))
  have h54 : c "titleBarSys".toList = some (ConfValue.int (s.titleBarSys)) :=
    hc _ _ (List.getElem?_mem (show (settingsWrites s)[54]? = some _ from rfl))
  have h55 : c "frameBorders".toList = some (ConfValue.int (s.frameBorders)) :=
    hc _ _ (List.getElem?_mem (show (settingsWrites s)[55]? = some _ from rfl))
  have h56 : c "effectDeletionAltersValue".toList = some (ConfValue.int (s.effectDeletionAltersValue)) :=
    hc _ _ (List.getElem?_mem (show (settingsWrites s)[56]? = some _ from rfl))
  simp only [readSettings, getConfInt, getConfString, getConfFloat, h0, h1, h2, h3, h4, h5, h6, h7, h8, h9, h10, h11, h12, h13, h14, h15, h16, h17, h18, h19, h20, h21, h22, h23, h24, h25, h26, h27, h28, h29, h30, h31, h32, h33, h34, h35, h36, h37, h38, h39, h40, h41, h42, h43, h44, h45, h46, h47, h48, h49, h50, h51, h52, h53, h54, h55, h56]

theorem clampSettings_of_inBounds (s : Settings) (hb : SettingsInBounds s) :
    clampSettings s = s := by
  obtain ⟨hint, haud, hd1, hd2⟩ := hb
  have hnan : s.dpiScale ≠ CFloat.nan := by
    intro h
    rw [h] at hd1
    simp [CFloat.le] at hd1
  have hF : clampSettingF s.dpiScale (CFloat.fin 0) (CFloat.fin 4) = s.dpiScale :=
    (clampSettingF_spec s.dpiScale hnan).2.2.1 hd1 hd2
  have hA : clampSetting s.audioEngine 0 1 = s.audioEngine :=
    clampSetting_id _ _ _ haud.1 haud.2
  simp only [clampedIntSettings, List.forall_mem_cons, List.not_mem_nil, false_implies,
    implies_true, and_true] at hint
  unfold clampSettings
  simp only [hF, hA, clampSetting_id, hint]

theorem audioEngine_round_trip (x : Int) (h0 : 0 ≤ x) (h1 : x ≤ 1) :
    (if audioBackends x = "SDL".toList then (1 : Int) else 0) = x ∧
      (audioBackends x = "JACK".toList ∨ audioBackends x = "SDL".toList) := by
  have hx : x = 0 ∨ x = 1 := by omega
  rcases hx with h | h <;> subst h <;> decide

theorem demoSettings_inBounds : SettingsInBounds demoSettings := by
  refine ⟨by decide, by decide, ?_, ?_⟩
  · show CFloat.le (CFloat.fin 0) (CFloat.fin 2) = true
    simp [CFloat.le]
  · show CFloat.le (CFloat.fin 2) (CFloat.fin 4) = true
    simp [CFloat.le]
    norm_num

/-- C29. Scalar settings round trip through the config store. Let `commitSettings` run
on a state whose settings lie within their clamp bounds (`SettingsInBounds`: the 49
clamped integer members, the audio backend index in `[0,1]`, `dpiScale` in `[0,4]`), and
let `syncSettings` run later on any state and an engine whose config store is the one
the commit left. If no colour name is the config key of a setting, every member of
`settings` is as it was at commit time; the audio backend index is stored as the string
`JACK` or `SDL` and reads back as the same index. -/
theorem commit_then_sync_restores_settings (K : GuiConst V) (X X' : SettingsExt)
    (e e' : DivEngine) (g g' : FurnaceGUI V)
    (hconf : e'.conf = (commitSettings K X e g).1.conf)
    (hb : SettingsInBounds g.settings)
    (hcol : ∀ i, i < K.GUI_COLOR_MAX → (K.guiColors i).name ∉ settingsKeys) :
    (syncSettings K X' e' g').2.settings = g.settings ∧
    e'.conf "audioEngine".toList = some (ConfValue.str (audioBackends g.settings.audioEngine)) ∧
    (audioBackends g.settings.audioEngine = "JACK".toList ∨
      audioBackends g.settings.audioEngine = "SDL".toList) ∧
    (syncSettings K X' e' g').2.settings.audioEngine = g.settings.audioEngine := by
  have hw : ∀ k v, (k, v) ∈ settingsWrites g.settings → e'.conf k = some v := by
    intro k v h
    rw [hconf]
    exact commitSettings_conf_setting K X e g k v hcol h
  obtain ⟨ha1, ha2⟩ := audioEngine_round_trip g.settings.audioEngine hb.2.1.1 hb.2.1.2
  have hs : (syncSettings K X' e' g').2.settings = g.settings := by
    rw [syncSettings_settings, readSettings_of_writes _ g.settings hw, ha1]
    exact clampSettings_of_inBounds g.settings hb
  refine ⟨hs, ?_, ha2, by rw [hs]⟩
  exact hw _ _ (List.getElem?_mem (show (settingsWrites g.settings)[3]? = some _ from rfl))

theorem commit_then_sync_restores_settings_witness :
    SettingsInBounds demoGuiSettings.settings ∧
    (syncSettings demoConst demoExt
      (commitSettings demoConst demoExt demoEngine demoGuiSettings).1 demoGui).2.settings =
        demoSettings ∧
    (commitSettings demoConst demoExt demoEngine demoGuiSettings).1.conf "audioEngine".toList =
      some (ConfValue.str "JACK".toList) :=
  ⟨demoSettings_inBounds,
    (commit_then_sync_restores_settings demoConst demoExt demoExt demoEngine
      (commitSettings demoConst demoExt demoEngine demoGuiSettings).1 demoGuiSettings demoGui
      rfl demoSettings_inBounds (by decide)).1,
    (commit_then_sync_restores_settings demoConst demoExt demoExt demoEngine
      (commitSettings demoConst demoExt demoEngine demoGuiSettings).1 demoGuiSettings demoGui
      rfl demoSettings_inBounds (by decide)).2.1⟩

end Furnace
